import Mathlib

/-!
# apt acquire methods: `methods/gpgv.cc` and `methods/http.cc`

A shallow embedding of the signature-verification method and of the HTTP
method, and the properties of the specification checked against it.

Conventions.
* A byte is a `Char`; a C string or a `std::string` is a `List Char`.
* The counters of the ring buffer (`unsigned long`) are natural numbers; the
  64-bit wrap-around of these counters is not modelled (it would need 2^64
  transferred bytes).
* Every external effect (the verification helper, `select`, `read`, `write`)
  is an explicit input of the function that performs it.
-/

namespace Apt

/-! ## C library helpers -/

/-- The NUL byte terminating a C string. -/
def NUL : Char := Char.ofNat 0

/-- The C string stored at the start of a byte array: the bytes before the
first NUL. -/
def cstr (mem : List Char) : List Char :=
  mem.takeWhile (fun c => c != NUL)

/-- `strncmp(a, b, n) == 0`: the first `n` positions agree, where the
comparison stops after a common terminating NUL. -/
def strncmpEq (a b : List Char) (n : Nat) : Bool :=
  (cstr a ++ [NUL]).take n == (cstr b ++ [NUL]).take n

/-- `isxdigit` in the C locale. -/
def isxdigit (c : Char) : Bool :=
  (decide ('0' ≤ c) && decide (c ≤ '9')) ||
  (decide ('a' ≤ c) && decide (c ≤ 'f')) ||
  (decide ('A' ≤ c) && decide (c ≤ 'F'))

/-- `sizeof` of a string literal: its length plus the terminating NUL. -/
def sizeofLit (lit : List Char) : Nat := lit.length + 1

/-! ## methods/gpgv.cc -/

namespace GPGV

def GNUPGPREFIX : List Char := "[GNUPG:]".toList
def GNUPGBADSIG : List Char := "[GNUPG:] BADSIG".toList
def GNUPGNOPUBKEY : List Char := "[GNUPG:] NO_PUBKEY".toList
def GNUPGVALIDSIG : List Char := "[GNUPG:] VALIDSIG".toList
def GNUPGGOODSIG : List Char := "[GNUPG:] GOODSIG".toList
def GNUPGKEYEXPIRED : List Char := "[GNUPG:] KEYEXPIRED".toList
def GNUPGREVKEYSIG : List Char := "[GNUPG:] REVKEYSIG".toList
def GNUPGNODATA : List Char := "[GNUPG:] NODATA".toList

/-- The four signer vectors filled by `VerifyGetSigners`. -/
structure Signers where
  GoodSigners : List (List Char)
  BadSigners : List (List Char)
  WorthlessSigners : List (List Char)
  NoPubKeySigners : List (List Char)
deriving DecidableEq

/-- The vectors as `URIAcquire` declares them: all empty. -/
def Signers.empty : Signers := ⟨[], [], [], []⟩

/-- `string(buffer+sizeof(GNUPGPREFIX))`: the C string starting nine bytes
into the line. -/
def afterPrefix (buffer : List Char) : List Char :=
  cstr (buffer.drop (sizeofLit GNUPGPREFIX))

/-- The GOODSIG branch (gpgv.cc lines 137-144): `sig` starts after the prefix,
`p` starts `sizeof("GOODSIG")` bytes later and runs over hex digits, a NUL is
stored at `p`, and `string(sig)` is pushed.  The line is followed in memory by
its terminating NUL. -/
def goodSigEntry (buffer : List Char) : List Char :=
  let sig := (buffer ++ [NUL]).drop (sizeofLit GNUPGPREFIX)
  let n := sizeofLit "GOODSIG".toList
  cstr (sig.take n ++ (sig.drop n).takeWhile isxdigit ++ [NUL])

/-- The body of the `while (1)` loop of `VerifyGetSigners` for one line
returned by `getline` (gpgv.cc lines 104-145): six independent `if`s, in
source order. -/
def classifyLine (buffer : List Char) (s : Signers) : Signers :=
  let s := if strncmpEq buffer GNUPGBADSIG (sizeofLit GNUPGBADSIG - 1)
    then { s with BadSigners := s.BadSigners ++ [afterPrefix buffer] } else s
  let s := if strncmpEq buffer GNUPGNOPUBKEY (sizeofLit GNUPGNOPUBKEY - 1)
    then { s with NoPubKeySigners := s.NoPubKeySigners ++ [afterPrefix buffer] } else s
  let s := if strncmpEq buffer GNUPGNODATA (sizeofLit GNUPGBADSIG - 1)
    then { s with BadSigners := s.BadSigners ++ [afterPrefix buffer] } else s
  let s := if strncmpEq buffer GNUPGKEYEXPIRED (sizeofLit GNUPGKEYEXPIRED - 1)
    then { s with WorthlessSigners := s.WorthlessSigners ++ [afterPrefix buffer] } else s
  let s := if strncmpEq buffer GNUPGREVKEYSIG (sizeofLit GNUPGREVKEYSIG - 1)
    then { s with WorthlessSigners := s.WorthlessSigners ++ [afterPrefix buffer] } else s
  let s := if strncmpEq buffer GNUPGGOODSIG (sizeofLit GNUPGGOODSIG - 1)
    then { s with GoodSigners := s.GoodSigners ++ [goodSigEntry buffer] } else s
  s

/-- What one run of the helper process looks like from the parent: whether
`pipe` and `fork` succeed, the lines `getline` returns until end of file, and
`WEXITSTATUS(status)` after `waitpid`. -/
structure HelperRun where
  pipeFails : Bool
  forkFails : Bool
  strerror : List Char
  lines : List (List Char)
  exitStatus : Nat

/-- The status string chosen from the exit status (gpgv.cc lines 157-176). -/
def exitMessage (exitStatus : Nat) (s : Signers) : List Char :=
  if exitStatus = 0 then
    if s.GoodSigners.isEmpty then
      "Internal error: Good signature, but could not determine key fingerprint?!".toList
    else []
  else if exitStatus = 1 then
    "At least one invalid signature was encountered.".toList
  else if exitStatus = 111 then
    "Could not execute 'apt-key' to verify signature (is gnupg installed?)".toList
  else if exitStatus = 112 then
    "Clearsigned file isn't valid, got 'NODATA' (does the network require authentication?)".toList
  else
    "Unknown error executing apt-key".toList

/-- `GPGVMethod::VerifyGetSigners`: returns the status string and the signer
vectors (passed by reference in the source). -/
def VerifyGetSigners (h : HelperRun) (s : Signers) : List Char × Signers :=
  if h.pipeFails then ("Couldn't create pipe".toList, s)
  else if h.forkFails then ("Couldn't spawn new process".toList ++ h.strerror, s)
  else
    let s := h.lines.foldl (fun acc buffer => classifyLine buffer acc) s
    (exitMessage h.exitStatus s, s)

/-- What `URIAcquire` did: its return value, the text handed to
`_error->Error`, and the `GPGVOutput` passed to `URIDone`. -/
structure AcquireResult where
  ret : Bool
  error : Option (List Char)
  done : Option (List (List Char))
deriving DecidableEq

/-- `errmsg += *I + "\n"` over a vector. -/
def appendLines (errmsg : List Char) (v : List (List Char)) : List Char :=
  v.foldl (fun acc I => acc ++ (I ++ "\n".toList)) errmsg

/-- The error text built in gpgv.cc lines 200-228. -/
def buildErrmsg (msg : List Char) (s : Signers) : List Char :=
  if s.BadSigners.isEmpty && s.WorthlessSigners.isEmpty && s.NoPubKeySigners.isEmpty then
    msg
  else
    let errmsg : List Char := []
    let errmsg := if !s.BadSigners.isEmpty then
      appendLines (errmsg ++ "The following signatures were invalid:\n".toList) s.BadSigners
      else errmsg
    let errmsg := if !s.WorthlessSigners.isEmpty then
      appendLines (errmsg ++ "The following signatures were invalid:\n".toList) s.WorthlessSigners
      else errmsg
    let errmsg := if !s.NoPubKeySigners.isEmpty then
      appendLines (errmsg ++
        "The following signatures couldn't be verified because the public key is not available:\n".toList)
        s.NoPubKeySigners
      else errmsg
    errmsg

/-- The part of `URIAcquire` after the call of `VerifyGetSigners`
(gpgv.cc lines 198-249). -/
def acquireDecision (msg : List Char) (s : Signers) : AcquireResult :=
  if s.GoodSigners.isEmpty || !s.BadSigners.isEmpty || !s.NoPubKeySigners.isEmpty then
    let errmsg := buildErrmsg msg s
    if s.GoodSigners.isEmpty || !s.BadSigners.isEmpty then
      { ret := false, error := some errmsg, done := none }
    else
      { ret := true, error := none,
        done := some (s.GoodSigners ++ s.BadSigners ++ s.NoPubKeySigners) }
  else
    { ret := true, error := none,
      done := some (s.GoodSigners ++ s.BadSigners ++ s.NoPubKeySigners) }

/-- `GPGVMethod::URIAcquire`. -/
def URIAcquire (h : HelperRun) : AcquireResult :=
  let r := VerifyGetSigners h Signers.empty
  acquireDecision r.1 r.2

end GPGV

/-! ## methods/http.cc -/

namespace Http

/-- `(unsigned int)-1`, the value `Reset` stores in `MaxGet`. -/
def UINT_MAX : Nat := 4294967295

/-- The largest `unsigned long` (64-bit). -/
def ULONG_MAX : Nat := 18446744073709551615

/-- `CircleBuf`: the array `Buf` (indexed by position, only positions below
`Size` are used), the two running counters, the pending output string with its
cursor, the write limit, and the MD5 accumulator (`none` for the null pointer,
otherwise the bytes added so far). -/
structure CircleBuf where
  Buf : Nat → Char
  Size : Nat
  InP : Nat
  OutP : Nat
  OutQueue : List Char
  StrPos : Nat
  MaxGet : Nat
  MD5 : Option (List Char)

/-- `memcpy(Buf + dst, src, src.length)`. -/
def memcpy (Buf : Nat → Char) (dst : Nat) (src : List Char) : Nat → Char :=
  fun j => if dst ≤ j then src.getD (j - dst) (Buf j) else Buf j

/-- The `n` bytes stored at `Buf + off`. -/
def peek (Buf : Nat → Char) (off n : Nat) : List Char :=
  (List.range n).map (fun k => Buf (off + k))

/-- `CircleBuf::Reset`. -/
def CircleBuf.Reset (b : CircleBuf) : CircleBuf :=
  { b with InP := 0, OutP := 0, StrPos := 0, MaxGet := UINT_MAX, OutQueue := [],
           MD5 := b.MD5.map (fun _ => []) }

/-- `CircleBuf::CircleBuf(Size)`: a new array of unspecified content `mem`,
no MD5 accumulator, then `Reset`. -/
def CircleBuf.new (Size : Nat) (mem : Nat → Char) : CircleBuf :=
  CircleBuf.Reset
    { Buf := mem, Size := Size, InP := 0, OutP := 0, OutQueue := [], StrPos := 0,
      MaxGet := 0, MD5 := none }

/-- Modelled from the spec: `LeftRead` is defined in http.h, which is not
among the sources.  A read stores "as many contiguous segments as fit" and
"wrap-around uses `InP % Size`": the segment offered to one `read` is the free
space, cut at the physical end of the array. -/
def CircleBuf.LeftRead (b : CircleBuf) : Nat :=
  let Sz := b.Size - (b.InP - b.OutP)
  if Sz > b.Size - (b.InP % b.Size) then b.Size - (b.InP % b.Size) else Sz

/-- Modelled from the spec: `LeftWrite` is defined in http.h, which is not
among the sources.  A write drains the buffered bytes, "stops when `OutP`
reaches `MaxGet`" and "wrap-around uses `OutP % Size`": the segment offered to
one `write` is the buffered data, cut at the limit and at the physical end of
the array. -/
def CircleBuf.LeftWrite (b : CircleBuf) : Nat :=
  let Sz := b.InP - b.OutP
  let Sz := if b.InP > b.MaxGet then b.MaxGet - b.OutP else Sz
  if Sz > b.Size - (b.OutP % b.Size) then b.Size - (b.OutP % b.Size) else Sz

/-- Modelled from the spec: `Limit` is defined in http.h, which is not among
the sources: "set `MaxGet = OutP + n`, or unlimited when `n < 0`". -/
def CircleBuf.Limit (b : CircleBuf) (Max : Int) : CircleBuf :=
  if Max < 0 then { b with MaxGet := ULONG_MAX } else { b with MaxGet := b.OutP + Max.toNat }

/-- Modelled from the spec: `IsLimit` is defined in http.h, which is not among
the sources: "true iff `OutP == MaxGet`". -/
def CircleBuf.IsLimit (b : CircleBuf) : Bool := b.MaxGet == b.OutP

/-- Modelled from the spec: `WriteSpace` is defined in http.h, which is not
among the sources: "true iff the buffer has drainable bytes (or pending string
bytes not yet in the ring)". -/
def CircleBuf.WriteSpace (b : CircleBuf) : Bool :=
  decide (b.InP - b.OutP > 0) || decide (b.OutQueue.length - b.StrPos > 0)

/-- Modelled from the spec: `ReadSpace` is defined in http.h, which is not
among the sources: "true iff the ring has unused capacity". -/
def CircleBuf.ReadSpace (b : CircleBuf) : Bool :=
  decide (b.Size - (b.InP - b.OutP) > 0)

/-! ### File descriptors

What a descriptor answers to successive `read` and `write` calls is given as a
list of events, one per call. -/

/-- One answer of a descriptor to `read`: bytes that have arrived, end of
file, `EAGAIN`, or another error. -/
inductive ReadEv where
  | data (bs : List Char)
  | eof
  | eagain
  | error
deriving DecidableEq

/-- One answer of a descriptor to `write`: it takes at most `n` bytes,
`EAGAIN`, or another error. -/
inductive WriteEv where
  | accept (n : Nat)
  | eagain
  | error
deriving DecidableEq

/-- The return value of `read`, with the bytes stored. -/
inductive ReadRes where
  | bytes (bs : List Char)
  | zero
  | eagain
  | error

/-- The return value of `write`. -/
inductive WriteRes where
  | wrote (n : Nat)
  | zero
  | eagain
  | error

/-- `read(fd, buf, count)`.  Arrived bytes that do not fit stay queued; end of
file persists; a descriptor with no event left has nothing to deliver. -/
def sysRead (fd : List ReadEv) (count : Nat) : ReadRes × List ReadEv :=
  match fd with
  | [] => (.eagain, [])
  | .data bs :: rest =>
    if count = 0 then (.zero, fd)
    else if bs = [] then (.eagain, rest)
    else (.bytes (bs.take count),
          if bs.drop count = [] then rest else .data (bs.drop count) :: rest)
  | .eof :: rest => (.zero, .eof :: rest)
  | .eagain :: rest => (.eagain, rest)
  | .error :: rest => (.error, rest)

/-- `write(fd, buf, count)`.  A descriptor with no event left takes
everything. -/
def sysWrite (fd : List WriteEv) (count : Nat) : WriteRes × List WriteEv :=
  match fd with
  | [] => (if count = 0 then .zero else .wrote count, [])
  | .accept n :: rest => (if min n count = 0 then .zero else .wrote (min n count), rest)
  | .eagain :: rest => (.eagain, rest)
  | .error :: rest => (.error, rest)

/-- The `while (1)` loop of `CircleBuf::Read(int Fd)`; every pass that does
not return stores at least one byte, so `Size + 1` passes are never
exhausted. -/
def CircleBuf.ReadLoop : Nat → CircleBuf → List ReadEv → Bool × CircleBuf × List ReadEv
  | 0, b, fd => (true, b, fd)
  | fuel + 1, b, fd =>
    if b.InP - b.OutP = b.Size then (true, b, fd)
    else
      match sysRead fd b.LeftRead with
      | (.bytes bs, fd1) =>
        CircleBuf.ReadLoop fuel
          { b with Buf := memcpy b.Buf (b.InP % b.Size) bs, InP := b.InP + bs.length } fd1
      | (.zero, fd1) => (false, b, fd1)
      | (.eagain, fd1) => (true, b, fd1)
      | (.error, fd1) => (false, b, fd1)

/-- `CircleBuf::Read(int Fd)`. -/
def CircleBuf.Read (b : CircleBuf) (fd : List ReadEv) : Bool × CircleBuf × List ReadEv :=
  CircleBuf.ReadLoop (b.Size + 1) b fd

/-- The `while (1)` loop of `CircleBuf::FillOut`. -/
def CircleBuf.FillOutLoop : Nat → CircleBuf → CircleBuf
  | 0, b => b
  | fuel + 1, b =>
    if b.InP - b.OutP = b.Size then b
    else
      let Sz := if b.OutQueue.length - b.StrPos < b.LeftRead
        then b.OutQueue.length - b.StrPos else b.LeftRead
      let b1 := { b with
        Buf := memcpy b.Buf (b.InP % b.Size) ((b.OutQueue.drop b.StrPos).take Sz),
        StrPos := b.StrPos + Sz,
        InP := b.InP + Sz }
      if b1.OutQueue.length = b1.StrPos then { b1 with StrPos := 0, OutQueue := [] }
      else CircleBuf.FillOutLoop fuel b1

/-- `CircleBuf::FillOut`. -/
def CircleBuf.FillOut (b : CircleBuf) : CircleBuf :=
  if b.OutQueue.isEmpty then b else CircleBuf.FillOutLoop (b.Size + 1) b

/-- `CircleBuf::Read(string Data)`. -/
def CircleBuf.ReadString (b : CircleBuf) (Data : List Char) : Bool × CircleBuf :=
  (true, CircleBuf.FillOut { b with OutQueue := b.OutQueue ++ Data })

/-- The `while (1)` loop of `CircleBuf::Write(int Fd)`; `out` collects the
bytes handed to the descriptor. -/
def CircleBuf.WriteLoop :
    Nat → CircleBuf → List WriteEv → List Char → Bool × CircleBuf × List WriteEv × List Char
  | 0, b, fd, out => (true, b, fd, out)
  | fuel + 1, b, fd, out =>
    let b := b.FillOut
    if b.OutP = b.InP then (true, b, fd, out)
    else if b.OutP = b.MaxGet then (true, b, fd, out)
    else
      match sysWrite fd b.LeftWrite with
      | (.wrote n, fd1) =>
        let seg := peek b.Buf (b.OutP % b.Size) n
        CircleBuf.WriteLoop fuel
          { b with MD5 := b.MD5.map (fun acc => acc ++ seg), OutP := b.OutP + n } fd1 (out ++ seg)
      | (.zero, fd1) => (false, b, fd1, out)
      | (.eagain, fd1) => (true, b, fd1, out)
      | (.error, fd1) => (false, b, fd1, out)

/-- `CircleBuf::Write(int Fd)`: the return value, the buffer, the descriptor,
and the bytes written to it. -/
def CircleBuf.Write (b : CircleBuf) (fd : List WriteEv) :
    Bool × CircleBuf × List WriteEv × List Char :=
  CircleBuf.WriteLoop ((b.InP - b.OutP) + (b.OutQueue.length - b.StrPos) + 1) b fd []

/-- The loop `for (I++; I < InP && Buf[I%Size] == '\r'; I++);` entered with the
already incremented `I`. -/
def CircleBuf.skipCR (b : CircleBuf) : Nat → Nat → Nat
  | 0, I => I
  | fuel + 1, I =>
    if I < b.InP ∧ b.Buf (I % b.Size) = '\r' then CircleBuf.skipCR b fuel (I + 1) else I

/-- The outer `for` loop of `CircleBuf::WriteTillEl` up to the point where the
end `I` of the text to pop is known; `none` when the loop runs out. -/
def CircleBuf.scanEl (b : CircleBuf) (Single : Bool) : Nat → Nat → Option Nat
  | 0, _ => none
  | fuel + 1, I =>
    if I < b.InP then
      if b.Buf (I % b.Size) ≠ '\n' then CircleBuf.scanEl b Single fuel (I + 1)
      else
        let I1 := b.skipCR (b.InP - (I + 1)) (I + 1)
        if Single then some I1
        else if b.Buf (I1 % b.Size) ≠ '\n' then CircleBuf.scanEl b Single fuel (I1 + 1)
        else some (b.skipCR (b.InP - (I1 + 1)) (I1 + 1))
    else none

/-- The loop `while (OutP < I)` of `CircleBuf::WriteTillEl`. -/
def CircleBuf.popTo (I : Nat) : Nat → CircleBuf → List Char → Bool × CircleBuf × List Char
  | 0, b, Data => (true, b, Data)
  | fuel + 1, b, Data =>
    if b.OutP < I then
      if b.LeftWrite = 0 then (false, b, Data)
      else
        let Sz := if I - b.OutP < b.LeftWrite then I - b.OutP else b.LeftWrite
        CircleBuf.popTo I fuel { b with OutP := b.OutP + Sz }
          (Data ++ peek b.Buf (b.OutP % b.Size) Sz)
    else (true, b, Data)

/-- `CircleBuf::WriteTillEl(Data, Single)`: the return value, the buffer and
the string `Data`. -/
def CircleBuf.WriteTillEl (b : CircleBuf) (Data : List Char) (Single : Bool) :
    Bool × CircleBuf × List Char :=
  match b.scanEl Single (b.InP - b.OutP + 1) b.OutP with
  | none => (false, b, Data)
  | some I =>
    let I := if I > b.InP then b.InP else I
    CircleBuf.popTo I (I - b.OutP + 1) b []

/-! ### The server state, the method object and the outside world -/

/-- `enum {Header, Data} State` of `ServerState`. -/
inductive ServerPhase where
  | Header
  | Data
deriving DecidableEq

/-- `enum {Chunked, Stream, Closes} Encoding` of `ServerState`. -/
inductive TransferEncoding where
  | Chunked
  | Stream
  | Closes
deriving DecidableEq

/-- The fields of `ServerState` used by http.cc. -/
structure ServerState where
  In : CircleBuf
  Out : CircleBuf
  ServerFd : Int
  State : ServerPhase
  Major : Nat
  Minor : Nat
  Result : Nat
  Code : List Char
  Size : Nat
  StartPos : Int
  Date : Int
  HaveContent : Bool
  Encoding : TransferEncoding

/-- The object `File` points to: its descriptor, and whether it was opened on
`/dev/null` rather than on the destination file. -/
structure FileFd where
  Fd : Int
  devNull : Bool
deriving DecidableEq

/-- The fields of the queued `FetchItem` used here. -/
structure FetchItem where
  DestFile : List Char
  LastModified : Int
deriving DecidableEq

/-- `pkgAcqMethod::FetchResult`. -/
structure FetchResult where
  MD5Sum : List Char
  LastModified : Int
  IMSHit : Bool
  Filename : List Char
  Size : Nat
  ResumePoint : Int
deriving DecidableEq

/-- A default-constructed `FetchResult`. -/
def FetchResult.new : FetchResult :=
  { MD5Sum := [], LastModified := 0, IMSHit := false, Filename := [], Size := 0,
    ResumePoint := 0 }

/-- A message sent to APT on standard output. -/
inductive Emit where
  | URIStart (Res : FetchResult)
  | URIDone (Res : FetchResult)
  | Fail (Err : Option String)
deriving DecidableEq

/-- One return of `select`: its return value, the descriptors it reports
(among those that were requested), and what `Run(true)` returns if standard
input is served. -/
structure SelectEv where
  Res : Int
  serverR : Bool
  serverW : Bool
  serverE : Bool
  fileW : Bool
  fileE : Bool
  stdinR : Bool
  Run : Int
deriving DecidableEq

/-- The `select` answer when nothing else is said: every requested read or
write is possible, nothing is exceptional, APT is silent. -/
def SelectEv.allReady : SelectEv :=
  { Res := 1, serverR := true, serverW := true, serverE := false, fileW := true,
    fileE := false, stdinR := false, Run := 0 }

/-- The method object (`HttpMethod` with its current `ServerState`) together
with the outside world it acts on: the destination file, the error stack, the
messages sent to APT, and the future answers of `select`, of the socket and of
the file descriptor. -/
structure World where
  Srv : ServerState
  File : Option FileFd
  Queue : FetchItem
  FailFd : Int
  FailTime : Int
  FailCounter : Nat
  dest : Option (List Char)
  destTime : Int
  errors : List String
  emitted : List Emit
  sent : List Char
  selects : List SelectEv
  sockIn : List ReadEv
  sockOut : List WriteEv
  fileOut : List WriteEv
  openFails : Bool
  hashFails : Bool

/-- How a call that may end the process comes back. -/
inductive Outcome where
  | ret (r : Bool)
  | exit100
deriving DecidableEq

/-- `_error->Error(...)` and `_error->Errno(...)`: push a message. -/
def World.pushError (w : World) (msg : String) : World :=
  { w with errors := w.errors ++ [msg] }

/-- `pkgAcqMethod::Fail()`: report the pending error to APT and discard the
error stack. -/
def World.Fail (w : World) : World :=
  { w with emitted := w.emitted ++ [Emit.Fail w.errors.head?], errors := [] }

/-- `ServerState::Close`. -/
def World.Close (w : World) : World :=
  { w with Srv := { w.Srv with ServerFd := -1 } }

/-- `Srv->In.Limit(Max)`. -/
def World.limitIn (w : World) (Max : Int) : World :=
  { w with Srv := { w.Srv with In := w.Srv.In.Limit Max } }

/-- `Srv->In.Write(File->Fd())`: the drained bytes go to the file the
descriptor is open on. -/
def World.writeInToFile (w : World) (f : FileFd) : Bool × World :=
  let r := w.Srv.In.Write w.fileOut
  (r.1, { w with
    Srv := { w.Srv with In := r.2.1 },
    fileOut := r.2.2.1,
    dest := if f.devNull then w.dest else w.dest.map (fun d => d ++ r.2.2.2) })

/-- The loop `while (Srv->In.WriteSpace() == true)` shared by `Flush` and
`ServerDie`: `some r` in the first component when the function returns `r`
from inside the loop, `none` when the loop is left. -/
def World.drainLoop (msg : String) (f : FileFd) : Nat → World → Option (Option Bool × World)
  | 0, _ => none
  | fuel + 1, w =>
    if w.Srv.In.WriteSpace then
      let r := w.writeInToFile f
      if r.1 = false then some (some false, r.2.pushError msg)
      else if r.2.Srv.In.IsLimit then some (some true, r.2)
      else World.drainLoop msg f fuel r.2
    else some (none, w)

/-- `HttpMethod::Flush`. -/
def World.Flush (fuel : Nat) (w : World) : Option (Bool × World) :=
  match w.File with
  | none => some (false, w)
  | some f =>
    if w.Srv.In.WriteSpace = false then some (true, w)
    else
      match World.drainLoop "Error writing to file" f fuel w with
      | none => none
      | some (some r, w1) => some (r, w1)
      | some (none, w1) =>
        if w1.Srv.In.IsLimit || w1.Srv.Encoding = TransferEncoding.Closes then some (true, w1)
        else some (false, w1)

/-- `HttpMethod::ServerDie`.  In the Data phase `File` is dereferenced; the
result is undefined (`none`) when there is no file. -/
def World.ServerDie (fuel : Nat) (w : World) : Option (Bool × World) :=
  let dumped : Option (Option Bool × World) :=
    if w.Srv.State = ServerPhase.Data then
      match w.File with
      | none => none
      | some f => World.drainLoop "Error writing to the file" f fuel w
    else some (none, w)
  match dumped with
  | none => none
  | some (some r, w1) => some (r, w1)
  | some (none, w1) =>
    if w1.Srv.In.IsLimit = false && w1.Srv.State != ServerPhase.Header &&
        w1.Srv.Encoding != TransferEncoding.Closes then
      some (false, w1.pushError "Error reading from server")
    else
      let w2 := w1.limitIn (-1)
      if w2.Srv.In.WriteSpace = false then some (false, w2)
      else some (true, w2.Close)

/-- The next answer of `select`. -/
def World.nextSelect (w : World) : SelectEv × World :=
  match w.selects with
  | [] => (SelectEv.allReady, w)
  | ev :: rest => (ev, { w with selects := rest })

/-- `Srv->In.Read(Srv->ServerFd)` inside `Go`, performed when `doIt`. -/
def World.serveRead (doIt : Bool) (w : World) : Bool × World :=
  if doIt then
    let r := w.Srv.In.Read w.sockIn
    (r.1, { w with Srv := { w.Srv with In := r.2.1 }, sockIn := r.2.2 })
  else (true, w)

/-- `Srv->Out.Write(Srv->ServerFd)` inside `Go`, performed when `doIt`. -/
def World.serveWrite (doIt : Bool) (w : World) : Bool × World :=
  if doIt then
    let r := w.Srv.Out.Write w.sockOut
    (r.1, { w with Srv := { w.Srv with Out := r.2.1 }, sockOut := r.2.2.1,
                   sent := w.sent ++ r.2.2.2 })
  else (true, w)

/-- `Srv->In.Write(FileFD)` inside `Go`, performed when `doIt`. -/
def World.serveFile (doIt : Bool) (w : World) : Bool × World :=
  match w.File with
  | none => (true, w)
  | some f => if doIt then w.writeInToFile f else (true, w)

/-- `ServerDie(Srv)` as the return value of `Go`. -/
def World.dieInGo (fuel : Nat) (w : World) : Option (Outcome × World) :=
  match World.ServerDie fuel w with
  | none => none
  | some (r, w1) => some (Outcome.ret r, w1)

/-- `HttpMethod::Go`. -/
def World.Go (fuel : Nat) (ToFile : Bool) (w : World) : Option (Outcome × World) :=
  -- Server has closed the connection
  if w.Srv.ServerFd = -1 && w.Srv.In.WriteSpace = false then some (Outcome.ret false, w)
  else
    -- Add the server
    let wServer := w.Srv.Out.WriteSpace && w.Srv.ServerFd != -1
    let rServer := w.Srv.In.ReadSpace && w.Srv.ServerFd != -1
    -- Add the file
    let FileFD : Int := match w.File with
      | none => -1
      | some f => f.Fd
    let wFile := w.Srv.In.WriteSpace && ToFile && FileFD != -1
    -- Error Set
    let eFile := FileFD != -1
    let eServer := w.Srv.ServerFd != -1
    -- Select
    let sel := w.nextSelect
    let ev := sel.1
    let w := sel.2
    if ev.Res < 0 then some (Outcome.ret false, w.pushError "Select failed")
    else if ev.Res = 0 then World.dieInGo fuel (w.pushError "Connection timed out")
    else if (eFile && ev.fileE) || (eServer && ev.serverE) then
      -- Some kind of exception (error) on the sockets, die
      some (Outcome.ret false, w.pushError "Socket Exception")
    else
      -- Handle server IO
      let rd := w.serveRead (w.Srv.ServerFd != -1 && (rServer && ev.serverR))
      if rd.1 = false then World.dieInGo fuel rd.2
      else
        let wr := rd.2.serveWrite (rd.2.Srv.ServerFd != -1 && (wServer && ev.serverW))
        if wr.1 = false then World.dieInGo fuel wr.2
        else
          -- Send data to the file
          let fl := wr.2.serveFile (FileFD != -1 && (wFile && ev.fileW))
          if fl.1 = false then
            some (Outcome.ret false, fl.2.pushError "Error writing to output file")
          else if ev.stdinR && ev.Run != 0 then
            -- Handle commands from APT
            some (Outcome.exit100, fl.2)
          else some (Outcome.ret true, fl.2)

/-! ### `ServerState::RunData` -/

/-- `isspace` in the C locale. -/
def isspace (c : Char) : Bool :=
  c = ' ' || c = '\t' || c = '\n' || c = Char.ofNat 11 || c = Char.ofNat 12 || c = '\r'

/-- The value of a hexadecimal digit. -/
def hexDigitVal (c : Char) : Nat :=
  if '0' ≤ c ∧ c ≤ '9' then c.toNat - '0'.toNat
  else if 'a' ≤ c ∧ c ≤ 'f' then c.toNat - 'a'.toNat + 10
  else c.toNat - 'A'.toNat + 10

/-- The largest `long` (64-bit). -/
def LONG_MAX : Int := 9223372036854775807

/-- `strtol(nptr, 0, 16)`: leading white space, an optional sign, an optional
`0x`, then hexadecimal digits; the value is clamped to the range of `long`. -/
def strtol16 (nptr : List Char) : Int :=
  let s := (cstr nptr).dropWhile isspace
  let sg : Bool × List Char := match s with
    | '-' :: t => (true, t)
    | '+' :: t => (false, t)
    | _ => (false, s)
  let body : List Char := match sg.2 with
    | '0' :: x :: d :: t => if (x = 'x' ∨ x = 'X') ∧ isxdigit d = true then d :: t else sg.2
    | _ => sg.2
  let v : Int := ((body.takeWhile isxdigit).foldl (fun acc c => acc * 16 + hexDigitVal c) 0 : Nat)
  if sg.1 then (if v > LONG_MAX + 1 then -(LONG_MAX + 1) else -v)
  else (if v > LONG_MAX then LONG_MAX else v)

/-- The loops of the form
`do { if (In.WriteTillEl(Data,true) == true ...) break; } while ((Last = Owner->Go(false,this)) == true);`
of `RunData`.  With `trailer` the exit test also asks `Data.length() <= 2`.
Returns `Last` and `Data`. -/
def World.waitLine (trailer : Bool) :
    Nat → World → List Char → Option (Outcome × World × List Char)
  | 0, _, _ => none
  | fuel + 1, w, Data =>
    let r := w.Srv.In.WriteTillEl Data true
    let w1 := { w with Srv := { w.Srv with In := r.2.1 } }
    if r.1 = true && (!trailer || decide (r.2.2.length ≤ 2)) then
      some (Outcome.ret true, w1, r.2.2)
    else
      match World.Go fuel false w1 with
      | none => none
      | some (Outcome.ret true, w2) => World.waitLine trailer fuel w2 r.2.2
      | some (Outcome.ret false, w2) => some (Outcome.ret false, w2, r.2.2)
      | some (Outcome.exit100, w2) => some (Outcome.exit100, w2, r.2.2)

/-- The loop `while (Owner->Go(true,this) == true) if (In.IsLimit() == true) break;`
of `RunData`; it returns when the loop is left. -/
def World.transferBlock : Nat → World → Option (Outcome × World)
  | 0, _ => none
  | fuel + 1, w =>
    match World.Go fuel true w with
    | none => none
    | some (Outcome.ret true, w1) =>
      if w1.Srv.In.IsLimit then some (Outcome.ret true, w1)
      else World.transferBlock fuel w1
    | some (Outcome.ret false, w1) => some (Outcome.ret false, w1)
    | some (Outcome.exit100, w1) => some (Outcome.exit100, w1)

/-- The `while (1)` loop of the chunked branch of `RunData`. -/
def World.chunkLoop : Nat → World → Option (Outcome × World)
  | 0, _ => none
  | fuel + 1, w =>
    -- Grab the block size
    match World.waitLine false fuel (w.limitIn (-1)) [] with
    | none => none
    | some (Outcome.exit100, w1, _) => some (Outcome.exit100, w1)
    | some (Outcome.ret false, w1, _) => some (Outcome.ret false, w1)
    | some (Outcome.ret true, w1, Data) =>
      -- See if we are done
      let Len := strtol16 Data
      if Len = 0 then
        -- We have to remove the entity trailer
        match World.waitLine true fuel (w1.limitIn (-1)) Data with
        | none => none
        | some (Outcome.exit100, w2, _) => some (Outcome.exit100, w2)
        | some (Outcome.ret false, w2, _) => some (Outcome.ret false, w2)
        | some (Outcome.ret true, w2, _) => some (Outcome.ret true, w2)
      else
        -- Transfer the block
        match World.transferBlock fuel (w1.limitIn Len) with
        | none => none
        | some (Outcome.exit100, w2) => some (Outcome.exit100, w2)
        | some (Outcome.ret _, w2) =>
          if w2.Srv.In.IsLimit = false then some (Outcome.ret false, w2)
          else
            -- The server sends an extra new line before the next block specifier..
            match World.waitLine false fuel (w2.limitIn (-1)) Data with
            | none => none
            | some (Outcome.exit100, w3, _) => some (Outcome.exit100, w3)
            | some (Outcome.ret false, w3, _) => some (Outcome.ret false, w3)
            | some (Outcome.ret true, w3, _) => World.chunkLoop fuel w3

/-- The loop `do { if (In.IsLimit() == false) continue; In.Limit(-1); return true; }
while (Owner->Go(true,this) == true);` of `RunData`, followed by
`return Owner->Flush(this);` when the loop is left. -/
def World.streamLoop : Nat → World → Option (Outcome × World)
  | 0, _ => none
  | fuel + 1, w =>
    if w.Srv.In.IsLimit then some (Outcome.ret true, w.limitIn (-1))
    else
      match World.Go fuel true w with
      | none => none
      | some (Outcome.ret true, w1) => World.streamLoop fuel w1
      | some (Outcome.ret false, w1) =>
        match World.Flush fuel w1 with
        | none => none
        | some (r, w2) => some (Outcome.ret r, w2)
      | some (Outcome.exit100, w1) => some (Outcome.exit100, w1)

/-- `ServerState::RunData`.  `fuel` bounds the number of passes of every loop;
`none` means the bound was too small. -/
def World.RunData (fuel : Nat) (w : World) : Option (Outcome × World) :=
  let w := { w with Srv := { w.Srv with State := ServerPhase.Data } }
  -- Chunked transfer encoding is fun..
  if w.Srv.Encoding = TransferEncoding.Chunked then World.chunkLoop fuel w
  else
    let w := if w.Srv.Encoding = TransferEncoding.Closes then w.limitIn (-1)
      else w.limitIn ((w.Srv.Size : Int) - w.Srv.StartPos)
    World.streamLoop fuel w

/-! ### `HttpMethod::DealWithHeaders` and the end of `HttpMethod::Loop` -/

/-- `ftruncate(fd, length)`: cut, or extend with NUL bytes. -/
def ftruncate (file : List Char) (length : Nat) : List Char :=
  (file ++ List.replicate (length - file.length) NUL).take length

/-- `HttpMethod::DealWithHeaders`: the return value, `Res`, and the world. -/
def World.DealWithHeaders (Res : FetchResult) (w : World) : Nat × FetchResult × World :=
  -- Not Modified
  if w.Srv.Result = 304 then
    (1, { Res with IMSHit := true, LastModified := w.Queue.LastModified },
     { w with dest := none })
  else if w.Srv.Result < 200 ∨ w.Srv.Result ≥ 300 then
    let w := w.pushError "HTTP error status"
    if w.Srv.HaveContent = true then (4, Res, w) else (3, Res, w)
  else
    -- This is some sort of 2xx 'data follows' reply
    let Res := { Res with LastModified := w.Srv.Date, Size := w.Srv.Size }
    -- Open the file
    let w : World :=
      if w.openFails then
        { w with File := some { Fd := -1, devNull := false },
                 errors := w.errors ++ ["Could not open file"] }
      else
        { w with File := some { Fd := 4, devNull := false },
                 dest := some (w.dest.getD []) }
    if w.errors ≠ [] then (3, Res, w)
    else
      let w := { w with FailFd := 4, FailTime := w.Srv.Date }
      -- Set the expected size
      let Res := if w.Srv.StartPos ≥ 0 then { Res with ResumePoint := w.Srv.StartPos } else Res
      let w := if w.Srv.StartPos ≥ 0
        then { w with dest := w.dest.map (fun d => ftruncate d w.Srv.StartPos.toNat) } else w
      let w := { w with Srv := { w.Srv with In := { w.Srv.In with MD5 := some [] } } }
      -- Fill the MD5 Hash if the file is non-empty (resume)
      if w.Srv.StartPos > 0 then
        if w.hashFails then (3, Res, w.pushError "Problem hashing file")
        else
          (0, Res, { w with Srv := { w.Srv with In := { w.Srv.In with
            MD5 := some ((w.dest.getD []).take w.Srv.StartPos.toNat) } } })
      else (0, Res, w)

/-- The part of the body of the `while (1)` loop of `HttpMethod::Loop` after
`RunHeaders` has returned 0 (http.cc lines 952-1021).  `md5` is the digest
function of `MD5Summation`.  Returns whether the process went on (`ret`) or
ended in `exit(100)`. -/
def World.LoopDecide (md5 : List Char → List Char) (fuel : Nat) (w : World) :
    Option (Outcome × World) :=
  let Res : FetchResult := { FetchResult.new with Filename := w.Queue.DestFile }
  let d := w.DealWithHeaders Res
  let Res := d.2.1
  let w := d.2.2
  if d.1 = 0 then
    -- Ok, the file is Open
    let w := { w with emitted := w.emitted ++ [Emit.URIStart Res] }
    match World.RunData fuel w with
    | none => none
    | some (Outcome.exit100, w1) => some (Outcome.exit100, w1)
    | some (Outcome.ret Result, w1) =>
      -- Close the file, destroy the FD object and timestamp it
      let w2 := { w1 with FailFd := -1, File := none, destTime := w1.Srv.Date }
      -- Send status to APT
      let w3 :=
        if Result = true then
          let Res := { Res with MD5Sum := md5 (w2.Srv.In.MD5.getD []) }
          { w2 with emitted := w2.emitted ++ [Emit.URIDone Res] }
        else w2.Fail
      some (Outcome.ret true, { w3 with FailCounter := 0 })
  else if d.1 = 1 then
    -- IMS hit
    some (Outcome.ret true,
      { w with emitted := w.emitted ++ [Emit.URIDone Res], FailCounter := 0 })
  else if d.1 = 3 then
    -- Hard server error, not found or something
    some (Outcome.ret true, { w.Fail with FailCounter := 0 })
  else if d.1 = 4 then
    -- We need to flush the data, the header is like a 404 w/ error text
    let w := w.Fail
    let w := { w with File := some { Fd := 4, devNull := true } }
    match World.RunData fuel w with
    | none => none
    | some (Outcome.exit100, w1) => some (Outcome.exit100, w1)
    | some (Outcome.ret _, w1) =>
      some (Outcome.ret true, { w1 with File := none, FailCounter := 0 })
  else
    some (Outcome.ret true, { (w.Fail) with FailCounter := 0 })

/-! ### Concrete situations -/

/-- A server state as `RunHeaders` leaves it after a `200` reply whose headers
announced the given encoding, size and start position, on a connection that is
still open; both rings are empty. -/
def ServerState.after200 (Encoding : TransferEncoding) (Size : Nat) (StartPos : Int) :
    ServerState :=
  { In := CircleBuf.new (64 * 1024) (fun _ => NUL),
    Out := CircleBuf.new (1 * 1024) (fun _ => NUL),
    ServerFd := 3, State := ServerPhase.Header, Major := 1, Minor := 1, Result := 200,
    Code := "OK".toList, Size := Size, StartPos := StartPos, Date := 5,
    HaveContent := true, Encoding := Encoding }

/-- The method after the headers of a `200` reply, with no destination file
on disk yet, when the socket will answer `sockIn` and everything else
succeeds. -/
def World.after200 (Encoding : TransferEncoding) (Size : Nat) (sockIn : List ReadEv) : World :=
  { Srv := ServerState.after200 Encoding Size 0,
    File := none, Queue := { DestFile := "dest".toList, LastModified := 0 },
    FailFd := -1, FailTime := 0, FailCounter := 0,
    dest := none, destTime := 0, errors := [], emitted := [], sent := [],
    selects := [], sockIn := sockIn, sockOut := [], fileOut := [],
    openFails := false, hashFails := false }

/-- The hexadecimal digits of a number, as a chunk-size line carries them. -/
def hexOf (n : Nat) : List Char := Nat.toDigits 16 n

/-- The chunked transfer encoding of a list of payloads: for each chunk
`hex(size)\r\n payload \r\n`, then `0\r\n\r\n`. -/
def chunkedEncode : List (List Char) → List Char
  | [] => "0\r\n\r\n".toList
  | payload :: rest =>
    hexOf payload.length ++ "\r\n".toList ++ payload ++ "\r\n".toList ++ chunkedEncode rest

/-- One operation on a `CircleBuf`, with the answers of the descriptor
involved. -/
inductive BufOp where
  | readFd (fd : List ReadEv)
  | readString (Data : List Char)
  | fillOut
  | writeFd (fd : List WriteEv)
  | writeTillEl (Data : List Char) (Single : Bool)

/-- The buffer after one operation. -/
def CircleBuf.apply (b : CircleBuf) : BufOp → CircleBuf
  | BufOp.readFd fd => (b.Read fd).2.1
  | BufOp.readString Data => (b.ReadString Data).2
  | BufOp.fillOut => b.FillOut
  | BufOp.writeFd fd => (b.Write fd).2.1
  | BufOp.writeTillEl Data Single => (b.WriteTillEl Data Single).2.1

/-- The buffer after a sequence of operations. -/
def CircleBuf.applyAll (b : CircleBuf) (ops : List BufOp) : CircleBuf :=
  ops.foldl CircleBuf.apply b

/-- `k` successive calls of `Write(fd)` on the same descriptor: whether every
call returned true, the buffer, the descriptor, and all bytes written. -/
def CircleBuf.WriteTimes : Nat → CircleBuf → List WriteEv → Bool × CircleBuf × List WriteEv × List Char
  | 0, b, fd => (true, b, fd, [])
  | k + 1, b, fd =>
    let r := b.Write fd
    let r2 := CircleBuf.WriteTimes k r.2.1 r.2.2.1
    (r.1 && r2.1, r2.2.1, r2.2.2.1, r.2.2.2 ++ r2.2.2.2)

/-- A descriptor that accepts bytes: every `write` takes at least one byte. -/
def acceptsBytes (fd : List WriteEv) : Bool :=
  fd.all (fun ev => match ev with
    | WriteEv.accept n => decide (0 < n)
    | _ => false)

/-- A ring of eight bytes that served an earlier reply `B\n\n`, was `Reset`,
and then received the two bytes `A\n`. -/
def reusedBuf : CircleBuf :=
  let b0 := CircleBuf.new 8 (fun _ => NUL)
  let b1 := (b0.Read [ReadEv.data "B\n\n".toList]).2.1
  let b2 := (b1.WriteTillEl [] false).2.1
  let b3 := b2.Reset
  (b3.Read [ReadEv.data "A\n".toList]).2.1

/-- A fresh ring of eight bytes that received `2\r\n\rA`: a chunk-size line
followed by the first two payload bytes. -/
def chunkHeadBuf : CircleBuf :=
  ((CircleBuf.new 8 (fun _ => NUL)).Read [ReadEv.data "2\r\n\rA".toList]).2.1

/-- The bytes buffered in the ring, from `OutP` up to `InP`. -/
def CircleBuf.content (b : CircleBuf) : List Char :=
  (List.range (b.InP - b.OutP)).map (fun k => b.Buf ((b.OutP + k) % b.Size))

/-! ### Invariants -/

/-- The counters of a ring are in order and at most `Size` apart. -/
def Ring (b : CircleBuf) : Prop :=
  b.OutP ≤ b.InP ∧ b.InP - b.OutP ≤ b.Size

/-- The ring is being fed from the string `s`, enqueued on a freshly reset
ring: position `i` of the ring holds byte `i` of `s`, the pending queue is
either all of `s` with its cursor at `InP`, or already emptied, and the limit
is not below the length of `s`. -/
structure Feeding (s : List Char) (b : CircleBuf) : Prop where
  ring : Ring b
  size_pos : 0 < b.Size
  in_le : b.InP ≤ s.length
  queue : (b.OutQueue = s ∧ b.StrPos = b.InP ∧ b.InP < s.length) ∨
    (b.OutQueue = [] ∧ b.StrPos = 0 ∧ b.InP = s.length)
  holds : ∀ i, b.OutP ≤ i → i < b.InP → b.Buf (i % b.Size) = s.getD i NUL
  limit : s.length ≤ b.MaxGet

/-- The MD5 accumulator of the inbound ring follows the destination file: the
file is open on the destination, the messages sent to APT so far are `e`, the
file holds `d` followed by some bytes `body`, and the accumulator was fed `p`
followed by the same `body`. -/
def Hashing (p d : List Char) (e : List Emit) (w : World) : Prop :=
  (∃ f, w.File = some f ∧ f.devNull = false) ∧ w.emitted = e ∧
  ∃ body, w.dest = some (d ++ body) ∧ w.Srv.In.MD5 = some (p ++ body)

/-! ### `sscanf`, `stringcasecmp` and `ServerState::HeaderLine` -/

/-- Modelled from the spec: `MAXLEN` is defined in http.h, which is not among
the sources: a header line of "length ≥ 65536" is a parse error. -/
def MAXLEN : Nat := 65536

/-- `stringcasecmp(A, B) == 0` of apt-pkg: the two strings are equal up to the
case of letters. -/
def stringcasecmpEq (A B : List Char) : Bool :=
  A.map Char.toUpper == B.map Char.toUpper

/-- One directive of a `scanf` format, as far as http.cc uses them: an ordinary
character, white space, `%u` / `%lu` / `%*u` (`long` for the `l` modifier,
`assign` false for `*`), and `%[^\n]`. -/
inductive ScanDirective where
  | lit (c : Char)
  | space
  | unsigned (long : Bool) (assign : Bool)
  | notNewline
deriving DecidableEq

/-- A value stored by `sscanf`. -/
inductive ScanValue where
  | num (v : Nat)
  | str (s : List Char)
deriving DecidableEq

/-- The value of a decimal digit. -/
def digitVal (c : Char) : Nat := c.toNat - '0'.toNat

/-- The conversion behind `%u` and `%lu`: leading white space, an optional
sign, at least one decimal digit; the value saturates at the largest
`unsigned long` and a minus sign negates it modulo 2^64.  Returns the value and
the unread input, or `none` on a matching failure. -/
def scanUnsigned (input : List Char) : Option (Nat × List Char) :=
  let s := input.dropWhile isspace
  let sg : Bool × List Char := match s with
    | '-' :: t => (true, t)
    | '+' :: t => (false, t)
    | _ => (false, s)
  let ds := sg.2.takeWhile Char.isDigit
  if ds = [] then none
  else
    let v := ds.foldl (fun acc c => acc * 10 + digitVal c) 0
    let v := if v > ULONG_MAX then ULONG_MAX else v
    let v := if sg.1 then (ULONG_MAX + 1 - v) % (ULONG_MAX + 1) else v
    some (v, sg.2.drop ds.length)

/-- `sscanf(input, format, ...)`: the values stored, in order; the return value
of `sscanf` is their number.  A `%u` stores its value modulo 2^32. -/
def sscanf : List Char → List ScanDirective → List ScanValue
  | _, [] => []
  | input, ScanDirective.lit c :: fmt =>
    match input with
    | [] => []
    | x :: rest => if x = c then sscanf rest fmt else []
  | input, ScanDirective.space :: fmt => sscanf (input.dropWhile isspace) fmt
  | input, ScanDirective.unsigned long assign :: fmt =>
    match scanUnsigned input with
    | none => []
    | some (v, rest) =>
      let v := if long then v else v % 4294967296
      if assign then ScanValue.num v :: sscanf rest fmt else sscanf rest fmt
  | input, ScanDirective.notNewline :: fmt =>
    let s := input.takeWhile (fun c => c != '\n')
    if s = [] then [] else ScanValue.str s :: sscanf (input.drop s.length) fmt

/-- The ordinary characters of a format. -/
def scanLits (s : String) : List ScanDirective := s.toList.map ScanDirective.lit

/-- The format `"HTTP/%u.%u %u %[^\n]"`. -/
def fmtStatus : List ScanDirective :=
  scanLits "HTTP/" ++ [ScanDirective.unsigned false true, ScanDirective.lit '.',
    ScanDirective.unsigned false true, ScanDirective.space,
    ScanDirective.unsigned false true, ScanDirective.space, ScanDirective.notNewline]

/-- The format `"HTTP %u %[^\n]"`. -/
def fmtStatusNoVersion : List ScanDirective :=
  scanLits "HTTP" ++ [ScanDirective.space, ScanDirective.unsigned false true,
    ScanDirective.space, ScanDirective.notNewline]

/-- The format `"%lu"`. -/
def fmtLength : List ScanDirective := [ScanDirective.unsigned true true]

/-- The format `"bytes %lu-%*u/%lu"`. -/
def fmtRange : List ScanDirective :=
  scanLits "bytes" ++ [ScanDirective.space, ScanDirective.unsigned true true,
    ScanDirective.lit '-', ScanDirective.unsigned false false, ScanDirective.lit '/',
    ScanDirective.unsigned true true]

/-- The bits of an `unsigned long` read as a `signed long`. -/
def toSignedLong (v : Nat) : Int :=
  if v > 9223372036854775807 then (v : Int) - 18446744073709551616 else v

/-- `(unsigned)x` for a `signed long` `x`: the low 32 bits. -/
def toUnsignedInt (x : Int) : Nat := (x % 4294967296).toNat

/-- What `HeaderLine` did: its return value, the server state, and the message
given to `_error->Error` if any. -/
structure HeaderResult where
  ok : Bool
  Srv : ServerState
  error : Option String

/-- `Line.find(' ')`: the position of the first space, `none` for `npos`. -/
def findSpace (Line : List Char) : Option Nat :=
  let p := (Line.takeWhile (fun c => c != ' ')).length
  if p < Line.length then some p else none

/-- The fields stored through `&Major,&Minor,&Result,Code` by the values
`sscanf` converted. -/
def ServerState.storeStatus (s : ServerState) : List ScanValue → ServerState
  | ScanValue.num a :: ScanValue.num b :: ScanValue.num c :: ScanValue.str d :: _ =>
    { s with Major := a, Minor := b, Result := c, Code := d }
  | ScanValue.num a :: ScanValue.num b :: ScanValue.num c :: _ =>
    { s with Major := a, Minor := b, Result := c }
  | ScanValue.num a :: ScanValue.num b :: _ => { s with Major := a, Minor := b }
  | ScanValue.num a :: _ => { s with Major := a }
  | _ => s

/-- The fields stored through `&Result,Code`. -/
def ServerState.storeResult (s : ServerState) : List ScanValue → ServerState
  | ScanValue.num c :: ScanValue.str d :: _ => { s with Result := c, Code := d }
  | ScanValue.num c :: _ => { s with Result := c }
  | _ => s

/-- The fields stored through `&StartPos,&Size`. -/
def ServerState.storeRange (s : ServerState) : List ScanValue → ServerState
  | ScanValue.num a :: ScanValue.num b :: _ => { s with StartPos := toSignedLong a, Size := b }
  | ScanValue.num a :: _ => { s with StartPos := toSignedLong a }
  | _ => s

/-- The field stored through `&Size`. -/
def ServerState.storeSize (s : ServerState) : List ScanValue → ServerState
  | ScanValue.num a :: _ => { s with Size := a }
  | _ => s

/-- `ServerState::HeaderLine`.  `StrToTime` is the date parser of apt-pkg. -/
def ServerState.HeaderLine (StrToTime : List Char → Option Int) (s : ServerState)
    (Line : List Char) : HeaderResult :=
  if Line.isEmpty then { ok := true, Srv := s, error := none }
  -- The http server might be trying to do something evil.
  else if Line.length ≥ MAXLEN then
    { ok := false, Srv := s, error := some "Got a single header line over MAXLEN chars" }
  else
    match findSpace Line with
    | none => { ok := false, Srv := s, error := some "Bad header line" }
    | some Pos =>
      if Pos + 1 > Line.length then { ok := false, Srv := s, error := some "Bad header line" }
      else
        let Tag := Line.take Pos
        let Val := Line.drop (Pos + 1)
        if stringcasecmpEq (Tag.take 4) "HTTP".toList then
          -- Evil servers return no version
          if Line.getD 4 NUL = '/' then
            let vals := sscanf (cstr Line) fmtStatus
            if vals.length ≠ 4 then
              { ok := false, Srv := s.storeStatus vals,
                error := some "The http server sent an invalid reply header" }
            else { ok := true, Srv := s.storeStatus vals, error := none }
          else
            let s := { s with Major := 0, Minor := 9 }
            let vals := sscanf (cstr Line) fmtStatusNoVersion
            if vals.length ≠ 2 then
              { ok := false, Srv := s.storeResult vals,
                error := some "The http server sent an invalid reply header" }
            else { ok := true, Srv := s.storeResult vals, error := none }
        else if stringcasecmpEq Tag "Content-Length:".toList then
          let s := if s.Encoding = TransferEncoding.Closes
            then { s with Encoding := TransferEncoding.Stream } else s
          let s := { s with HaveContent := true }
          -- The length is already set from the Content-Range header
          if s.StartPos ≠ 0 then { ok := true, Srv := s, error := none }
          else
            let vals := sscanf (cstr Val) fmtLength
            if vals.length ≠ 1 then
              { ok := false, Srv := s.storeSize vals,
                error := some "The http server sent an invalid Content-Length header" }
            else { ok := true, Srv := s.storeSize vals, error := none }
        else if stringcasecmpEq Tag "Content-Type:".toList then
          { ok := true, Srv := { s with HaveContent := true }, error := none }
        else if stringcasecmpEq Tag "Content-Range:".toList then
          let s := { s with HaveContent := true }
          let vals := sscanf (cstr Val) fmtRange
          if vals.length ≠ 2 then
            { ok := false, Srv := s.storeRange vals,
              error := some "The http server sent an invalid Content-Range header" }
          else
            let s := s.storeRange vals
            if toUnsignedInt s.StartPos > s.Size then
              { ok := false, Srv := s, error := some "This http server has broken range support" }
            else { ok := true, Srv := s, error := none }
        else if stringcasecmpEq Tag "Transfer-Encoding:".toList then
          let s := { s with HaveContent := true }
          let s := if stringcasecmpEq Val "chunked".toList
            then { s with Encoding := TransferEncoding.Chunked } else s
          { ok := true, Srv := s, error := none }
        else if stringcasecmpEq Tag "Last-Modified:".toList then
          match StrToTime Val with
          | none => { ok := false, Srv := s, error := some "Unknown date format" }
          | some t => { ok := true, Srv := { s with Date := t }, error := none }
        else { ok := true, Srv := s, error := none }

/-- The assignments at the start of `ServerState::RunHeaders` (http.cc lines
347-358); `now` is what `time(&Date)` stores. -/
def ServerState.headerInit (now : Int) (s : ServerState) : ServerState :=
  { s with State := ServerPhase.Header, Major := 0, Minor := 0, Result := 0, Size := 0,
           StartPos := 0, Encoding := TransferEncoding.Closes, HaveContent := false,
           Date := now }

/-- The `for` loop of `RunHeaders` over the header block `Data`: the lines are
cut at every `\n` and `\r` and given to `HeaderLine`.  Returns false when a
line is refused (`return 2`), the server state, and the error messages
pushed. -/
def ServerState.feedLines (StrToTime : List Char → Option Int) :
    Nat → ServerState → List Char → Bool × ServerState × List String
  | 0, s, _ => (true, s, [])
  | fuel + 1, s, Data =>
    match Data with
    | [] => (true, s, [])
    | _ :: _ =>
      let line := Data.takeWhile (fun c => c != '\n' && c != '\r')
      let r := s.HeaderLine StrToTime line
      if r.ok = false then (false, r.Srv, r.error.toList)
      else ServerState.feedLines StrToTime fuel r.Srv (Data.drop (line.length + 1))

/-- How `RunHeaders` comes back: with its return value (0 headers parsed, 1 IO
error, 2 header parse error), or not at all because `Go` ended the process. -/
inductive HeadersOutcome where
  | ret (code : Nat)
  | exit100
deriving DecidableEq

/-- The `do ... while (Owner->Go(false,this) == true)` loop of
`ServerState::RunHeaders`. -/
def World.headersLoop (StrToTime : List Char → Option Int) :
    Nat → World → Option (HeadersOutcome × World)
  | 0, _ => none
  | fuel + 1, w =>
    let r := w.Srv.In.WriteTillEl [] false
    let w1 := { w with Srv := { w.Srv with In := r.2.1 } }
    if r.1 = false then
      match World.Go fuel false w1 with
      | none => none
      | some (Outcome.ret true, w2) => World.headersLoop StrToTime fuel w2
      | some (Outcome.ret false, w2) => some (HeadersOutcome.ret 1, w2)
      | some (Outcome.exit100, w2) => some (HeadersOutcome.exit100, w2)
    else
      let f := w1.Srv.feedLines StrToTime (r.2.2.length + 1) r.2.2
      let w2 := { w1 with Srv := f.2.1, errors := w1.errors ++ f.2.2 }
      if f.1 = false then some (HeadersOutcome.ret 2, w2)
      else some (HeadersOutcome.ret 0, w2)

/-- `ServerState::RunHeaders`; `now` is what `time(&Date)` stores. -/
def World.RunHeaders (StrToTime : List Char → Option Int) (now : Int) (fuel : Nat)
    (w : World) : Option (HeadersOutcome × World) :=
  World.headersLoop StrToTime fuel { w with Srv := w.Srv.headerInit now }

/-! ### `HttpMethod::SendReq` -/

/-- The fields of apt-pkg's `URI` used by `SendReq`; `Port` is 0 when the URI
names no port. -/
structure URI where
  Host : List Char
  Port : Nat
  Path : List Char
deriving DecidableEq

/-- What `stat` stores about the destination file. -/
structure StatBuf where
  st_size : Int
  st_mtime : Int
deriving DecidableEq

/-- `printf` of a non-negative number with `%u` or `%li`. -/
def decimal (n : Nat) : List Char := Nat.toDigits 10 n

/-- `ProperHost` in `SendReq` (http.cc lines 573-578). -/
def ProperHost (Uri : URI) : List Char :=
  if Uri.Port ≠ 0 then Uri.Host ++ (":".toList ++ decimal Uri.Port) else Uri.Host

/-- `sprintf(Buf, ...)` into `char Buf[300]` (http.cc line 572) followed by
reading `Buf` back as a string: the formatted text and its terminating NUL
are stored in `Buf`.  When they do not fit in the 300 bytes the call writes
past the array and the behaviour is undefined, which is `none` here. -/
def sprintfBuf (text : List Char) : Option (List Char) :=
  if text.length < 300 then some text else none

/-- The text formatted for the request line and the `Host` line, with
`Connection: keep-alive` when no proxy is used (the format strings and
arguments of http.cc lines 586-591).  `UriText` is `Itm->Uri`, `Uri` its
parsed form. -/
def requestHeadText (proxyEmpty : Bool) (UriText : List Char) (Uri : URI) : List Char :=
  if proxyEmpty then
    "GET ".toList ++ cstr Uri.Path ++ " HTTP/1.1\r\nHost: ".toList ++ cstr (ProperHost Uri)
      ++ "\r\nConnection: keep-alive\r\n".toList
  else
    "GET ".toList ++ cstr UriText ++ " HTTP/1.1\r\nHost: ".toList ++ cstr (ProperHost Uri)
      ++ "\r\n".toList

/-- The start of `Req`: `sprintf(Buf, ...)` of the request head into the 300
bytes of `Buf`, then `string Req = Buf` (http.cc lines 586-592). -/
def requestHead (proxyEmpty : Bool) (UriText : List Char) (Uri : URI) : Option (List Char) :=
  sprintfBuf (requestHeadText proxyEmpty UriText Uri)

/-- The text formatted for the conditional headers (the format strings and
arguments of http.cc lines 594-610), empty where `SendReq` adds none:
`stat` is what `stat(Itm->DestFile)` found, `none` when it failed;
`TimeRFC1123` is the date formatter of apt-pkg. -/
def conditionalText (TimeRFC1123 : Int → List Char) (stat : Option StatBuf)
    (Itm : FetchItem) : List Char :=
  match stat with
  | some SBuf =>
    if SBuf.st_size > 0 then
      -- In this case we send an if-range query with a range header
      "Range: bytes=".toList ++ decimal (SBuf.st_size - 1).toNat ++ "-\r\nIf-Range: ".toList
        ++ cstr (TimeRFC1123 SBuf.st_mtime) ++ "\r\n".toList
    else if Itm.LastModified ≠ 0 then
      "If-Modified-Since: ".toList ++ cstr (TimeRFC1123 Itm.LastModified) ++ "\r\n".toList
    else []
  | none =>
    if Itm.LastModified ≠ 0 then
      "If-Modified-Since: ".toList ++ cstr (TimeRFC1123 Itm.LastModified) ++ "\r\n".toList
    else []

/-- What `SendReq` appends to `Req` for the conditional headers: the text goes
through `sprintf(Buf, ...)` and `Req += Buf`; where no header is added nothing
is printed and nothing appended. -/
def conditionalHeaders (TimeRFC1123 : Int → List Char) (stat : Option StatBuf)
    (Itm : FetchItem) : Option (List Char) :=
  if (conditionalText TimeRFC1123 stat Itm).isEmpty then some []
  else sprintfBuf (conditionalText TimeRFC1123 stat Itm)

/-- The string `Req` built by `SendReq`; `none` when one of the two `sprintf`
calls overruns `Buf`. -/
def requestText (TimeRFC1123 : Int → List Char) (proxyEmpty : Bool) (UriText : List Char)
    (Uri : URI) (stat : Option StatBuf) (Itm : FetchItem) : Option (List Char) :=
  match requestHead proxyEmpty UriText Uri, conditionalHeaders TimeRFC1123 stat Itm with
  | some head, some cond => some (head ++ cond ++ "User-Agent: Debian APT-HTTP/1.2\r\n\r\n".toList)
  | _, _ => none

/-- `HttpMethod::SendReq`: the request is placed in the outbound ring with
`Out.Read(Req)`; `none` when `Buf` is overrun. -/
def SendReq (TimeRFC1123 : Int → List Char) (proxyEmpty : Bool) (UriText : List Char)
    (Uri : URI) (stat : Option StatBuf) (Itm : FetchItem) (Out : CircleBuf) :
    Option CircleBuf :=
  (requestText TimeRFC1123 proxyEmpty UriText Uri stat Itm).map
    (fun Req => (Out.ReadString Req).2)

/-! ### Sequences of calls on a ring -/

/-- A call on a `CircleBuf`: one of the operations of `BufOp`, or
`Limit(Max)`. -/
inductive BufCall where
  | op (o : BufOp)
  | limit (Max : Int)

/-- The buffer after one call, and the bytes the call wrote to its
descriptor (only `Write(fd)` writes any). -/
def CircleBuf.call (b : CircleBuf) : BufCall → CircleBuf × List Char
  | BufCall.op (BufOp.writeFd fd) => ((b.Write fd).2.1, (b.Write fd).2.2.2)
  | BufCall.op o => (b.apply o, [])
  | BufCall.limit Max => (b.Limit Max, [])

/-- The buffer after a sequence of calls, and all bytes written to
descriptors, in order. -/
def CircleBuf.callAll (b : CircleBuf) : List BufCall → CircleBuf × List Char
  | [] => (b, [])
  | c :: rest =>
    let r := b.call c
    let r2 := CircleBuf.callAll r.1 rest
    (r2.1, r.2 ++ r2.2)

/-- A call that leaves the limit alone and takes bytes out of the ring only
through `Write(fd)`: `Read(fd)`, `Read(string)`, `FillOut` or `Write(fd)`. -/
def BufCall.isTransfer : BufCall → Bool
  | BufCall.op (BufOp.writeTillEl _ _) => false
  | BufCall.op _ => true
  | BufCall.limit _ => false

/-! ### The middle of `HttpMethod::Loop`, and more concrete situations -/

/-- The body of the `while (1)` loop of `HttpMethod::Loop` from the call of
`RunHeaders` on (http.cc lines 927-1021): the header data is fetched, then the
reply is dealt with as in `World.LoopDecide`.  `_error->DumpErrors()` empties
the error stack. -/
def World.LoopReceive (StrToTime : List Char → Option Int) (now : Int)
    (md5 : List Char → List Char) (fuel : Nat) (w : World) : Option (Outcome × World) :=
  match World.RunHeaders StrToTime now fuel w with
  | none => none
  | some (HeadersOutcome.exit100, w1) => some (Outcome.exit100, w1)
  | some (HeadersOutcome.ret code, w1) =>
    if code = 0 then World.LoopDecide md5 fuel w1
    else if code = 2 then
      -- The header data is bad
      some (Outcome.ret true, (w1.pushError "Bad header Data").Fail)
    else
      -- The server closed a connection during the header get..
      some (Outcome.ret true,
        { w1 with FailCounter := w1.FailCounter + 1, errors := [] }.Close)

/-- The server state when `RunHeaders` has just reset it: a connection that is
open, both rings empty, no header seen yet. -/
def ServerState.fresh : ServerState :=
  (ServerState.after200 TransferEncoding.Closes 0 0).headerInit 0

/-- The method with a freshly connected server, no destination file on disk,
when the socket will answer `sockIn` and everything else succeeds. -/
def World.connected (sockIn : List ReadEv) : World :=
  { World.after200 TransferEncoding.Closes 0 sockIn with Srv := ServerState.fresh }

/-- The name token of a header line: the text before the first space. -/
def headerName (Line : List Char) : List Char :=
  Line.takeWhile (fun c => c != ' ')

/-- The number a string of decimal digits denotes. -/
def decimalValue (ds : List Char) : Nat :=
  Nat.ofDigits 10 ((ds.map digitVal).reverse)

/-- The method after the headers of a `200` reply that resumes at byte 9 of 15,
with the first 9 bytes on disk, when the destination file cannot be opened. -/
def World.openRefused : World :=
  { World.after200 TransferEncoding.Stream 15 [] with
    Srv := ServerState.after200 TransferEncoding.Stream 15 9,
    dest := some "012345678".toList, openFails := true }

/-- The Size field of a `uri-done` message. -/
def Emit.doneSize : Emit → Option Nat
  | Emit.URIDone Res => some Res.Size
  | _ => none

/-- The test `stat(Itm->DestFile.c_str(),&SBuf) >= 0 && SBuf.st_size > 0` of
`SendReq`: the destination file exists and is not empty. -/
def hasPartialFile (stat : Option StatBuf) : Bool :=
  match stat with
  | some SBuf => decide (SBuf.st_size > 0)
  | none => false

/-! ### The whole `while (1)` loop of `HttpMethod::Loop` -/

/-- What `ServerState::Open` meets when it has to connect (http.cc lines
299-326): the host does not resolve, `socket` fails, `connect` fails, or the
connection is made, on a socket that will answer `sockIn` to reads and
`sockOut` to writes. -/
inductive ConnectEv where
  | resolveFails
  | socketFails
  | connectFails
  | connected (sockIn : List ReadEv) (sockOut : List WriteEv)

/-- `ServerState::Open`.  After a failed `connect` the descriptor of the
unconnected socket stays in `ServerFd`; reading from it or writing to it is an
error. -/
def World.Open (c : ConnectEv) (w : World) : Bool × World :=
  -- Use the already open connection if possible.
  if w.Srv.ServerFd ≠ -1 then (true, w)
  else
    let w := w.Close
    let w := { w with Srv := { w.Srv with In := w.Srv.In.Reset, Out := w.Srv.Out.Reset } }
    match c with
    | ConnectEv.resolveFails => (false, w.pushError "Could not resolve")
    | ConnectEv.socketFails => (false, w.pushError "Could not create a socket")
    | ConnectEv.connectFails =>
      (false, { w with Srv := { w.Srv with ServerFd := 3 }, sockIn := [ReadEv.error],
                       sockOut := [WriteEv.error] }.pushError "Could not create a socket")
    | ConnectEv.connected sockIn sockOut =>
      (true, { w with Srv := { w.Srv with ServerFd := 3 }, sockIn := sockIn,
                      sockOut := sockOut })

/-- `new ServerState(Queue->Uri,this)`: rings of 64 KiB and 1 KiB, then
`Reset()`, which leaves no connection; `now` is what `time(&Date)` stores.
The fields the constructor leaves unset are given the values `RunHeaders`
stores before they are read. -/
def ServerState.created (now : Int) : ServerState :=
  { In := CircleBuf.new (64 * 1024) (fun _ => NUL),
    Out := CircleBuf.new (1 * 1024) (fun _ => NUL),
    ServerFd := -1, State := ServerPhase.Header, Major := 0, Minor := 0, Result := 0,
    Code := [], Size := 0, StartPos := 0, Date := now, HaveContent := false,
    Encoding := TransferEncoding.Closes }

/-- What one pass through the `while (1)` loop of `HttpMethod::Loop` meets from
outside: whether `WaitFd` succeeds, what `Run(true)` returns and which items it
appends to the queue, whether the current server is the one the head item
names (`Server->Comp`), what `Open` meets, whether no proxy is configured, the
URI of the head item as text and parsed, and the time. -/
structure PassEv where
  waitOk : Bool
  Run : Int
  arrivals : List FetchItem
  comp : Bool
  connect : ConnectEv
  proxyEmpty : Bool
  UriText : List Char
  Uri : URI
  now : Int

/-- The state of `HttpMethod::Loop` between two passes: the method and its
world, the queue of items (`Queue` points to its head), and whether `Server`
is not null. -/
structure LoopState where
  w : World
  Queue : List FetchItem
  Server : Bool

/-- How one pass ends: the loop goes on, `Loop` returns, or the process
exits. -/
inductive PassEnd where
  | next
  | ret (code : Int)
  | exit100
deriving DecidableEq

/-- Modelled from the spec: `pkgAcqMethod::URIDone` and `pkgAcqMethod::Fail`
belong to apt-pkg, which is not among the sources.  A reported `uri-done` or
`Fail` ends the item at the head of the queue, and the loop goes on with the
next one; `uri-start` only reports. -/
def Emit.ends : Emit → Bool
  | Emit.URIStart _ => false
  | Emit.URIDone _ => true
  | Emit.Fail _ => true

/-- One pass through the `while (1)` loop of `HttpMethod::Loop` (http.cc lines
888-1021).  The destination file of every item is the one file of the world.
Returns `none` when `fuel` does not suffice for the loops inside, and when
`SendReq` overruns its buffer. -/
def LoopState.pass (StrToTime : List Char → Option Int) (TimeRFC1123 : Int → List Char)
    (md5 : List Char → List Char) (fuel : Nat) (ev : PassEv) (st : LoopState) :
    Option (PassEnd × LoopState) :=
  let st : LoopState :=
    if st.w.FailCounter ≥ 2 then
      { st with
        w := { st.w with
          emitted := st.w.emitted ++ [Emit.Fail (some "Massive Server Brain Damage")],
          FailCounter := 0 },
        Queue := st.Queue.tail }
    else st
  -- We have no commands, wait for some to arrive
  if st.Queue.isEmpty = true ∧ ev.waitOk = false then some (PassEnd.ret 0, st)
  -- Run messages
  else if ev.Run ≠ 0 then some (PassEnd.ret 100, st)
  else
    match st.Queue ++ ev.arrivals with
    | [] => some (PassEnd.next, st)
    | Itm :: rest =>
      let w : World := { st.w with Queue := Itm }
      -- Connect to the server
      let w : World :=
        if st.Server = false ∨ ev.comp = false then
          { w with Srv := ServerState.created ev.now }
        else w
      -- Connnect to the host
      let o := w.Open ev.connect
      if o.1 = false then
        some (PassEnd.next, { w := o.2.Fail, Queue := rest, Server := true })
      else
        -- Queue the request
        let stat : Option StatBuf :=
          o.2.dest.map (fun d => { st_size := d.length, st_mtime := o.2.destTime })
        match SendReq TimeRFC1123 ev.proxyEmpty ev.UriText ev.Uri stat Itm o.2.Srv.Out with
        | none => none
        | some Out1 =>
          let w1 : World := { o.2 with Srv := { o.2.Srv with Out := Out1 } }
          match World.LoopReceive StrToTime ev.now md5 fuel w1 with
          | none => none
          | some (Outcome.exit100, w2) =>
            some (PassEnd.exit100, { w := w2, Queue := Itm :: rest, Server := true })
          | some (Outcome.ret _, w2) =>
            let ended := ((w2.emitted.drop w1.emitted.length).filter Emit.ends).length
            some (PassEnd.next,
              { w := w2, Queue := (Itm :: rest).drop ended, Server := true })

/-- Successive passes through the loop, one per element of the list, until
`Loop` returns or the process exits. -/
def LoopState.run (StrToTime : List Char → Option Int) (TimeRFC1123 : Int → List Char)
    (md5 : List Char → List Char) (fuel : Nat) :
    List PassEv → LoopState → Option (PassEnd × LoopState)
  | [], st => some (PassEnd.next, st)
  | ev :: evs, st =>
    match LoopState.pass StrToTime TimeRFC1123 md5 fuel ev st with
    | some (PassEnd.next, st1) => LoopState.run StrToTime TimeRFC1123 md5 fuel evs st1
    | r => r

/-- The state in which `Loop` enters its `while (1)`: no server, an empty
queue, `FailCounter = 0`. -/
def LoopState.start : LoopState :=
  { w := { World.connected [] with Srv := ServerState.created 0 }, Queue := [],
    Server := false }

/-- A pass in which nothing arrives from APT and the server is the one the
head item names; the other fields are to be filled in. -/
def PassEv.quiet (connect : ConnectEv) : PassEv :=
  { waitOk := true, Run := 0, arrivals := [], comp := true, connect := connect,
    proxyEmpty := true, UriText := "http://h/f".toList,
    Uri := { Host := "h".toList, Port := 0, Path := "/f".toList }, now := 7 }

/-- Two queued items, used in the traces of the loop. -/
def itemA : FetchItem := { DestFile := "a".toList, LastModified := 0 }

/-- The second queued item. -/
def itemB : FetchItem := { DestFile := "b".toList, LastModified := 0 }

/-- The URI `http://example.org:8080/f`, parsed. -/
def uriWithPort : URI :=
  { Host := "example.org".toList, Port := 8080, Path := "/f".toList }

/-- The MD5Sum field of a `uri-done` message. -/
def Emit.doneMD5 : Emit → Option (List Char)
  | Emit.URIDone Res => some Res.MD5Sum
  | _ => none

end Http

/-! # Properties

## C strings -/

theorem cstr_append_of_noNUL (a b : List Char) (ha : ∀ c ∈ a, c ≠ NUL) :
    cstr (a ++ b) = a ++ cstr b := by
  unfold cstr
  induction a with
  | nil => simp
  | cons x xs ih =>
    have hx : x ≠ NUL := ha x (List.mem_cons_self _ _)
    have := ih (fun c hc => ha c (List.mem_cons_of_mem _ hc))
    simp [List.takeWhile_cons, hx, this]

theorem cstr_self_of_noNUL (a : List Char) (ha : ∀ c ∈ a, c ≠ NUL) : cstr a = a := by
  have := cstr_append_of_noNUL a [] ha
  simpa [cstr] using this

theorem cstr_initial (a : List Char) : cstr a <+: a := List.takeWhile_prefix _

theorem cstr_noNUL (a : List Char) : ∀ c ∈ cstr a, c ≠ NUL := by
  intro c hc
  have := List.mem_takeWhile_imp hc
  simpa using this

theorem strncmpEq_iff_isPrefixOf (buf pat : List Char) (hpat : ∀ c ∈ pat, c ≠ NUL) :
    strncmpEq buf pat pat.length = true ↔ pat <+: buf := by
  unfold strncmpEq
  rw [cstr_self_of_noNUL pat hpat]
  simp only [beq_iff_eq, List.take_left']
  constructor
  · intro h
    have h1 : pat <+: cstr buf ++ [NUL] := by
      rw [← h]; exact List.take_prefix _ _
    by_cases hl : pat.length ≤ (cstr buf).length
    · exact (List.prefix_of_prefix_length_le h1 (List.prefix_append _ _) hl).trans (cstr_initial buf)
    · exfalso
      have hlen : pat.length ≤ (cstr buf ++ [NUL]).length := h1.length_le
      simp at hlen
      have heq : pat = cstr buf ++ [NUL] := by
        apply h1.eq_of_length
        simp; omega
      exact hpat NUL (by rw [heq]; simp) rfl
  · rintro ⟨t, rfl⟩
    rw [cstr_append_of_noNUL pat t hpat, List.append_assoc, List.take_left']
    rfl

namespace GPGV

theorem GNUPGBADSIG_noNUL : ∀ c ∈ GNUPGBADSIG, c ≠ NUL := by decide
theorem GNUPGNOPUBKEY_noNUL : ∀ c ∈ GNUPGNOPUBKEY, c ≠ NUL := by decide
theorem GNUPGNODATA_noNUL : ∀ c ∈ GNUPGNODATA, c ≠ NUL := by decide
theorem GNUPGKEYEXPIRED_noNUL : ∀ c ∈ GNUPGKEYEXPIRED, c ≠ NUL := by decide
theorem GNUPGREVKEYSIG_noNUL : ∀ c ∈ GNUPGREVKEYSIG, c ≠ NUL := by decide
theorem GNUPGGOODSIG_noNUL : ∀ c ∈ GNUPGGOODSIG, c ≠ NUL := by decide

theorem test_BADSIG (buffer : List Char) :
    strncmpEq buffer GNUPGBADSIG (sizeofLit GNUPGBADSIG - 1) = decide (GNUPGBADSIG <+: buffer) := by
  rw [Bool.eq_iff_iff, decide_eq_true_iff]
  exact strncmpEq_iff_isPrefixOf buffer GNUPGBADSIG GNUPGBADSIG_noNUL

theorem test_NOPUBKEY (buffer : List Char) :
    strncmpEq buffer GNUPGNOPUBKEY (sizeofLit GNUPGNOPUBKEY - 1)
      = decide (GNUPGNOPUBKEY <+: buffer) := by
  rw [Bool.eq_iff_iff, decide_eq_true_iff]
  exact strncmpEq_iff_isPrefixOf buffer GNUPGNOPUBKEY GNUPGNOPUBKEY_noNUL

/-- The NODATA test passes the length of the BADSIG literal, which is also the
length of the NODATA literal. -/
theorem test_NODATA (buffer : List Char) :
    strncmpEq buffer GNUPGNODATA (sizeofLit GNUPGBADSIG - 1) = decide (GNUPGNODATA <+: buffer) := by
  rw [Bool.eq_iff_iff, decide_eq_true_iff]
  exact strncmpEq_iff_isPrefixOf buffer GNUPGNODATA GNUPGNODATA_noNUL

theorem test_KEYEXPIRED (buffer : List Char) :
    strncmpEq buffer GNUPGKEYEXPIRED (sizeofLit GNUPGKEYEXPIRED - 1)
      = decide (GNUPGKEYEXPIRED <+: buffer) := by
  rw [Bool.eq_iff_iff, decide_eq_true_iff]
  exact strncmpEq_iff_isPrefixOf buffer GNUPGKEYEXPIRED GNUPGKEYEXPIRED_noNUL

theorem test_REVKEYSIG (buffer : List Char) :
    strncmpEq buffer GNUPGREVKEYSIG (sizeofLit GNUPGREVKEYSIG - 1)
      = decide (GNUPGREVKEYSIG <+: buffer) := by
  rw [Bool.eq_iff_iff, decide_eq_true_iff]
  exact strncmpEq_iff_isPrefixOf buffer GNUPGREVKEYSIG GNUPGREVKEYSIG_noNUL

theorem test_GOODSIG (buffer : List Char) :
    strncmpEq buffer GNUPGGOODSIG (sizeofLit GNUPGGOODSIG - 1)
      = decide (GNUPGGOODSIG <+: buffer) := by
  rw [Bool.eq_iff_iff, decide_eq_true_iff]
  exact strncmpEq_iff_isPrefixOf buffer GNUPGGOODSIG GNUPGGOODSIG_noNUL

/-- Two literals neither of which is a prefix of the other are never both a
prefix of the same line. -/
theorem prefixes_exclusive {a b l : List Char} (hab : ¬ a <+: b) (hba : ¬ b <+: a)
    (ha : a <+: l) : ¬ b <+: l := by
  intro hb
  rcases List.prefix_or_prefix_of_prefix ha hb with h | h
  · exact hab h
  · exact hba h

/-- The six independent tests of the loop body amount to one case distinction
on the prefix of the line. -/
theorem classifyLine_eq_route (buffer : List Char) (s : Signers) :
    classifyLine buffer s =
      if GNUPGBADSIG <+: buffer ∨ GNUPGNODATA <+: buffer then
        { s with BadSigners := s.BadSigners ++ [afterPrefix buffer] }
      else if GNUPGNOPUBKEY <+: buffer then
        { s with NoPubKeySigners := s.NoPubKeySigners ++ [afterPrefix buffer] }
      else if GNUPGKEYEXPIRED <+: buffer ∨ GNUPGREVKEYSIG <+: buffer then
        { s with WorthlessSigners := s.WorthlessSigners ++ [afterPrefix buffer] }
      else if GNUPGGOODSIG <+: buffer then
        { s with GoodSigners := s.GoodSigners ++ [goodSigEntry buffer] }
      else s := by
  unfold classifyLine
  simp only [test_BADSIG, test_NOPUBKEY, test_NODATA, test_KEYEXPIRED, test_REVKEYSIG,
    test_GOODSIG, decide_eq_true_eq]
  by_cases h1 : GNUPGBADSIG <+: buffer
  · have := prefixes_exclusive (b := GNUPGNOPUBKEY) (by decide) (by decide) h1
    have := prefixes_exclusive (b := GNUPGNODATA) (by decide) (by decide) h1
    have := prefixes_exclusive (b := GNUPGKEYEXPIRED) (by decide) (by decide) h1
    have := prefixes_exclusive (b := GNUPGREVKEYSIG) (by decide) (by decide) h1
    have := prefixes_exclusive (b := GNUPGGOODSIG) (by decide) (by decide) h1
    simp [*]
  by_cases h2 : GNUPGNOPUBKEY <+: buffer
  · have := prefixes_exclusive (b := GNUPGNODATA) (by decide) (by decide) h2
    have := prefixes_exclusive (b := GNUPGKEYEXPIRED) (by decide) (by decide) h2
    have := prefixes_exclusive (b := GNUPGREVKEYSIG) (by decide) (by decide) h2
    have := prefixes_exclusive (b := GNUPGGOODSIG) (by decide) (by decide) h2
    simp [*]
  by_cases h3 : GNUPGNODATA <+: buffer
  · have := prefixes_exclusive (b := GNUPGKEYEXPIRED) (by decide) (by decide) h3
    have := prefixes_exclusive (b := GNUPGREVKEYSIG) (by decide) (by decide) h3
    have := prefixes_exclusive (b := GNUPGGOODSIG) (by decide) (by decide) h3
    simp [*]
  by_cases h4 : GNUPGKEYEXPIRED <+: buffer
  · have := prefixes_exclusive (b := GNUPGREVKEYSIG) (by decide) (by decide) h4
    have := prefixes_exclusive (b := GNUPGGOODSIG) (by decide) (by decide) h4
    simp [*]
  by_cases h5 : GNUPGREVKEYSIG <+: buffer
  · have := prefixes_exclusive (b := GNUPGGOODSIG) (by decide) (by decide) h5
    simp [*]
  simp [*]

theorem isxdigit_ne_NUL {c : Char} (h : isxdigit c = true) : c ≠ NUL := by
  rintro rfl
  revert h
  decide

theorem takeWhile_hex_run (id rest : List Char) (hid : ∀ c ∈ id, isxdigit c = true) :
    (id ++ ' ' :: rest).takeWhile isxdigit = id := by
  induction id with
  | nil => simp [List.takeWhile_cons, show isxdigit ' ' = false by decide]
  | cons x xs ih =>
    have hx := hid x (List.mem_cons_self _ _)
    simp [List.takeWhile_cons, hx, ih (fun c hc => hid c (List.mem_cons_of_mem _ hc))]

theorem goodSigEntry_hex (id rest : List Char) (hid : ∀ c ∈ id, isxdigit c = true) :
    goodSigEntry ("[GNUPG:] GOODSIG ".toList ++ id ++ ' ' :: rest) = "GOODSIG ".toList ++ id := by
  have hb : ("[GNUPG:] GOODSIG ".toList ++ id ++ ' ' :: rest) ++ [NUL]
      = "[GNUPG:] ".toList ++ ("GOODSIG ".toList ++ (id ++ ' ' :: (rest ++ [NUL]))) := by
    have : "[GNUPG:] GOODSIG ".toList = "[GNUPG:] ".toList ++ "GOODSIG ".toList := by decide
    rw [this]; simp
  unfold goodSigEntry
  simp only [hb]
  have h9 : sizeofLit GNUPGPREFIX = "[GNUPG:] ".toList.length := by decide
  have h8 : sizeofLit "GOODSIG".toList = "GOODSIG ".toList.length := by decide
  rw [h9, List.drop_left' rfl, h8, List.take_left' rfl, List.drop_left' rfl,
    takeWhile_hex_run id _ hid]
  have hG : ∀ c ∈ "GOODSIG ".toList, c ≠ NUL := by decide
  rw [cstr_append_of_noNUL]
  · simp [cstr, NUL]
  · intro c hc
    rcases List.mem_append.1 hc with h | h
    · exact hG c h
    · exact isxdigit_ne_NUL (hid c h)

theorem goodsig_line_route (id rest : List Char) (s : Signers)
    (hid : ∀ c ∈ id, isxdigit c = true) :
    classifyLine ("[GNUPG:] GOODSIG ".toList ++ id ++ ' ' :: rest) s
      = { s with GoodSigners := s.GoodSigners ++ ["GOODSIG ".toList ++ id] } := by
  have hg : GNUPGGOODSIG <+: ("[GNUPG:] GOODSIG ".toList ++ id ++ ' ' :: rest) := by
    have : "[GNUPG:] GOODSIG ".toList = GNUPGGOODSIG ++ [' '] := by decide
    rw [this, List.append_assoc, List.append_assoc]
    exact List.prefix_append _ _
  have h1 := prefixes_exclusive (b := GNUPGBADSIG) (by decide) (by decide) hg
  have h2 := prefixes_exclusive (b := GNUPGNOPUBKEY) (by decide) (by decide) hg
  have h3 := prefixes_exclusive (b := GNUPGNODATA) (by decide) (by decide) hg
  have h4 := prefixes_exclusive (b := GNUPGKEYEXPIRED) (by decide) (by decide) hg
  have h5 := prefixes_exclusive (b := GNUPGREVKEYSIG) (by decide) (by decide) hg
  rw [classifyLine_eq_route]
  simp only [h1, h2, h3, h4, h5, hg, or_self, if_false, if_true]
  rw [goodSigEntry_hex id rest hid]

/-! ## The signature verifier -/

/-- C1: `URIAcquire` reports failure exactly when the Good list is empty or the
Bad list is non-empty, for all four lists and every status string; the same
holds for a whole run, with the lists `VerifyGetSigners` produced.  A non-empty
Good list with only NoPubKey entries besides it therefore succeeds. -/
theorem URIAcquire_fails_iff (msg : List Char) (s : Signers) (h : HelperRun) :
    ((acquireDecision msg s).ret = false ↔ (s.GoodSigners = [] ∨ s.BadSigners ≠ [])) ∧
    ((URIAcquire h).ret = false ↔
      ((VerifyGetSigners h Signers.empty).2.GoodSigners = [] ∨
       (VerifyGetSigners h Signers.empty).2.BadSigners ≠ [])) := by
  have key : ∀ (m : List Char) (t : Signers),
      (acquireDecision m t).ret = false ↔ (t.GoodSigners = [] ∨ t.BadSigners ≠ []) := by
    intro m t
    unfold acquireDecision
    cases hG : t.GoodSigners <;> cases hB : t.BadSigners <;> cases hN : t.NoPubKeySigners <;>
      simp
  exact ⟨key msg s, key _ _⟩

/-- C2, as stated, fails: for the line `[GNUPG:] GOODSIG AAAA OtherJunk` the
entry appended to Good is `GOODSIG AAAA`, not `AAAA`. -/
theorem goodsig_entry_keeps_keyword :
    (VerifyGetSigners
        { pipeFails := false, forkFails := false, strerror := [],
          lines := ["[GNUPG:] GOODSIG AAAA OtherJunk\n".toList], exitStatus := 0 }
        Signers.empty).2.GoodSigners = ["GOODSIG AAAA".toList] ∧
    (VerifyGetSigners
        { pipeFails := false, forkFails := false, strerror := [],
          lines := ["[GNUPG:] GOODSIG AAAA OtherJunk\n".toList], exitStatus := 0 }
        Signers.empty).2.GoodSigners ≠ ["AAAA".toList] := by
  decide

/-- C2, amended: for a line `[GNUPG:] GOODSIG <id> <rest>` where `<id>` is a
run of hex digits, the loop body appends exactly one entry, to Good and to no
other list, and that entry is `GOODSIG <id>`: the keyword, a space, and the
hex digits. -/
theorem goodsig_line_appends_keyword_and_id (id rest : List Char) (s : Signers)
    (hne : id ≠ []) (hid : ∀ c ∈ id, isxdigit c = true) :
    classifyLine ("[GNUPG:] GOODSIG ".toList ++ id ++ ' ' :: rest) s
      = { s with GoodSigners := s.GoodSigners ++ ["GOODSIG ".toList ++ id] } := by
  have _ := hne
  exact goodsig_line_route id rest s hid

/-- The amended C2 at the line `[GNUPG:] GOODSIG AAAA OtherJunk`. -/
theorem goodsig_line_appends_keyword_and_id_witness :
    ("AAAA".toList ≠ [] ∧ ∀ c ∈ "AAAA".toList, isxdigit c = true) ∧
    classifyLine ("[GNUPG:] GOODSIG ".toList ++ "AAAA".toList ++ ' ' :: "OtherJunk\n".toList)
        Signers.empty
      = { Signers.empty with
          GoodSigners := Signers.empty.GoodSigners ++ ["GOODSIG ".toList ++ "AAAA".toList] } :=
  ⟨⟨by decide, by decide⟩,
   goodsig_line_appends_keyword_and_id "AAAA".toList "OtherJunk\n".toList Signers.empty
     (by decide) (by decide)⟩

/-- C3: for every line, the loop body appends to at most one of the four
lists, chosen by the prefix of the line: BADSIG and NODATA go to Bad,
NO_PUBKEY to NoPubKey, KEYEXPIRED and REVKEYSIG to Worthless, GOODSIG to Good,
and a line with none of the six prefixes changes no list; in every case the
four lists together grow by at most one entry. -/
theorem classifyLine_routes_by_prefix (buffer : List Char) (s : Signers) :
    (classifyLine buffer s =
      if GNUPGBADSIG <+: buffer ∨ GNUPGNODATA <+: buffer then
        { s with BadSigners := s.BadSigners ++ [afterPrefix buffer] }
      else if GNUPGNOPUBKEY <+: buffer then
        { s with NoPubKeySigners := s.NoPubKeySigners ++ [afterPrefix buffer] }
      else if GNUPGKEYEXPIRED <+: buffer ∨ GNUPGREVKEYSIG <+: buffer then
        { s with WorthlessSigners := s.WorthlessSigners ++ [afterPrefix buffer] }
      else if GNUPGGOODSIG <+: buffer then
        { s with GoodSigners := s.GoodSigners ++ [goodSigEntry buffer] }
      else s) ∧
    (classifyLine buffer s).GoodSigners.length + (classifyLine buffer s).BadSigners.length +
        (classifyLine buffer s).WorthlessSigners.length +
        (classifyLine buffer s).NoPubKeySigners.length
      ≤ s.GoodSigners.length + s.BadSigners.length + s.WorthlessSigners.length +
        s.NoPubKeySigners.length + 1 := by
  refine ⟨classifyLine_eq_route buffer s, ?_⟩
  rw [classifyLine_eq_route]
  split_ifs <;> simp <;> omega

end GPGV

namespace Http

/-! ## `WriteTillEl` on concrete rings -/

/-- C8 at a concrete ring: the buffered bytes of `reusedBuf` are `A\n`, which
hold no empty-line terminator, yet `WriteTillEl` with `Single = false` returns
true and pops `A\n`: it reads the byte at position `InP`, a `\n` left from
the earlier use of the ring. -/
theorem WriteTillEl_reads_stale_byte :
    reusedBuf.content = "A\n".toList ∧
    (reusedBuf.WriteTillEl [] false).1 = true ∧
    (reusedBuf.WriteTillEl [] false).2.2 = "A\n".toList := by
  decide

/-- C9 at a concrete ring: with `2\r\n\rA` buffered, `WriteTillEl` with
`Single = true` returns true with the output `2\r\n\r`, four bytes, and `OutP`
advances by four: the `\r` after the line terminator is popped with the
line. -/
theorem WriteTillEl_single_pops_following_CR :
    chunkHeadBuf.content = "2\r\n\rA".toList ∧
    (chunkHeadBuf.WriteTillEl [] true).1 = true ∧
    (chunkHeadBuf.WriteTillEl [] true).2.2 = "2\r\n\r".toList ∧
    (chunkHeadBuf.WriteTillEl [] true).2.1.OutP = chunkHeadBuf.OutP + 4 ∧
    (chunkHeadBuf.WriteTillEl [] true).2.1.content = "A".toList := by
  decide

/-! ## `RunData` on concrete replies -/

set_option maxRecDepth 100000 in
/-- C4 at a concrete reply: for the single chunk with payload `\rA` the
stream is `2\r\n\rA\r\n0\r\n\r\n`; `RunData` returns true, `uri-done` is sent,
and the destination file holds `A\r`, not `\rA`. -/
theorem chunked_payload_starting_with_CR :
    chunkedEncode ["\rA".toList] = "2\r\n\rA\r\n0\r\n\r\n".toList ∧
    (World.RunData 50
      ((World.after200 TransferEncoding.Chunked 0
          [ReadEv.data (chunkedEncode ["\rA".toList])]).DealWithHeaders FetchResult.new).2.2).map
        (fun r => (r.1, r.2.dest)) = some (Outcome.ret true, some "A\r".toList) ∧
    (World.LoopDecide id 50
      (World.after200 TransferEncoding.Chunked 0
          [ReadEv.data (chunkedEncode ["\rA".toList])])).map
        (fun r => (r.2.dest, r.2.emitted.map (fun e => e matches Emit.URIDone _)))
      = some (some "A\r".toList, [false, true]) := by
  decide

set_option maxRecDepth 100000 in
/-- C5 at a concrete reply: `Content-Length: 10`, the server delivers `hello`
and closes.  `ServerDie` records "Error reading from server", but `RunData`
returns true (through `Flush` on the emptied ring) and the loop sends
`uri-done`, not `Fail`. -/
theorem stream_short_close_reports_done :
    (World.RunData 50
      ((World.after200 TransferEncoding.Stream 10
          [ReadEv.data "hello".toList, ReadEv.eof]).DealWithHeaders FetchResult.new).2.2).map
        (fun r => (r.1, r.2.dest, r.2.errors))
      = some (Outcome.ret true, some "hello".toList, ["Error reading from server"]) ∧
    (World.LoopDecide id 50
      (World.after200 TransferEncoding.Stream 10
          [ReadEv.data "hello".toList, ReadEv.eof])).map
        (fun r => r.2.emitted.map (fun e => (e matches Emit.URIDone _, e matches Emit.Fail _)))
      = some [(false, false), (true, false)] := by
  decide

/-! ## The ring invariant -/

theorem LeftRead_le_free (b : CircleBuf) : b.LeftRead ≤ b.Size - (b.InP - b.OutP) := by
  unfold CircleBuf.LeftRead
  dsimp only
  split_ifs <;> omega

theorem LeftRead_le_phys (b : CircleBuf) : b.LeftRead ≤ b.Size - b.InP % b.Size := by
  unfold CircleBuf.LeftRead
  dsimp only
  split_ifs <;> omega

theorem LeftWrite_le_used (b : CircleBuf) : b.LeftWrite ≤ b.InP - b.OutP := by
  unfold CircleBuf.LeftWrite
  dsimp only
  split_ifs <;> omega

theorem LeftWrite_le_phys (b : CircleBuf) : b.LeftWrite ≤ b.Size - b.OutP % b.Size := by
  unfold CircleBuf.LeftWrite
  dsimp only
  split_ifs <;> omega

theorem LeftWrite_le_limit (b : CircleBuf) (h : b.OutP ≤ b.InP) :
    b.LeftWrite ≤ b.MaxGet - b.OutP := by
  unfold CircleBuf.LeftWrite
  dsimp only
  split_ifs <;> omega

theorem sysRead_bytes {fd fd1 : List ReadEv} {count : Nat} {bs : List Char}
    (h : sysRead fd count = (ReadRes.bytes bs, fd1)) : 0 < bs.length ∧ bs.length ≤ count := by
  unfold sysRead at h
  split at h
  · simp at h
  · rename_i bs0 rest
    by_cases h1 : count = 0
    · simp [h1] at h
    · by_cases h2 : bs0 = []
      · simp [h1, h2] at h
      · simp only [h1, h2, if_false, Prod.mk.injEq, ReadRes.bytes.injEq] at h
        obtain ⟨rfl, -⟩ := h
        have : 0 < bs0.length := List.length_pos.2 h2
        rw [List.length_take]
        omega
  · simp at h
  · simp at h
  · simp at h

theorem sysWrite_wrote {fd fd1 : List WriteEv} {count n : Nat}
    (h : sysWrite fd count = (WriteRes.wrote n, fd1)) : 0 < n ∧ n ≤ count := by
  unfold sysWrite at h
  split at h
  · split_ifs at h with h1
    · simp at h
    · simp only [Prod.mk.injEq, WriteRes.wrote.injEq] at h
      omega
  · split_ifs at h with h1
    · simp at h
    · simp only [Prod.mk.injEq, WriteRes.wrote.injEq] at h
      omega
  · simp at h
  · simp at h

theorem peek_length (Buf : Nat → Char) (off n : Nat) : (peek Buf off n).length = n := by
  simp [peek]

theorem ReadLoop_ring (fuel : Nat) (b : CircleBuf) (fd : List ReadEv) (h : Ring b) :
    Ring (CircleBuf.ReadLoop fuel b fd).2.1 := by
  induction fuel generalizing b fd with
  | zero => simpa [CircleBuf.ReadLoop] using h
  | succ n ih =>
    rw [CircleBuf.ReadLoop]
    split_ifs with hfull
    · exact h
    · split
      · rename_i bs fd1 hr
        apply ih
        have hb := sysRead_bytes hr
        have hl := LeftRead_le_free b
        unfold Ring at h ⊢
        dsimp only
        omega
      · exact h
      · exact h
      · exact h

theorem FillOutLoop_ring (fuel : Nat) (b : CircleBuf) (h : Ring b) :
    Ring (CircleBuf.FillOutLoop fuel b) := by
  induction fuel generalizing b with
  | zero => simpa [CircleBuf.FillOutLoop] using h
  | succ n ih =>
    rw [CircleBuf.FillOutLoop]
    by_cases hfull : b.InP - b.OutP = b.Size
    · rw [if_pos hfull]; exact h
    · rw [if_neg hfull]
      dsimp only
      generalize hSz : (if b.OutQueue.length - b.StrPos < b.LeftRead
        then b.OutQueue.length - b.StrPos else b.LeftRead) = Sz
      have hle : Sz ≤ b.LeftRead := by
        rw [← hSz]; split_ifs <;> omega
      have hl := LeftRead_le_free b
      have hr : Ring { b with
          Buf := memcpy b.Buf (b.InP % b.Size) ((b.OutQueue.drop b.StrPos).take Sz),
          StrPos := b.StrPos + Sz, InP := b.InP + Sz } := by
        unfold Ring at h ⊢
        dsimp only
        omega
      split_ifs
      · exact hr
      · exact ih _ hr

theorem FillOut_ring (b : CircleBuf) (h : Ring b) : Ring b.FillOut := by
  unfold CircleBuf.FillOut
  split_ifs
  · exact h
  · exact FillOutLoop_ring _ b h

theorem WriteLoop_ring (fuel : Nat) (b : CircleBuf) (fd : List WriteEv) (out : List Char)
    (h : Ring b) : Ring (CircleBuf.WriteLoop fuel b fd out).2.1 := by
  induction fuel generalizing b fd out with
  | zero => simpa [CircleBuf.WriteLoop] using h
  | succ n ih =>
    rw [CircleBuf.WriteLoop]
    have hf := FillOut_ring b h
    dsimp only
    split_ifs with h1 h2
    · exact hf
    · exact hf
    · split
      · rename_i k fd1 hw
        apply ih
        have hk := sysWrite_wrote hw
        have hl := LeftWrite_le_used b.FillOut
        unfold Ring at hf ⊢
        dsimp only
        omega
      · exact hf
      · exact hf
      · exact hf

theorem popTo_ring (I fuel : Nat) (b : CircleBuf) (Data : List Char) (h : Ring b) :
    Ring (CircleBuf.popTo I fuel b Data).2.1 := by
  induction fuel generalizing b Data with
  | zero => simpa [CircleBuf.popTo] using h
  | succ n ih =>
    rw [CircleBuf.popTo]
    have hl := LeftWrite_le_used b
    split_ifs with h1 h2 h3
    · exact h
    · apply ih
      unfold Ring at h ⊢
      dsimp only
      omega
    · apply ih
      unfold Ring at h ⊢
      dsimp only
      omega
    · exact h

theorem WriteTillEl_ring (b : CircleBuf) (Data : List Char) (Single : Bool) (h : Ring b) :
    Ring (b.WriteTillEl Data Single).2.1 := by
  unfold CircleBuf.WriteTillEl
  split
  · exact h
  · exact popTo_ring _ _ b [] h

theorem Reset_ring (b : CircleBuf) : Ring b.Reset := by
  simp [Ring, CircleBuf.Reset]

theorem apply_ring (b : CircleBuf) (op : BufOp) (h : Ring b) : Ring (b.apply op) := by
  cases op with
  | readFd fd => exact ReadLoop_ring _ b fd h
  | readString Data =>
    apply FillOut_ring
    exact h
  | fillOut => exact FillOut_ring b h
  | writeFd fd => exact WriteLoop_ring _ b fd [] h
  | writeTillEl Data Single => exact WriteTillEl_ring b Data Single h

theorem applyAll_ring (ops : List BufOp) (b : CircleBuf) (h : Ring b) :
    Ring (b.applyAll ops) := by
  induction ops generalizing b with
  | nil => exact h
  | cons op rest ih => exact ih (b.apply op) (apply_ring b op h)

/-- C7: starting from `Reset`, after any finite sequence of `Read(fd)`,
`Read(string)`, `FillOut`, `Write(fd)` and `WriteTillEl` (either flag), with
any answers of the descriptors, the counters satisfy
`0 <= InP - OutP <= Size`. -/
theorem ring_invariant_after_any_operations (b0 : CircleBuf) (ops : List BufOp) :
    (0 : Int) ≤ ((b0.Reset.applyAll ops).InP : Int) - ((b0.Reset.applyAll ops).OutP : Int) ∧
    ((b0.Reset.applyAll ops).InP : Int) - ((b0.Reset.applyAll ops).OutP : Int)
      ≤ ((b0.Reset.applyAll ops).Size : Int) := by
  have h := applyAll_ring ops b0.Reset (Reset_ring b0)
  unfold Ring at h
  omega

/-! ## A string enqueued on a fresh ring -/

theorem mod_add_small (a k n : Nat) (h : a % n + k < n) : (a + k) % n = a % n + k := by
  conv_lhs => rw [← Nat.div_add_mod a n]
  rw [Nat.add_assoc, Nat.mul_add_mod, Nat.mod_eq_of_lt h]

theorem mod_ne_of_near (i j n : Nat) (h1 : i < j) (h2 : j < i + n) : i % n ≠ j % n := by
  intro h
  have h0 : (j - i) % n = 0 := Nat.sub_mod_eq_zero_of_mod_eq h.symm
  rw [Nat.mod_eq_of_lt (by omega)] at h0
  omega

theorem memcpy_inside (Buf : Nat → Char) (dst : Nat) (src : List Char) (k : Nat)
    (hk : k < src.length) (d : Char) : memcpy Buf dst src (dst + k) = src.getD k d := by
  unfold memcpy
  rw [if_pos (Nat.le_add_right _ _), Nat.add_sub_cancel_left,
    List.getD_eq_getElem _ _ hk, List.getD_eq_getElem _ _ hk]

theorem memcpy_outside (Buf : Nat → Char) (dst : Nat) (src : List Char) (j : Nat)
    (hj : j < dst ∨ dst + src.length ≤ j) : memcpy Buf dst src j = Buf j := by
  unfold memcpy
  split_ifs with h
  · apply List.getD_eq_default
    omega
  · rfl

theorem getD_take_drop (s : List Char) (a n k : Nat) (d e : Char) (hk : k < n)
    (h : a + n ≤ s.length) : ((s.drop a).take n).getD k d = s.getD (a + k) e := by
  rw [List.getD_eq_getElem?_getD, List.getD_eq_getElem?_getD, List.getElem?_take_of_lt hk,
    List.getElem?_drop, List.getElem?_eq_getElem (by omega)]
  rfl

theorem map_range_getD (s : List Char) (a n : Nat) (d : Char) (h : a + n ≤ s.length) :
    (List.range n).map (fun k => s.getD (a + k) d) = (s.drop a).take n := by
  apply List.ext_getElem
  · simp; omega
  · intro k h1 h2
    simp only [List.getElem_map, List.getElem_range, List.getElem_take, List.getElem_drop]
    apply List.getD_eq_getElem

/-- One pass of the copy loop of `FillOut` keeps the ring fed from `s`. -/
theorem feeding_copy (s : List Char) (b : CircleBuf) (Sz : Nat) (h : Feeding s b)
    (hq : b.OutQueue = s ∧ b.StrPos = b.InP ∧ b.InP < s.length)
    (hSz : Sz ≤ b.LeftRead) (hrem : Sz ≤ s.length - b.InP) :
    ∀ i, b.OutP ≤ i → i < b.InP + Sz →
      memcpy b.Buf (b.InP % b.Size) ((b.OutQueue.drop b.StrPos).take Sz) (i % b.Size)
        = s.getD i NUL := by
  intro i hi1 hi2
  obtain ⟨hqs, hsp, hlt⟩ := hq
  have hfree := LeftRead_le_free b
  have hphys := LeftRead_le_phys b
  have hring := h.ring
  unfold Ring at hring
  have hmod : b.InP % b.Size < b.Size := Nat.mod_lt _ h.size_pos
  have hlen : ((b.OutQueue.drop b.StrPos).take Sz).length = Sz := by
    rw [List.length_take, List.length_drop, hqs, hsp]; omega
  by_cases hold : i < b.InP
  · rw [memcpy_outside, h.holds i hi1 hold]
    rw [hlen]
    by_contra hcon
    push_neg at hcon
    obtain ⟨c1, c2⟩ := hcon
    have hk : (b.InP + (i % b.Size - b.InP % b.Size)) % b.Size = i % b.Size := by
      rw [mod_add_small _ _ _ (by omega)]; omega
    exact mod_ne_of_near i (b.InP + (i % b.Size - b.InP % b.Size)) b.Size (by omega) (by omega)
      hk.symm
  · have hi : i = b.InP + (i - b.InP) := by omega
    have hk : i - b.InP < Sz := by omega
    rw [hi, mod_add_small _ _ _ (by omega), memcpy_inside _ _ _ _ (by rw [hlen]; exact hk) NUL,
      hqs, hsp, getD_take_drop s b.InP Sz (i - b.InP) NUL NUL hk (by omega)]

theorem LeftRead_pos (b : CircleBuf) (hr : Ring b) (hs : 0 < b.Size)
    (hfull : ¬ b.InP - b.OutP = b.Size) : 0 < b.LeftRead := by
  unfold Ring at hr
  have hmod : b.InP % b.Size < b.Size := Nat.mod_lt _ hs
  unfold CircleBuf.LeftRead
  dsimp only
  split_ifs <;> omega

theorem FillOutLoop_feeding (s : List Char) (fuel : Nat) (b : CircleBuf) (h : Feeding s b)
    (hq : b.OutQueue = s ∧ b.StrPos = b.InP ∧ b.InP < s.length) :
    Feeding s (CircleBuf.FillOutLoop fuel b) ∧
    (CircleBuf.FillOutLoop fuel b).OutP = b.OutP ∧
    (CircleBuf.FillOutLoop fuel b).MaxGet = b.MaxGet ∧
    b.InP ≤ (CircleBuf.FillOutLoop fuel b).InP ∧
    (0 < fuel → b.OutP < (CircleBuf.FillOutLoop fuel b).InP) := by
  induction fuel generalizing b with
  | zero => simp [CircleBuf.FillOutLoop, h]
  | succ n ih =>
    rw [CircleBuf.FillOutLoop]
    have hring := h.ring
    unfold Ring at hring
    by_cases hfull : b.InP - b.OutP = b.Size
    · rw [if_pos hfull]
      refine ⟨h, rfl, rfl, le_refl _, fun _ => ?_⟩
      have := h.size_pos
      omega
    · rw [if_neg hfull]
      dsimp only
      generalize hSz : (if b.OutQueue.length - b.StrPos < b.LeftRead
        then b.OutQueue.length - b.StrPos else b.LeftRead) = Sz
      obtain ⟨hqs, hsp, hlt⟩ := hq
      have hpos := LeftRead_pos b h.ring h.size_pos hfull
      have hle : Sz ≤ b.LeftRead := by
        rw [← hSz]; split_ifs <;> omega
      have hrem : Sz ≤ s.length - b.InP := by
        rw [← hSz, hqs, hsp]; split_ifs <;> omega
      have hSzpos : 0 < Sz := by
        rw [← hSz, hqs, hsp]; split_ifs <;> omega
      have hfree := LeftRead_le_free b
      have hcopy := feeding_copy s b Sz h ⟨hqs, hsp, hlt⟩ hle hrem
      by_cases hdone : b.OutQueue.length = b.StrPos + Sz
      · rw [if_pos hdone]
        refine ⟨⟨?_, h.size_pos, ?_, ?_, hcopy, h.limit⟩, rfl, rfl, ?_, fun _ => ?_⟩
        · unfold Ring; dsimp only; omega
        · dsimp only; omega
        · right
          rw [hqs, hsp] at hdone
          exact ⟨rfl, rfl, by dsimp only; omega⟩
        · dsimp only; omega
        · dsimp only; omega
      · rw [if_neg hdone]
        have hq1 : b.OutQueue = s ∧ b.StrPos + Sz = b.InP + Sz ∧ b.InP + Sz < s.length := by
          rw [hqs, hsp] at hdone
          exact ⟨hqs, by omega, by omega⟩
        have hf1 : Feeding s { b with
            Buf := memcpy b.Buf (b.InP % b.Size) ((b.OutQueue.drop b.StrPos).take Sz),
            StrPos := b.StrPos + Sz, InP := b.InP + Sz } := by
          refine ⟨?_, h.size_pos, ?_, Or.inl hq1, hcopy, h.limit⟩
          · unfold Ring; dsimp only; omega
          · dsimp only; omega
        obtain ⟨g1, g2, g3, g4, -⟩ := ih _ hf1 hq1
        refine ⟨g1, g2, g3, ?_, fun _ => ?_⟩
        · dsimp only at g4; omega
        · dsimp only at g4; omega

theorem FillOut_feeding (s : List Char) (b : CircleBuf) (h : Feeding s b) :
    Feeding s b.FillOut ∧ b.FillOut.OutP = b.OutP ∧ b.FillOut.MaxGet = b.MaxGet ∧
    (b.FillOut.OutP < b.FillOut.InP ∨ b.FillOut.InP = s.length) := by
  unfold CircleBuf.FillOut
  rcases h.queue with hq | hq
  · have hne : b.OutQueue.isEmpty = false := by
      rw [hq.1]
      cases s with
      | nil => simp at hq
      | cons x xs => rfl
    rw [hne]
    simp only [Bool.false_eq_true, if_false]
    obtain ⟨g1, g2, g3, -, g5⟩ := FillOutLoop_feeding s (b.Size + 1) b h hq
    refine ⟨g1, g2, g3, Or.inl ?_⟩
    rw [g2]
    exact g5 (Nat.succ_pos _)
  · have he : b.OutQueue.isEmpty = true := by rw [hq.1]; rfl
    rw [he]
    simp only [if_true]
    exact ⟨h, trivial, trivial, Or.inr hq.2.2⟩

theorem acceptsBytes_cons {ev : WriteEv} {rest : List WriteEv}
    (h : acceptsBytes (ev :: rest) = true) :
    (∃ n, 0 < n ∧ ev = WriteEv.accept n) ∧ acceptsBytes rest = true := by
  unfold acceptsBytes at h ⊢
  rw [List.all_cons, Bool.and_eq_true] at h
  refine ⟨?_, h.2⟩
  cases ev with
  | accept n => exact ⟨n, by simpa using h.1, rfl⟩
  | eagain => simp at h
  | error => simp at h

theorem sysWrite_accepts {fd : List WriteEv} {count : Nat} (hfd : acceptsBytes fd = true)
    (hc : 0 < count) :
    ∃ n fd1, sysWrite fd count = (WriteRes.wrote n, fd1) ∧ acceptsBytes fd1 = true := by
  cases fd with
  | nil =>
    refine ⟨count, [], ?_, hfd⟩
    simp [sysWrite]; omega
  | cons ev rest =>
    obtain ⟨⟨n, hn, rfl⟩, hrest⟩ := acceptsBytes_cons hfd
    refine ⟨min n count, rest, ?_, hrest⟩
    simp [sysWrite]; omega

theorem LeftWrite_pos (b : CircleBuf) (hs : 0 < b.Size) (h1 : b.OutP < b.InP)
    (h2 : b.OutP < b.MaxGet) : 0 < b.LeftWrite := by
  have hmod : b.OutP % b.Size < b.Size := Nat.mod_lt _ hs
  unfold CircleBuf.LeftWrite
  dsimp only
  split_ifs <;> omega

theorem peek_feeding (s : List Char) (b : CircleBuf) (n : Nat) (h : Feeding s b)
    (hn : n ≤ b.LeftWrite) : peek b.Buf (b.OutP % b.Size) n = (s.drop b.OutP).take n := by
  have h1 := LeftWrite_le_used b
  have h2 := LeftWrite_le_phys b
  have hin := h.in_le
  have hring := h.ring
  unfold Ring at hring
  rw [← map_range_getD s b.OutP n NUL (by omega)]
  unfold peek
  apply List.map_congr_left
  intro k hk
  rw [List.mem_range] at hk
  rw [← mod_add_small _ _ _ (by omega)]
  exact h.holds _ (by omega) (by omega)

theorem WriteLoop_feeding (s : List Char) (fuel : Nat) (b : CircleBuf) (fd : List WriteEv)
    (out : List Char) (h : Feeding s b) (hfd : acceptsBytes fd = true)
    (hfuel : s.length - b.OutP < fuel) :
    (CircleBuf.WriteLoop fuel b fd out).1 = true ∧
    (CircleBuf.WriteLoop fuel b fd out).2.2.2 = out ++ s.drop b.OutP ∧
    Feeding s (CircleBuf.WriteLoop fuel b fd out).2.1 ∧
    (CircleBuf.WriteLoop fuel b fd out).2.1.OutP = s.length ∧
    acceptsBytes (CircleBuf.WriteLoop fuel b fd out).2.2.1 = true := by
  induction fuel generalizing b fd out with
  | zero => omega
  | succ n ih =>
    rw [CircleBuf.WriteLoop]
    dsimp only
    obtain ⟨f1, f2, f3, f4⟩ := FillOut_feeding s b h
    have hring := f1.ring
    unfold Ring at hring
    have hin := f1.in_le
    have hlim := f1.limit
    by_cases he : b.FillOut.OutP = b.FillOut.InP
    · rw [if_pos he]
      have hlen : b.FillOut.InP = s.length := by
        rcases f4 with f4 | f4
        · omega
        · exact f4
      refine ⟨rfl, ?_, f1, ?_, hfd⟩
      · dsimp only
        rw [List.drop_of_length_le (by omega), List.append_nil]
      · dsimp only
        omega
    · rw [if_neg he]
      have hlt : b.FillOut.OutP < b.FillOut.InP := by omega
      rw [if_neg (by omega)]
      have hpos := LeftWrite_pos b.FillOut f1.size_pos hlt (by omega)
      obtain ⟨k, fd1, hw, hfd1⟩ := sysWrite_accepts hfd hpos
      rw [hw]
      dsimp only
      obtain ⟨hk1, hk2⟩ := sysWrite_wrote hw
      have hused := LeftWrite_le_used b.FillOut
      have hnew : Feeding s { b.FillOut with
          MD5 := b.FillOut.MD5.map
            (fun acc => acc ++ peek b.FillOut.Buf (b.FillOut.OutP % b.FillOut.Size) k),
          OutP := b.FillOut.OutP + k } := by
        refine ⟨?_, f1.size_pos, f1.in_le, f1.queue, ?_, f1.limit⟩
        · unfold Ring; dsimp only; omega
        · intro i hi1 hi2
          exact f1.holds i (by dsimp only at hi1; omega) hi2
      obtain ⟨g1, g2, g3, g4, g5⟩ := ih _ fd1
        (out ++ peek b.FillOut.Buf (b.FillOut.OutP % b.FillOut.Size) k) hnew hfd1
        (by dsimp only; omega)
      refine ⟨g1, ?_, g3, g4, g5⟩
      have hdd : List.drop (b.OutP + k) s = List.drop k (List.drop b.OutP s) := by
        rw [List.drop_drop, Nat.add_comm]
      rw [g2]
      dsimp only
      rw [peek_feeding s b.FillOut k f1 hk2, f2, List.append_assoc, hdd, List.take_append_drop]

theorem Write_feeding (s : List Char) (b : CircleBuf) (fd : List WriteEv) (h : Feeding s b)
    (hfd : acceptsBytes fd = true) :
    (b.Write fd).1 = true ∧ (b.Write fd).2.2.2 = s.drop b.OutP ∧ Feeding s (b.Write fd).2.1 ∧
    (b.Write fd).2.1.OutP = s.length ∧ acceptsBytes (b.Write fd).2.2.1 = true := by
  have hfuel : s.length - b.OutP < (b.InP - b.OutP) + (b.OutQueue.length - b.StrPos) + 1 := by
    have hring := h.ring
    unfold Ring at hring
    have hin := h.in_le
    rcases h.queue with ⟨q1, q2, q3⟩ | ⟨q1, q2, q3⟩
    · rw [q1, q2]; omega
    · omega
  have := WriteLoop_feeding s _ b fd [] h hfd hfuel
  simpa [CircleBuf.Write] using this

theorem WriteTimes_feeding (s : List Char) (k : Nat) (b : CircleBuf) (fd : List WriteEv)
    (h : Feeding s b) (hfd : acceptsBytes fd = true) :
    (CircleBuf.WriteTimes (k + 1) b fd).1 = true ∧
    (CircleBuf.WriteTimes (k + 1) b fd).2.2.2 = s.drop b.OutP ∧
    Feeding s (CircleBuf.WriteTimes (k + 1) b fd).2.1 ∧
    (CircleBuf.WriteTimes (k + 1) b fd).2.1.OutP = s.length := by
  induction k generalizing b fd with
  | zero =>
    obtain ⟨g1, g2, g3, g4, -⟩ := Write_feeding s b fd h hfd
    simp [CircleBuf.WriteTimes, g1, g2, g3, g4]
  | succ n ih =>
    obtain ⟨g1, g2, g3, g4, g5⟩ := Write_feeding s b fd h hfd
    obtain ⟨i1, i2, i3, i4⟩ := ih (b.Write fd).2.1 (b.Write fd).2.2.1 g3 g5
    rw [CircleBuf.WriteTimes]
    dsimp only
    refine ⟨by rw [g1, i1]; rfl, ?_, i3, i4⟩
    rw [g2, i2, g4, List.drop_length, List.append_nil]

theorem ReadString_feeding (b0 : CircleBuf) (s : List Char) (hsize : 0 < b0.Size)
    (hlen : s.length ≤ UINT_MAX) :
    Feeding s (b0.Reset.ReadString s).2 ∧ (b0.Reset.ReadString s).2.OutP = 0 := by
  have h0 : Feeding s { b0.Reset with OutQueue := b0.Reset.OutQueue ++ s } := by
    refine ⟨?_, hsize, Nat.zero_le _, ?_, ?_, hlen⟩
    · simp [Ring, CircleBuf.Reset]
    · cases s with
      | nil => right; exact ⟨rfl, rfl, rfl⟩
      | cons x xs => left; exact ⟨rfl, rfl, Nat.succ_pos _⟩
    · intro i _ hi
      exact absurd hi (Nat.not_lt_zero _)
  obtain ⟨f1, f2, -, -⟩ := FillOut_feeding s _ h0
  exact ⟨f1, f2⟩

/-- Below the limit stored by `Reset`: for every string `s` of at most
2^32 - 1 bytes (longer than `Size` or not) enqueued with `Read(string)` on a
freshly reset ring of positive size, one or more calls of `Write(fd)` on a
descriptor that takes at least one byte per `write` all return true, deliver to
the descriptor exactly the bytes of `s`, in order, each once, and leave the
ring and the pending queue empty. -/
theorem enqueued_string_is_delivered (b0 : CircleBuf) (s : List Char) (fd : List WriteEv)
    (k : Nat) (hsize : 0 < b0.Size) (hlen : s.length ≤ UINT_MAX)
    (hfd : acceptsBytes fd = true) (hk : 0 < k) :
    (CircleBuf.WriteTimes k (b0.Reset.ReadString s).2 fd).1 = true ∧
    (CircleBuf.WriteTimes k (b0.Reset.ReadString s).2 fd).2.2.2 = s ∧
    (CircleBuf.WriteTimes k (b0.Reset.ReadString s).2 fd).2.1.InP
      = (CircleBuf.WriteTimes k (b0.Reset.ReadString s).2 fd).2.1.OutP ∧
    (CircleBuf.WriteTimes k (b0.Reset.ReadString s).2 fd).2.1.OutQueue = [] ∧
    (CircleBuf.WriteTimes k (b0.Reset.ReadString s).2 fd).2.1.StrPos = 0 := by
  obtain ⟨j, rfl⟩ : ∃ j, k = j + 1 := ⟨k - 1, by omega⟩
  obtain ⟨f1, f2⟩ := ReadString_feeding b0 s hsize hlen
  obtain ⟨g1, g2, g3, g4⟩ := WriteTimes_feeding s j _ fd f1 hfd
  have hring := g3.ring
  unfold Ring at hring
  have hin := g3.in_le
  refine ⟨g1, by rw [g2, f2, List.drop_zero], by omega, ?_, ?_⟩
  · rcases g3.queue with ⟨-, -, q3⟩ | ⟨q1, -, -⟩
    · omega
    · exact q1
  · rcases g3.queue with ⟨-, -, q3⟩ | ⟨-, q2, -⟩
    · omega
    · exact q2

/-- Delivery on a ring of four bytes, for the eleven bytes `hello world`, a
descriptor that takes three bytes and then one byte per `write` before it
takes everything, and two calls of `Write`. -/
theorem enqueued_string_is_delivered_witness :
    (0 < (CircleBuf.new 4 (fun _ => NUL)).Size ∧ "hello world".toList.length ≤ UINT_MAX ∧
      acceptsBytes [WriteEv.accept 3, WriteEv.accept 1] = true ∧ 0 < 2) ∧
    (CircleBuf.WriteTimes 2
      ((CircleBuf.new 4 (fun _ => NUL)).Reset.ReadString "hello world".toList).2
      [WriteEv.accept 3, WriteEv.accept 1]).2.2.2 = "hello world".toList :=
  ⟨⟨by decide, by decide, by decide, by decide⟩,
   (enqueued_string_is_delivered (CircleBuf.new 4 (fun _ => NUL)) "hello world".toList
     [WriteEv.accept 3, WriteEv.accept 1] 2 (by decide) (by decide) (by decide) (by decide)).2.1⟩

/-! ## The limit stored by `Reset` -/

theorem FillOutLoop_frame (fuel : Nat) (b : CircleBuf) :
    (CircleBuf.FillOutLoop fuel b).OutP = b.OutP ∧
    (CircleBuf.FillOutLoop fuel b).MaxGet = b.MaxGet ∧
    (CircleBuf.FillOutLoop fuel b).Size = b.Size ∧
    (CircleBuf.FillOutLoop fuel b).MD5 = b.MD5 := by
  induction fuel generalizing b with
  | zero => simp [CircleBuf.FillOutLoop]
  | succ n ih =>
    rw [CircleBuf.FillOutLoop]
    by_cases hfull : b.InP - b.OutP = b.Size
    · rw [if_pos hfull]; exact ⟨rfl, rfl, rfl, rfl⟩
    · rw [if_neg hfull]
      dsimp only
      split_ifs
      · exact ⟨rfl, rfl, rfl, rfl⟩
      · exact ih _
      · exact ⟨rfl, rfl, rfl, rfl⟩
      · exact ih _

theorem FillOut_frame (b : CircleBuf) :
    b.FillOut.OutP = b.OutP ∧ b.FillOut.MaxGet = b.MaxGet ∧ b.FillOut.Size = b.Size ∧
    b.FillOut.MD5 = b.MD5 := by
  unfold CircleBuf.FillOut
  split_ifs
  · exact ⟨rfl, rfl, rfl, rfl⟩
  · exact FillOutLoop_frame _ b

theorem WriteLoop_bound (fuel : Nat) (b : CircleBuf) (fd : List WriteEv) (out : List Char)
    (h : Ring b) (hm : b.OutP ≤ b.MaxGet) :
    (CircleBuf.WriteLoop fuel b fd out).2.2.2.length + b.OutP
      = out.length + (CircleBuf.WriteLoop fuel b fd out).2.1.OutP ∧
    (CircleBuf.WriteLoop fuel b fd out).2.1.OutP ≤ (CircleBuf.WriteLoop fuel b fd out).2.1.MaxGet ∧
    (CircleBuf.WriteLoop fuel b fd out).2.1.MaxGet = b.MaxGet ∧
    Ring (CircleBuf.WriteLoop fuel b fd out).2.1 := by
  induction fuel generalizing b fd out with
  | zero => simp [CircleBuf.WriteLoop, h, hm]
  | succ n ih =>
    rw [CircleBuf.WriteLoop]
    dsimp only
    obtain ⟨f1, f2, -, -⟩ := FillOut_frame b
    have hf := FillOut_ring b h
    have base :
        out.length + b.OutP = out.length + b.FillOut.OutP ∧ b.FillOut.OutP ≤ b.FillOut.MaxGet ∧
        b.FillOut.MaxGet = b.MaxGet ∧ Ring b.FillOut :=
      ⟨by omega, by omega, f2, hf⟩
    by_cases he : b.FillOut.OutP = b.FillOut.InP
    · rw [if_pos he]; exact base
    · rw [if_neg he]
      by_cases hl : b.FillOut.OutP = b.FillOut.MaxGet
      · rw [if_pos hl]; exact base
      · rw [if_neg hl]
        split
        · rename_i k fd1 hw
          obtain ⟨hk1, hk2⟩ := sysWrite_wrote hw
          have hused := LeftWrite_le_used b.FillOut
          have hlimit := LeftWrite_le_limit b.FillOut hf.1
          have hr : Ring { b.FillOut with
              MD5 := b.FillOut.MD5.map
                (fun acc => acc ++ peek b.FillOut.Buf (b.FillOut.OutP % b.FillOut.Size) k),
              OutP := b.FillOut.OutP + k } := by
            unfold Ring at hf ⊢
            dsimp only
            omega
          obtain ⟨g1, g2, g3, g4⟩ := ih _ fd1
            (out ++ peek b.FillOut.Buf (b.FillOut.OutP % b.FillOut.Size) k) hr
            (by dsimp only; omega)
          refine ⟨?_, g2, by rw [g3]; exact f2, g4⟩
          rw [List.length_append, peek_length] at g1
          dsimp only at g1
          omega
        · exact base
        · exact base
        · exact base

theorem ReadLoop_fuel (fuel : Nat) (b : CircleBuf) (fd : List ReadEv) (h : Ring b)
    (hf : b.Size - (b.InP - b.OutP) < fuel) :
    CircleBuf.ReadLoop (fuel + 1) b fd = CircleBuf.ReadLoop fuel b fd := by
  induction fuel generalizing b fd with
  | zero => omega
  | succ n ih =>
    conv_lhs => rw [CircleBuf.ReadLoop]
    conv_rhs => rw [CircleBuf.ReadLoop]
    by_cases hfull : b.InP - b.OutP = b.Size
    · rw [if_pos hfull, if_pos hfull]
    · rw [if_neg hfull, if_neg hfull]
      split
      · rename_i bs fd1 hr
        have hb := sysRead_bytes hr
        have hl := LeftRead_le_free b
        apply ih
        · unfold Ring at h ⊢
          dsimp only
          omega
        · unfold Ring at h
          dsimp only
          omega
      · rfl
      · rfl
      · rfl

theorem FillOutLoop_fuel (fuel : Nat) (b : CircleBuf) (h : Ring b)
    (hq : b.StrPos ≤ b.OutQueue.length) (hf : b.Size - (b.InP - b.OutP) < fuel) :
    CircleBuf.FillOutLoop (fuel + 1) b = CircleBuf.FillOutLoop fuel b := by
  induction fuel generalizing b with
  | zero => omega
  | succ n ih =>
    conv_lhs => rw [CircleBuf.FillOutLoop]
    conv_rhs => rw [CircleBuf.FillOutLoop]
    dsimp only
    by_cases hfull : b.InP - b.OutP = b.Size
    · rw [if_pos hfull, if_pos hfull]
    · rw [if_neg hfull, if_neg hfull]
      generalize hSz : (if b.OutQueue.length - b.StrPos < b.LeftRead
        then b.OutQueue.length - b.StrPos else b.LeftRead) = Sz
      have hle : Sz ≤ b.LeftRead := by
        rw [← hSz]; split_ifs <;> omega
      have hrem : Sz ≤ b.OutQueue.length - b.StrPos := by
        rw [← hSz]; split_ifs <;> omega
      have hl := LeftRead_le_free b
      by_cases hdone : b.OutQueue.length = b.StrPos + Sz
      · rw [if_pos hdone, if_pos hdone]
      · rw [if_neg hdone, if_neg hdone]
        have hSzpos : 0 < Sz := by
          by_contra hz
          have hz0 : Sz = 0 := by omega
          have hnf : ¬ b.InP - b.OutP = b.Size := hfull
          have hmod : b.Size = 0 ∨ b.InP % b.Size < b.Size := by
            rcases Nat.eq_zero_or_pos b.Size with h0 | h0
            · exact Or.inl h0
            · exact Or.inr (Nat.mod_lt _ h0)
          unfold Ring at h
          unfold CircleBuf.LeftRead at hSz
          dsimp only at hSz
          split_ifs at hSz <;> omega
        apply ih
        · unfold Ring at h ⊢
          dsimp only
          omega
        · dsimp only
          omega
        · unfold Ring at h
          dsimp only
          omega

theorem popTo_fuel (I fuel : Nat) (b : CircleBuf) (Data : List Char)
    (hf : I - b.OutP < fuel) :
    CircleBuf.popTo I (fuel + 1) b Data = CircleBuf.popTo I fuel b Data := by
  induction fuel generalizing b Data with
  | zero => omega
  | succ n ih =>
    conv_lhs => rw [CircleBuf.popTo]
    conv_rhs => rw [CircleBuf.popTo]
    dsimp only
    by_cases h1 : b.OutP < I
    · rw [if_pos h1, if_pos h1]
      by_cases h2 : b.LeftWrite = 0
      · rw [if_pos h2, if_pos h2]
      · rw [if_neg h2, if_neg h2]
        apply ih
        dsimp only
        split_ifs <;> omega
    · rw [if_neg h1, if_neg h1]

theorem skipCR_ge (b : CircleBuf) (fuel I : Nat) : I ≤ b.skipCR fuel I := by
  induction fuel generalizing I with
  | zero => exact le_refl _
  | succ n ih =>
    rw [CircleBuf.skipCR]
    split_ifs
    · exact le_trans (Nat.le_succ _) (ih _)
    · exact le_refl _

theorem scanEl_fuel (b : CircleBuf) (Single : Bool) (fuel I : Nat) (hf : b.InP - I < fuel) :
    b.scanEl Single (fuel + 1) I = b.scanEl Single fuel I := by
  induction fuel generalizing I with
  | zero => omega
  | succ n ih =>
    conv_lhs => rw [CircleBuf.scanEl]
    conv_rhs => rw [CircleBuf.scanEl]
    dsimp only
    by_cases h1 : I < b.InP
    · rw [if_pos h1, if_pos h1]
      by_cases h2 : b.Buf (I % b.Size) ≠ '\n'
      · rw [if_pos h2, if_pos h2]
        exact ih _ (by omega)
      · rw [if_neg h2, if_neg h2]
        cases Single with
        | true => rfl
        | false =>
          simp only [Bool.false_eq_true, if_false]
          have hge := skipCR_ge b (b.InP - (I + 1)) (I + 1)
          split_ifs
          · exact ih _ (by omega)
          · rfl
    · rw [if_neg h1, if_neg h1]

theorem FillOutLoop_measure (fuel : Nat) (b : CircleBuf) (hq : b.StrPos ≤ b.OutQueue.length) :
    (CircleBuf.FillOutLoop fuel b).StrPos ≤ (CircleBuf.FillOutLoop fuel b).OutQueue.length ∧
    (CircleBuf.FillOutLoop fuel b).InP +
        ((CircleBuf.FillOutLoop fuel b).OutQueue.length - (CircleBuf.FillOutLoop fuel b).StrPos)
      = b.InP + (b.OutQueue.length - b.StrPos) := by
  induction fuel generalizing b with
  | zero => exact ⟨hq, rfl⟩
  | succ n ih =>
    rw [CircleBuf.FillOutLoop]
    by_cases hfull : b.InP - b.OutP = b.Size
    · rw [if_pos hfull]; exact ⟨hq, rfl⟩
    · rw [if_neg hfull]
      dsimp only
      generalize hSz : (if b.OutQueue.length - b.StrPos < b.LeftRead
        then b.OutQueue.length - b.StrPos else b.LeftRead) = Sz
      have hrem : Sz ≤ b.OutQueue.length - b.StrPos := by
        rw [← hSz]; split_ifs <;> omega
      by_cases hdone : b.OutQueue.length = b.StrPos + Sz
      · rw [if_pos hdone]
        dsimp only
        simp only [List.length_nil]
        omega
      · rw [if_neg hdone]
        obtain ⟨g1, g2⟩ := ih { b with
          Buf := memcpy b.Buf (b.InP % b.Size) ((b.OutQueue.drop b.StrPos).take Sz),
          StrPos := b.StrPos + Sz, InP := b.InP + Sz } (by dsimp only; omega)
        refine ⟨g1, ?_⟩
        rw [g2]
        dsimp only
        omega

theorem FillOut_measure (b : CircleBuf) (hq : b.StrPos ≤ b.OutQueue.length) :
    b.FillOut.StrPos ≤ b.FillOut.OutQueue.length ∧
    b.FillOut.InP + (b.FillOut.OutQueue.length - b.FillOut.StrPos)
      = b.InP + (b.OutQueue.length - b.StrPos) := by
  unfold CircleBuf.FillOut
  split_ifs
  · exact ⟨hq, rfl⟩
  · exact FillOutLoop_measure _ b hq

theorem WriteLoop_fuel (fuel : Nat) (b : CircleBuf) (fd : List WriteEv) (out : List Char)
    (h : Ring b) (hq : b.StrPos ≤ b.OutQueue.length)
    (hf : (b.InP - b.OutP) + (b.OutQueue.length - b.StrPos) < fuel) :
    CircleBuf.WriteLoop (fuel + 1) b fd out = CircleBuf.WriteLoop fuel b fd out := by
  induction fuel generalizing b fd out with
  | zero => omega
  | succ n ih =>
    conv_lhs => rw [CircleBuf.WriteLoop]
    conv_rhs => rw [CircleBuf.WriteLoop]
    dsimp only
    obtain ⟨m1, m2⟩ := FillOut_measure b hq
    obtain ⟨f1, -, -, -⟩ := FillOut_frame b
    have hr := FillOut_ring b h
    by_cases he : b.FillOut.OutP = b.FillOut.InP
    · rw [if_pos he, if_pos he]
    · rw [if_neg he, if_neg he]
      by_cases hl : b.FillOut.OutP = b.FillOut.MaxGet
      · rw [if_pos hl, if_pos hl]
      · rw [if_neg hl, if_neg hl]
        split
        · rename_i k fd1 hw
          obtain ⟨hk1, hk2⟩ := sysWrite_wrote hw
          have hused := LeftWrite_le_used b.FillOut
          apply ih
          · unfold Ring at hr ⊢
            dsimp only
            omega
          · exact m1
          · unfold Ring at hr h
            dsimp only
            omega
        · rfl
        · rfl
        · rfl

/-- `Read(fd)` never exhausts its bound: more passes allowed give the same
result. -/
theorem Read_bound_adequate (b : CircleBuf) (fd : List ReadEv) (k : Nat) (h : Ring b) :
    CircleBuf.ReadLoop (b.Size + 1 + k) b fd = b.Read fd := by
  induction k with
  | zero => rfl
  | succ n ih =>
    rw [← ih, ← Nat.add_assoc]
    exact ReadLoop_fuel _ b fd h (by omega)

/-- `FillOut` never exhausts its bound. -/
theorem FillOut_bound_adequate (b : CircleBuf) (k : Nat) (h : Ring b)
    (hq : b.StrPos ≤ b.OutQueue.length) :
    CircleBuf.FillOutLoop (b.Size + 1 + k) b = CircleBuf.FillOutLoop (b.Size + 1) b := by
  induction k with
  | zero => rfl
  | succ n ih =>
    rw [← ih, ← Nat.add_assoc]
    exact FillOutLoop_fuel _ b h hq (by omega)

/-- `Write(fd)` never exhausts its bound. -/
theorem Write_bound_adequate (b : CircleBuf) (fd : List WriteEv) (k : Nat) (h : Ring b)
    (hq : b.StrPos ≤ b.OutQueue.length) :
    CircleBuf.WriteLoop ((b.InP - b.OutP) + (b.OutQueue.length - b.StrPos) + 1 + k) b fd []
      = b.Write fd := by
  induction k with
  | zero => rfl
  | succ n ih =>
    rw [← ih, ← Nat.add_assoc]
    exact WriteLoop_fuel _ b fd [] h hq (by omega)

/-- The scan of `WriteTillEl` never exhausts its bound. -/
theorem scanEl_bound_adequate (b : CircleBuf) (Single : Bool) (k : Nat) :
    b.scanEl Single (b.InP - b.OutP + 1 + k) b.OutP = b.scanEl Single (b.InP - b.OutP + 1) b.OutP := by
  induction k with
  | zero => rfl
  | succ n ih =>
    rw [← ih, ← Nat.add_assoc]
    exact scanEl_fuel b Single _ b.OutP (by omega)

/-- The pop loop of `WriteTillEl` never exhausts its bound. -/
theorem popTo_bound_adequate (I : Nat) (b : CircleBuf) (Data : List Char) (k : Nat) :
    CircleBuf.popTo I (I - b.OutP + 1 + k) b Data = CircleBuf.popTo I (I - b.OutP + 1) b Data := by
  induction k with
  | zero => rfl
  | succ n ih =>
    rw [← ih, ← Nat.add_assoc]
    exact popTo_fuel I _ b Data (by omega)

/-! ## The MD5 accumulator -/

theorem ReadLoop_md5 (fuel : Nat) (b : CircleBuf) (fd : List ReadEv) :
    (CircleBuf.ReadLoop fuel b fd).2.1.MD5 = b.MD5 := by
  induction fuel generalizing b fd with
  | zero => rfl
  | succ n ih =>
    rw [CircleBuf.ReadLoop]
    split_ifs
    · rfl
    · split
      · rw [ih]
      · rfl
      · rfl
      · rfl

theorem popTo_md5 (I fuel : Nat) (b : CircleBuf) (Data : List Char) :
    (CircleBuf.popTo I fuel b Data).2.1.MD5 = b.MD5 := by
  induction fuel generalizing b Data with
  | zero => rfl
  | succ n ih =>
    rw [CircleBuf.popTo]
    split_ifs
    · rfl
    · rw [ih]
    · rw [ih]
    · rfl

theorem WriteTillEl_md5 (b : CircleBuf) (Data : List Char) (Single : Bool) :
    (b.WriteTillEl Data Single).2.1.MD5 = b.MD5 := by
  unfold CircleBuf.WriteTillEl
  split
  · rfl
  · exact popTo_md5 _ _ b []

theorem Limit_md5 (b : CircleBuf) (Max : Int) : (b.Limit Max).MD5 = b.MD5 := by
  unfold CircleBuf.Limit
  split_ifs <;> rfl

/-- `Write` feeds the accumulator exactly the bytes it hands to the
descriptor. -/
theorem WriteLoop_md5 (fuel : Nat) (b : CircleBuf) (fd : List WriteEv) (out : List Char) :
    ∃ wr, (CircleBuf.WriteLoop fuel b fd out).2.2.2 = out ++ wr ∧
      (CircleBuf.WriteLoop fuel b fd out).2.1.MD5 = b.MD5.map (fun acc => acc ++ wr) := by
  induction fuel generalizing b fd out with
  | zero => exact ⟨[], by simp [CircleBuf.WriteLoop], by simp [CircleBuf.WriteLoop]⟩
  | succ n ih =>
    rw [CircleBuf.WriteLoop]
    dsimp only
    obtain ⟨-, -, -, f4⟩ := FillOut_frame b
    have base : ∃ wr, out = out ++ wr ∧ b.FillOut.MD5 = b.MD5.map (fun acc => acc ++ wr) :=
      ⟨[], by simp, by rw [f4]; simp⟩
    split_ifs
    · exact base
    · exact base
    · split
      · rename_i k fd1 hw
        obtain ⟨wr, h1, h2⟩ := ih
          { b.FillOut with
            MD5 := b.FillOut.MD5.map
              (fun acc => acc ++ peek b.FillOut.Buf (b.FillOut.OutP % b.FillOut.Size) k),
            OutP := b.FillOut.OutP + k } fd1
          (out ++ peek b.FillOut.Buf (b.FillOut.OutP % b.FillOut.Size) k)
        refine ⟨peek b.FillOut.Buf (b.FillOut.OutP % b.FillOut.Size) k ++ wr, ?_, ?_⟩
        · rw [h1, List.append_assoc]
        · rw [h2, f4]
          cases b.MD5 <;> simp
      · exact base
      · exact base
      · exact base

theorem Write_md5 (b : CircleBuf) (fd : List WriteEv) :
    (b.Write fd).2.1.MD5 = b.MD5.map (fun acc => acc ++ (b.Write fd).2.2.2) := by
  obtain ⟨wr, h1, h2⟩ := WriteLoop_md5
    ((b.InP - b.OutP) + (b.OutQueue.length - b.StrPos) + 1) b fd []
  unfold CircleBuf.Write
  rw [h2, h1, List.nil_append]

theorem Hashing_of_eq {p d : List Char} {e : List Emit} {w w1 : World} (h : Hashing p d e w)
    (hF : w1.File = w.File) (he : w1.emitted = w.emitted) (hd : w1.dest = w.dest)
    (hm : w1.Srv.In.MD5 = w.Srv.In.MD5) : Hashing p d e w1 := by
  unfold Hashing at h ⊢
  rw [hF, he, hd, hm]
  exact h

theorem writeInToFile_hashing {p d : List Char} {e : List Emit} {w : World} {f : FileFd}
    (h : Hashing p d e w) (hf : w.File = some f) : Hashing p d e (w.writeInToFile f).2 := by
  obtain ⟨⟨f0, hf0, hdn⟩, he, body, hd, hm⟩ := h
  rw [hf] at hf0
  cases hf0
  refine ⟨⟨f, hf, hdn⟩, he, body ++ (w.Srv.In.Write w.fileOut).2.2.2, ?_, ?_⟩
  · simp [World.writeInToFile, hdn, hd]
  · simp [World.writeInToFile, Write_md5, hm]

theorem writeInToFile_file (w : World) (f : FileFd) : (w.writeInToFile f).2.File = w.File := rfl

theorem drainLoop_hashing {p d : List Char} {e : List Emit} (msg : String) (f : FileFd) (fuel : Nat)
    (w : World) (r : Option Bool) (w1 : World) (h : Hashing p d e w) (hf : w.File = some f)
    (hrun : World.drainLoop msg f fuel w = some (r, w1)) : Hashing p d e w1 := by
  induction fuel generalizing w with
  | zero => simp [World.drainLoop] at hrun
  | succ n ih =>
    rw [World.drainLoop] at hrun
    have hw := writeInToFile_hashing h hf
    by_cases h1 : w.Srv.In.WriteSpace = true
    · rw [if_pos h1] at hrun
      dsimp only at hrun
      by_cases h2 : (w.writeInToFile f).1 = false
      · rw [if_pos h2] at hrun
        cases hrun
        exact Hashing_of_eq hw rfl rfl rfl rfl
      · rw [if_neg h2] at hrun
        by_cases h3 : (w.writeInToFile f).2.Srv.In.IsLimit = true
        · rw [if_pos h3] at hrun
          cases hrun
          exact hw
        · rw [if_neg h3] at hrun
          exact ih _ hw hf hrun
    · rw [if_neg h1] at hrun
      cases hrun
      exact h

theorem limitIn_hashing {p d : List Char} {e : List Emit} {w : World} (Max : Int) (h : Hashing p d e w) :
    Hashing p d e (w.limitIn Max) :=
  Hashing_of_eq h rfl rfl rfl (Limit_md5 _ _)

theorem Flush_hashing {p d : List Char} {e : List Emit} (fuel : Nat) (w : World) (r : Bool) (w1 : World)
    (h : Hashing p d e w) (hrun : World.Flush fuel w = some (r, w1)) : Hashing p d e w1 := by
  unfold World.Flush at hrun
  split at hrun
  · cases hrun; exact h
  · rename_i f hf
    by_cases h1 : w.Srv.In.WriteSpace = false
    · rw [if_pos h1] at hrun
      cases hrun; exact h
    · rw [if_neg h1] at hrun
      split at hrun
      · simp at hrun
      · rename_i r0 w0 hdr
        cases hrun
        exact drainLoop_hashing _ f fuel w _ _ h hf hdr
      · rename_i w0 hdr
        have := drainLoop_hashing _ f fuel w _ _ h hf hdr
        split_ifs at hrun <;> (cases hrun; exact this)

theorem dumped_hashing {p d : List Char} {e : List Emit} (fuel : Nat) (w : World) (r : Option Bool)
    (w0 : World) (h : Hashing p d e w)
    (hdumped : (if w.Srv.State = ServerPhase.Data then
        match w.File with
        | none => none
        | some f => World.drainLoop "Error writing to the file" f fuel w
      else some (none, w)) = some (r, w0)) : Hashing p d e w0 := by
  by_cases hs : w.Srv.State = ServerPhase.Data
  · rw [if_pos hs] at hdumped
    split at hdumped
    · simp at hdumped
    · rename_i f hf
      exact drainLoop_hashing _ f fuel w _ _ h hf hdumped
  · rw [if_neg hs] at hdumped
    cases hdumped
    exact h

theorem ServerDie_hashing {p d : List Char} {e : List Emit} (fuel : Nat) (w : World) (r : Bool) (w1 : World)
    (h : Hashing p d e w) (hrun : World.ServerDie fuel w = some (r, w1)) : Hashing p d e w1 := by
  unfold World.ServerDie at hrun
  dsimp only at hrun
  split at hrun
  · simp at hrun
  · rename_i r0 w0 hdumped
    cases hrun
    exact dumped_hashing fuel w _ _ h hdumped
  · rename_i w0 hdumped
    have hw0 : Hashing p d e w0 := dumped_hashing fuel w _ _ h hdumped
    split_ifs at hrun
    · cases hrun
      exact Hashing_of_eq hw0 rfl rfl rfl rfl
    · cases hrun
      exact limitIn_hashing _ hw0
    · cases hrun
      exact Hashing_of_eq (limitIn_hashing (-1) hw0) rfl rfl rfl rfl

theorem dieInGo_hashing {p d : List Char} {e : List Emit} (fuel : Nat) (w : World) (o : Outcome) (w1 : World)
    (h : Hashing p d e w) (hrun : World.dieInGo fuel w = some (o, w1)) : Hashing p d e w1 := by
  unfold World.dieInGo at hrun
  split at hrun
  · simp at hrun
  · rename_i r w0 hd
    cases hrun
    exact ServerDie_hashing fuel w _ _ h hd

theorem nextSelect_hashing {p d : List Char} {e : List Emit} {w : World} (h : Hashing p d e w) :
    Hashing p d e w.nextSelect.2 := by
  unfold World.nextSelect
  split
  · exact h
  · exact Hashing_of_eq h rfl rfl rfl rfl

theorem pushError_hashing {p d : List Char} {e : List Emit} {w : World} (msg : String) (h : Hashing p d e w) :
    Hashing p d e (w.pushError msg) :=
  Hashing_of_eq h rfl rfl rfl rfl

theorem serveRead_hashing {p d : List Char} {e : List Emit} {w : World} (doIt : Bool) (h : Hashing p d e w) :
    Hashing p d e (w.serveRead doIt).2 := by
  unfold World.serveRead
  split_ifs
  · exact Hashing_of_eq h rfl rfl rfl (ReadLoop_md5 _ _ _)
  · exact h

theorem serveWrite_hashing {p d : List Char} {e : List Emit} {w : World} (doIt : Bool) (h : Hashing p d e w) :
    Hashing p d e (w.serveWrite doIt).2 := by
  unfold World.serveWrite
  split_ifs
  · exact Hashing_of_eq h rfl rfl rfl rfl
  · exact h

theorem serveFile_hashing {p d : List Char} {e : List Emit} {w : World} (doIt : Bool) (h : Hashing p d e w) :
    Hashing p d e (w.serveFile doIt).2 := by
  unfold World.serveFile
  split
  · exact h
  · rename_i f hf
    split_ifs
    · exact writeInToFile_hashing h hf
    · exact h

theorem Go_hashing {p d : List Char} {e : List Emit} (fuel : Nat) (ToFile : Bool) (w : World) (o : Outcome)
    (w1 : World) (h : Hashing p d e w) (hrun : World.Go fuel ToFile w = some (o, w1)) :
    Hashing p d e w1 := by
  unfold World.Go at hrun
  dsimp only at hrun
  have hs := nextSelect_hashing h
  split_ifs at hrun
  · cases hrun; exact h
  · cases hrun; exact pushError_hashing _ hs
  · exact dieInGo_hashing fuel _ _ _ (pushError_hashing _ hs) hrun
  · cases hrun; exact pushError_hashing _ hs
  · exact dieInGo_hashing fuel _ _ _ (serveRead_hashing _ hs) hrun
  · exact dieInGo_hashing fuel _ _ _ (serveWrite_hashing _ (serveRead_hashing _ hs)) hrun
  · cases hrun
    exact pushError_hashing _ (serveFile_hashing _ (serveWrite_hashing _ (serveRead_hashing _ hs)))
  · cases hrun
    exact serveFile_hashing _ (serveWrite_hashing _ (serveRead_hashing _ hs))
  · cases hrun
    exact serveFile_hashing _ (serveWrite_hashing _ (serveRead_hashing _ hs))

theorem waitLine_hashing {p d : List Char} {e : List Emit} (trailer : Bool) (fuel : Nat) (w : World)
    (Data : List Char) (o : Outcome) (w1 : World) (Data1 : List Char) (h : Hashing p d e w)
    (hrun : World.waitLine trailer fuel w Data = some (o, w1, Data1)) : Hashing p d e w1 := by
  induction fuel generalizing w Data with
  | zero => simp [World.waitLine] at hrun
  | succ n ih =>
    rw [World.waitLine] at hrun
    dsimp only at hrun
    have hw : Hashing p d e
        { w with Srv := { w.Srv with In := (w.Srv.In.WriteTillEl Data true).2.1 } } :=
      Hashing_of_eq h rfl rfl rfl (WriteTillEl_md5 _ _ _)
    split_ifs at hrun
    · cases hrun; exact hw
    · split at hrun
      · simp at hrun
      · rename_i w2 hgo
        exact ih _ _ (Go_hashing n false _ _ _ hw hgo) hrun
      · rename_i w2 hgo
        cases hrun
        exact Go_hashing n false _ _ _ hw hgo
      · rename_i w2 hgo
        cases hrun
        exact Go_hashing n false _ _ _ hw hgo

theorem transferBlock_hashing {p d : List Char} {e : List Emit} (fuel : Nat) (w : World) (o : Outcome)
    (w1 : World) (h : Hashing p d e w) (hrun : World.transferBlock fuel w = some (o, w1)) :
    Hashing p d e w1 := by
  induction fuel generalizing w with
  | zero => simp [World.transferBlock] at hrun
  | succ n ih =>
    rw [World.transferBlock] at hrun
    split at hrun
    · simp at hrun
    · rename_i w2 hgo
      have hw2 := Go_hashing n true _ _ _ h hgo
      split_ifs at hrun
      · cases hrun; exact hw2
      · exact ih _ hw2 hrun
    · rename_i w2 hgo
      cases hrun
      exact Go_hashing n true _ _ _ h hgo
    · rename_i w2 hgo
      cases hrun
      exact Go_hashing n true _ _ _ h hgo

theorem chunkLoop_hashing {p d : List Char} {e : List Emit} (fuel : Nat) (w : World) (o : Outcome)
    (w1 : World) (h : Hashing p d e w) (hrun : World.chunkLoop fuel w = some (o, w1)) :
    Hashing p d e w1 := by
  induction fuel generalizing w with
  | zero => simp [World.chunkLoop] at hrun
  | succ n ih =>
    rw [World.chunkLoop] at hrun
    split at hrun
    · simp at hrun
    · rename_i w2 _ hl
      cases hrun
      exact waitLine_hashing _ n _ _ _ _ _ (limitIn_hashing _ h) hl
    · rename_i w2 _ hl
      cases hrun
      exact waitLine_hashing _ n _ _ _ _ _ (limitIn_hashing _ h) hl
    · rename_i w2 Data hl
      have hw2 := waitLine_hashing _ n _ _ _ _ _ (limitIn_hashing _ h) hl
      dsimp only at hrun
      split_ifs at hrun
      · split at hrun
        · simp at hrun
        · rename_i w3 _ ht
          cases hrun
          exact waitLine_hashing _ n _ _ _ _ _ (limitIn_hashing _ hw2) ht
        · rename_i w3 _ ht
          cases hrun
          exact waitLine_hashing _ n _ _ _ _ _ (limitIn_hashing _ hw2) ht
        · rename_i w3 _ ht
          cases hrun
          exact waitLine_hashing _ n _ _ _ _ _ (limitIn_hashing _ hw2) ht
      · split at hrun
        · simp at hrun
        · rename_i w3 ht
          cases hrun
          exact transferBlock_hashing n _ _ _ (limitIn_hashing _ hw2) ht
        · rename_i r3 w3 ht
          have hw3 := transferBlock_hashing n _ _ _ (limitIn_hashing _ hw2) ht
          split_ifs at hrun
          · cases hrun; exact hw3
          · split at hrun
            · simp at hrun
            · rename_i w4 _ hn
              cases hrun
              exact waitLine_hashing _ n _ _ _ _ _ (limitIn_hashing _ hw3) hn
            · rename_i w4 _ hn
              cases hrun
              exact waitLine_hashing _ n _ _ _ _ _ (limitIn_hashing _ hw3) hn
            · rename_i w4 _ hn
              exact ih _ (waitLine_hashing _ n _ _ _ _ _ (limitIn_hashing _ hw3) hn) hrun

theorem streamLoop_hashing {p d : List Char} {e : List Emit} (fuel : Nat) (w : World) (o : Outcome)
    (w1 : World) (h : Hashing p d e w) (hrun : World.streamLoop fuel w = some (o, w1)) :
    Hashing p d e w1 := by
  induction fuel generalizing w with
  | zero => simp [World.streamLoop] at hrun
  | succ n ih =>
    rw [World.streamLoop] at hrun
    split_ifs at hrun
    · cases hrun
      exact limitIn_hashing _ h
    · split at hrun
      · simp at hrun
      · rename_i w2 hgo
        exact ih _ (Go_hashing n true _ _ _ h hgo) hrun
      · rename_i w2 hgo
        have hw2 := Go_hashing n true _ _ _ h hgo
        split at hrun
        · simp at hrun
        · rename_i r3 w3 hfl
          cases hrun
          exact Flush_hashing n _ _ _ hw2 hfl
      · rename_i w2 hgo
        cases hrun
        exact Go_hashing n true _ _ _ h hgo

theorem RunData_hashing {p d : List Char} {e : List Emit} (fuel : Nat) (w : World) (o : Outcome)
    (w1 : World) (h : Hashing p d e w) (hrun : World.RunData fuel w = some (o, w1)) :
    Hashing p d e w1 := by
  unfold World.RunData at hrun
  dsimp only at hrun
  have h0 : Hashing p d e { w with Srv := { w.Srv with State := ServerPhase.Data } } :=
    Hashing_of_eq h rfl rfl rfl rfl
  split_ifs at hrun
  · exact chunkLoop_hashing fuel _ _ _ h0 hrun
  · exact streamLoop_hashing fuel _ _ _ (limitIn_hashing _ h0) hrun
  · exact streamLoop_hashing fuel _ _ _ (limitIn_hashing _ h0) hrun

theorem DealWithHeaders_2xx (Res : FetchResult) (w : World) (h1 : 200 ≤ w.Srv.Result)
    (h2 : w.Srv.Result < 300) :
    ((w.DealWithHeaders Res).1 = 0 ∧
      Hashing (((w.DealWithHeaders Res).2.2.dest.getD []).take w.Srv.StartPos.toNat)
        ((w.DealWithHeaders Res).2.2.dest.getD []) w.emitted (w.DealWithHeaders Res).2.2) ∨
    (w.DealWithHeaders Res).1 = 3 := by
  have hne : ¬ w.Srv.Result = 304 := by omega
  have hrange : ¬ (w.Srv.Result < 200 ∨ w.Srv.Result ≥ 300) := by omega
  unfold World.DealWithHeaders
  rw [if_neg hne, if_neg hrange]
  dsimp only
  by_cases hopen : w.openFails = true
  · right
    simp [hopen]
  · simp only [hopen, Bool.false_eq_true, if_false]
    by_cases herr : w.errors = []
    · simp only [herr, ne_eq, not_true_eq_false, if_false]
      by_cases hge : w.Srv.StartPos ≥ 0
      · simp only [hge, if_true]
        by_cases hpos : w.Srv.StartPos > 0
        · simp only [hpos, if_true]
          by_cases hhash : w.hashFails = true
          · right
            simp [hhash]
          · left
            simp only [hhash, Bool.false_eq_true, if_false, true_and]
            exact ⟨⟨_, rfl, rfl⟩, rfl, [], by simp, by simp⟩
        · left
          simp only [hpos, if_false, true_and]
          have h0 : w.Srv.StartPos.toNat = 0 := by omega
          exact ⟨⟨_, rfl, rfl⟩, rfl, [], by simp, by simp [h0]⟩
      · left
        have hpos : ¬ w.Srv.StartPos > 0 := by omega
        simp only [hge, hpos, if_false, true_and]
        have h0 : w.Srv.StartPos.toNat = 0 := by omega
        exact ⟨⟨_, rfl, rfl⟩, rfl, [], by simp, by simp [h0]⟩
    · right
      simp [herr]

theorem LoopDecide_md5 (md5 : List Char → List Char) (fuel : Nat) (w w1 : World)
    (o : Outcome) (Res : FetchResult)
    (h200 : 200 ≤ w.Srv.Result) (h300 : w.Srv.Result < 300)
    (hrun : World.LoopDecide md5 fuel w = some (o, w1))
    (hdone : w1.emitted.getLast? = some (Emit.URIDone Res)) :
    ∃ body,
      w1.dest = some
        (((w.DealWithHeaders { FetchResult.new with Filename := w.Queue.DestFile }).2.2.dest.getD [])
          ++ body) ∧
      Res.MD5Sum = md5
        ((((w.DealWithHeaders { FetchResult.new with Filename := w.Queue.DestFile }).2.2.dest.getD
            []).take w.Srv.StartPos.toNat) ++ body) := by
  unfold World.LoopDecide at hrun
  dsimp only at hrun
  have hdeal := DealWithHeaders_2xx { FetchResult.new with Filename := w.Queue.DestFile } w
    h200 h300
  generalize w.DealWithHeaders { FetchResult.new with Filename := w.Queue.DestFile } = dr
    at hrun hdeal ⊢
  rcases hdeal with ⟨h0, hH⟩ | h3
  · rw [if_pos h0] at hrun
    have hH1 : Hashing ((dr.2.2.dest.getD []).take w.Srv.StartPos.toNat) (dr.2.2.dest.getD [])
        (w.emitted ++ [Emit.URIStart dr.2.1])
        { dr.2.2 with emitted := dr.2.2.emitted ++ [Emit.URIStart dr.2.1] } := by
      obtain ⟨hF, he, hb⟩ := hH
      exact ⟨hF, by dsimp only; rw [he], hb⟩
    split at hrun
    · simp at hrun
    · rename_i w2 hrd
      obtain ⟨-, he, -⟩ := RunData_hashing fuel _ _ _ hH1 hrd
      cases hrun
      rw [he] at hdone
      simp at hdone
    · rename_i Result w2 hrd
      obtain ⟨-, he, body, hd, hm⟩ := RunData_hashing fuel _ _ _ hH1 hrd
      cases hrun
      by_cases hres : Result = true
      · simp only [hres, if_true] at hdone ⊢
        simp at hdone
        refine ⟨body, hd, ?_⟩
        rw [← hdone]
        simp [hm]
      · exfalso
        simp only [hres] at hdone
        simp [World.Fail] at hdone
  · exfalso
    rw [if_neg (by omega), if_neg (by omega), if_pos h3] at hrun
    cases hrun
    simp [World.Fail] at hdone

/-- For every 2xx reply, whenever the loop reports `uri-done`, the MD5 digest
it reports is the digest of `prefix ++ written`, where the destination file
after `DealWithHeaders` (opened and truncated to `StartPos`) is extended by
exactly `written` during `RunData`, and `prefix` is the first `StartPos` bytes
of that file: the digest always agrees with the file.  Whether `written` is the
entity body is another matter. -/
theorem md5_covers_prefix_and_body (md5 : List Char → List Char) (fuel : Nat) (w : World)
    (Res : FetchResult) (h200 : 200 ≤ w.Srv.Result) (h300 : w.Srv.Result < 300)
    (hdone : (World.LoopDecide md5 fuel w).map (fun r => r.2.emitted.getLast?)
      = some (some (Emit.URIDone Res))) :
    ∃ body,
      (World.LoopDecide md5 fuel w).map (fun r => r.2.dest) = some (some
        (((w.DealWithHeaders { FetchResult.new with Filename := w.Queue.DestFile }).2.2.dest.getD [])
          ++ body)) ∧
      Res.MD5Sum = md5
        ((((w.DealWithHeaders { FetchResult.new with Filename := w.Queue.DestFile }).2.2.dest.getD
            []).take w.Srv.StartPos.toNat) ++ body) := by
  cases hrun : World.LoopDecide md5 fuel w with
  | none => rw [hrun] at hdone; simp at hdone
  | some r =>
    obtain ⟨o, w1⟩ := r
    rw [hrun] at hdone
    simp only [Option.map_some', Option.some.injEq] at hdone
    obtain ⟨body, hd, hm⟩ := LoopDecide_md5 md5 fuel w w1 o Res h200 h300 hrun hdone
    exact ⟨body, by simp [hd], hm⟩

set_option maxRecDepth 100000 in
/-- The digest on a resumed download: the file on disk holds `helXX`, the
reply is `206` with start position 3 and size 8, the server sends `lo wo`; with
the identity in place of MD5 the digest reported is `hello wo`. -/
theorem md5_covers_prefix_and_body_witness :
    (200 ≤ ({ World.after200 TransferEncoding.Stream 8 [ReadEv.data "lo wo".toList] with
        Srv := { ServerState.after200 TransferEncoding.Stream 8 3 with Result := 206 },
        dest := some "helXX".toList } : World).Srv.Result ∧
      ({ World.after200 TransferEncoding.Stream 8 [ReadEv.data "lo wo".toList] with
        Srv := { ServerState.after200 TransferEncoding.Stream 8 3 with Result := 206 },
        dest := some "helXX".toList } : World).Srv.Result < 300 ∧
      (World.LoopDecide id 50
        { World.after200 TransferEncoding.Stream 8 [ReadEv.data "lo wo".toList] with
          Srv := { ServerState.after200 TransferEncoding.Stream 8 3 with Result := 206 },
          dest := some "helXX".toList }).map (fun r => r.2.emitted.getLast?)
        = some (some (Emit.URIDone
            { MD5Sum := "hello wo".toList, LastModified := 5, IMSHit := false,
              Filename := "dest".toList, Size := 8, ResumePoint := 3 }))) ∧
    ∃ body,
      (World.LoopDecide id 50
        { World.after200 TransferEncoding.Stream 8 [ReadEv.data "lo wo".toList] with
          Srv := { ServerState.after200 TransferEncoding.Stream 8 3 with Result := 206 },
          dest := some "helXX".toList }).map (fun r => r.2.dest)
        = some (some ("hel".toList ++ body)) ∧
      "hello wo".toList = id ("hel".toList ++ body) :=
  ⟨⟨by decide, by decide, by decide⟩,
   md5_covers_prefix_and_body id 50
     { World.after200 TransferEncoding.Stream 8 [ReadEv.data "lo wo".toList] with
       Srv := { ServerState.after200 TransferEncoding.Stream 8 3 with Result := 206 },
       dest := some "helXX".toList }
     { MD5Sum := "hello wo".toList, LastModified := 5, IMSHit := false,
       Filename := "dest".toList, Size := 8, ResumePoint := 3 }
     (by decide) (by decide) (by decide)⟩

set_option maxRecDepth 100000 in
/-- C6: a `200` reply in chunked encoding whose one chunk has the two payload
bytes `\r` `A` (the stream `2\r\n\rA\r\n0\r\n\r\n`) is fetched with success, and
the digest reported in `uri-done`, with the identity in place of MD5, is that
of `A\r`, not of the entity body `\rA`: the leading `\r` of the payload is
popped together with the chunk-size line and never reaches the accumulator,
and the `\r` of the line break that closes the chunk, a framing byte, is fed to
it in its place. -/
theorem digest_of_chunked_payload_starting_with_CR :
    (World.LoopDecide id 50
      (World.after200 TransferEncoding.Chunked 0
          [ReadEv.data (chunkedEncode ["\rA".toList])])).map
        (fun r => (r.1, r.2.dest, r.2.emitted.map Emit.doneMD5))
      = some (Outcome.ret true, some "A\r".toList, [none, some "A\r".toList])
    ∧ chunkedEncode ["\rA".toList] = "2\r\n\rA\r\n0\r\n\r\n".toList := by
  refine ⟨?_, ?_⟩
  · decide
  · decide

/-! ## The write limit -/

theorem ReadLoop_frame (fuel : Nat) (b : CircleBuf) (fd : List ReadEv) :
    (CircleBuf.ReadLoop fuel b fd).2.1.OutP = b.OutP ∧
    (CircleBuf.ReadLoop fuel b fd).2.1.MaxGet = b.MaxGet := by
  induction fuel generalizing b fd with
  | zero => exact ⟨rfl, rfl⟩
  | succ n ih =>
    rw [CircleBuf.ReadLoop]
    split_ifs
    · exact ⟨rfl, rfl⟩
    · split
      · exact ih _ _
      · exact ⟨rfl, rfl⟩
      · exact ⟨rfl, rfl⟩
      · exact ⟨rfl, rfl⟩

/-- What a transfer call does to the counters: `OutP` advances by the number
of bytes written, never beyond the limit, and the limit stays. -/
theorem call_transfer (b : CircleBuf) (c : BufCall) (hc : c.isTransfer = true) (h : Ring b)
    (hm : b.OutP ≤ b.MaxGet) :
    (b.call c).1.OutP = b.OutP + (b.call c).2.length ∧
    (b.call c).1.OutP ≤ (b.call c).1.MaxGet ∧
    (b.call c).1.MaxGet = b.MaxGet ∧ Ring (b.call c).1 := by
  cases c with
  | limit Max => simp [BufCall.isTransfer] at hc
  | op o =>
    cases o with
    | readFd fd =>
      obtain ⟨f1, f2⟩ := ReadLoop_frame (b.Size + 1) b fd
      have hr := ReadLoop_ring (b.Size + 1) b fd h
      refine ⟨?_, ?_, f2, hr⟩
      · show (CircleBuf.ReadLoop (b.Size + 1) b fd).2.1.OutP = b.OutP + 0
        rw [f1]; rfl
      · show (CircleBuf.ReadLoop (b.Size + 1) b fd).2.1.OutP
          ≤ (CircleBuf.ReadLoop (b.Size + 1) b fd).2.1.MaxGet
        rw [f1, f2]; exact hm
    | readString Data =>
      obtain ⟨f1, f2, -, -⟩ := FillOut_frame { b with OutQueue := b.OutQueue ++ Data }
      have hr : Ring (CircleBuf.FillOut { b with OutQueue := b.OutQueue ++ Data }) :=
        FillOut_ring _ h
      refine ⟨?_, ?_, f2, hr⟩
      · show (CircleBuf.FillOut { b with OutQueue := b.OutQueue ++ Data }).OutP = b.OutP + 0
        rw [f1]; rfl
      · show (CircleBuf.FillOut { b with OutQueue := b.OutQueue ++ Data }).OutP
          ≤ (CircleBuf.FillOut { b with OutQueue := b.OutQueue ++ Data }).MaxGet
        rw [f1, f2]; exact hm
    | fillOut =>
      obtain ⟨f1, f2, -, -⟩ := FillOut_frame b
      refine ⟨?_, ?_, f2, FillOut_ring b h⟩
      · show b.FillOut.OutP = b.OutP + 0
        rw [f1]; rfl
      · show b.FillOut.OutP ≤ b.FillOut.MaxGet
        rw [f1, f2]; exact hm
    | writeFd fd =>
      obtain ⟨g1, g2, g3, g4⟩ := WriteLoop_bound
        ((b.InP - b.OutP) + (b.OutQueue.length - b.StrPos) + 1) b fd [] h hm
      refine ⟨?_, g2, g3, g4⟩
      show (b.Write fd).2.1.OutP = b.OutP + (b.Write fd).2.2.2.length
      unfold CircleBuf.Write
      simp only [List.length_nil] at g1
      omega
    | writeTillEl Data Single => simp [BufCall.isTransfer] at hc

theorem callAll_transfer (calls : List BufCall) (b : CircleBuf)
    (hc : ∀ c ∈ calls, c.isTransfer = true) (h : Ring b) (hm : b.OutP ≤ b.MaxGet) :
    (b.callAll calls).1.OutP = b.OutP + (b.callAll calls).2.length ∧
    (b.callAll calls).1.OutP ≤ (b.callAll calls).1.MaxGet ∧
    (b.callAll calls).1.MaxGet = b.MaxGet := by
  induction calls generalizing b with
  | nil => exact ⟨rfl, hm, rfl⟩
  | cons c rest ih =>
    obtain ⟨g1, g2, g3, g4⟩ := call_transfer b c (hc c (List.mem_cons_self _ _)) h hm
    obtain ⟨i1, i2, i3⟩ := ih (b.call c).1 (fun x hx => hc x (List.mem_cons_of_mem _ hx)) g4 g2
    rw [CircleBuf.callAll]
    dsimp only
    refine ⟨?_, i2, by rw [i3, g3]⟩
    rw [i1, g1, List.length_append]
    omega

/-- C11: after `Limit(n)` with `n >= 0` on a ring that satisfies the ring
invariant, any sequence of `Write(fd)` calls, interleaved at will with
`Read(fd)`, `Read(string)` and `FillOut`, writes in total at most `n` bytes,
`OutP` never exceeds `MaxGet`, and `IsLimit()` is true exactly when `n` bytes
have been written since the limit was set. -/
theorem limit_bounds_the_drain (b : CircleBuf) (n : Nat) (calls : List BufCall)
    (hring : Ring b) (hcalls : ∀ c ∈ calls, c.isTransfer = true) :
    ((b.Limit n).callAll calls).2.length ≤ n ∧
    ((b.Limit n).callAll calls).1.OutP ≤ ((b.Limit n).callAll calls).1.MaxGet ∧
    (((b.Limit n).callAll calls).1.IsLimit = true ↔
      ((b.Limit n).callAll calls).2.length = n) := by
  have hL : b.Limit n = { b with MaxGet := b.OutP + n } := by
    unfold CircleBuf.Limit
    rw [if_neg (by omega)]
    simp
  have hr : Ring (b.Limit n) := by rw [hL]; exact hring
  have hO : (b.Limit n).OutP = b.OutP := by rw [hL]
  have hM : (b.Limit n).MaxGet = b.OutP + n := by rw [hL]
  obtain ⟨g1, g2, g3⟩ := callAll_transfer calls (b.Limit n) hcalls hr (by rw [hO, hM]; omega)
  rw [hO] at g1
  rw [hM] at g3
  refine ⟨by omega, g2, ?_⟩
  unfold CircleBuf.IsLimit
  rw [beq_iff_eq, g3, g1]
  omega

/-- C11 on a ring of eight bytes: after `Limit(3)`, `hello` is read from the
socket and `Write` is called twice on a descriptor that takes two bytes at a
time. -/
theorem limit_bounds_the_drain_witness :
    (Ring (CircleBuf.new 8 (fun _ => NUL)) ∧
      ∀ c ∈ [BufCall.op (BufOp.readFd [ReadEv.data "hello".toList]),
              BufCall.op (BufOp.writeFd [WriteEv.accept 2]),
              BufCall.op (BufOp.writeFd [WriteEv.accept 2, WriteEv.accept 2])],
        c.isTransfer = true) ∧
    ((((CircleBuf.new 8 (fun _ => NUL)).Limit (3 : Nat)).callAll
        [BufCall.op (BufOp.readFd [ReadEv.data "hello".toList]),
         BufCall.op (BufOp.writeFd [WriteEv.accept 2]),
         BufCall.op (BufOp.writeFd [WriteEv.accept 2, WriteEv.accept 2])]).2.length ≤ 3 ∧
    (((CircleBuf.new 8 (fun _ => NUL)).Limit (3 : Nat)).callAll
        [BufCall.op (BufOp.readFd [ReadEv.data "hello".toList]),
         BufCall.op (BufOp.writeFd [WriteEv.accept 2]),
         BufCall.op (BufOp.writeFd [WriteEv.accept 2, WriteEv.accept 2])]).1.OutP
      ≤ (((CircleBuf.new 8 (fun _ => NUL)).Limit (3 : Nat)).callAll
        [BufCall.op (BufOp.readFd [ReadEv.data "hello".toList]),
         BufCall.op (BufOp.writeFd [WriteEv.accept 2]),
         BufCall.op (BufOp.writeFd [WriteEv.accept 2, WriteEv.accept 2])]).1.MaxGet ∧
    ((((CircleBuf.new 8 (fun _ => NUL)).Limit (3 : Nat)).callAll
        [BufCall.op (BufOp.readFd [ReadEv.data "hello".toList]),
         BufCall.op (BufOp.writeFd [WriteEv.accept 2]),
         BufCall.op (BufOp.writeFd [WriteEv.accept 2, WriteEv.accept 2])]).1.IsLimit = true ↔
      (((CircleBuf.new 8 (fun _ => NUL)).Limit (3 : Nat)).callAll
        [BufCall.op (BufOp.readFd [ReadEv.data "hello".toList]),
         BufCall.op (BufOp.writeFd [WriteEv.accept 2]),
         BufCall.op (BufOp.writeFd [WriteEv.accept 2, WriteEv.accept 2])]).2.length = 3)) :=
  ⟨⟨Reset_ring _, by simp [BufCall.isTransfer]⟩,
   limit_bounds_the_drain (CircleBuf.new 8 (fun _ => NUL)) 3
      [BufCall.op (BufOp.readFd [ReadEv.data "hello".toList]),
       BufCall.op (BufOp.writeFd [WriteEv.accept 2]),
       BufCall.op (BufOp.writeFd [WriteEv.accept 2, WriteEv.accept 2])]
      (Reset_ring _) (by simp [BufCall.isTransfer])⟩

/-! ## The accumulator over sequences of calls -/

theorem call_md5 (b : CircleBuf) (c : BufCall) :
    (b.call c).1.MD5 = b.MD5.map (fun acc => acc ++ (b.call c).2) := by
  have hid : ∀ m : Option (List Char), m = m.map (fun acc => acc ++ []) := by
    intro m; cases m <;> simp
  cases c with
  | limit Max =>
    show (b.Limit Max).MD5 = b.MD5.map (fun acc => acc ++ [])
    rw [Limit_md5]; exact hid _
  | op o =>
    cases o with
    | readFd fd =>
      show (CircleBuf.ReadLoop (b.Size + 1) b fd).2.1.MD5 = b.MD5.map (fun acc => acc ++ [])
      rw [ReadLoop_md5]; exact hid _
    | readString Data =>
      show (CircleBuf.FillOut { b with OutQueue := b.OutQueue ++ Data }).MD5
        = b.MD5.map (fun acc => acc ++ [])
      rw [(FillOut_frame _).2.2.2]; exact hid _
    | fillOut =>
      show b.FillOut.MD5 = b.MD5.map (fun acc => acc ++ [])
      rw [(FillOut_frame _).2.2.2]; exact hid _
    | writeFd fd => exact Write_md5 b fd
    | writeTillEl Data Single =>
      show (b.WriteTillEl Data Single).2.1.MD5 = b.MD5.map (fun acc => acc ++ [])
      rw [WriteTillEl_md5]; exact hid _

/-- C12: after any sequence of calls on a ring (`Read(fd)`, `Read(string)`,
`FillOut`, `Write(fd)`, `WriteTillEl`, `Limit`), an attached MD5 accumulator
has been fed, after what it held before, exactly the bytes the `Write(fd)`
calls wrote to their descriptors, in order; a ring without accumulator stays
without.  Bytes popped by `WriteTillEl` and writes that returned 0 or failed
add nothing. -/
theorem md5_follows_written_bytes (b : CircleBuf) (calls : List BufCall) :
    (b.callAll calls).1.MD5 = b.MD5.map (fun acc => acc ++ (b.callAll calls).2) := by
  induction calls generalizing b with
  | nil =>
    show b.MD5 = b.MD5.map (fun acc => acc ++ [])
    cases b.MD5 <;> simp
  | cons c rest ih =>
    rw [CircleBuf.callAll]
    dsimp only
    rw [ih, call_md5]
    cases b.MD5 <;> simp

end Http

/-! ## Header lines -/

namespace Http

set_option maxRecDepth 100000 in
/-- C13: the line `Content-Range: bytes 4294967296-4294967300/10` names a start
beyond the total, yet `HeaderLine` accepts it and stores StartPos = 4294967296
with Size = 10: `(unsigned)StartPos` keeps the low 32 bits only, which are 0.
A start of 20 against a total of 15 is refused. -/
theorem content_range_start_beyond_total_accepted :
    (ServerState.fresh.HeaderLine (fun _ => none)
        "Content-Range: bytes 4294967296-4294967300/10".toList).ok = true
    ∧ (ServerState.fresh.HeaderLine (fun _ => none)
        "Content-Range: bytes 4294967296-4294967300/10".toList).Srv.StartPos = 4294967296
    ∧ (ServerState.fresh.HeaderLine (fun _ => none)
        "Content-Range: bytes 4294967296-4294967300/10".toList).Srv.Size = 10
    ∧ (ServerState.fresh.HeaderLine (fun _ => none)
        "Content-Range: bytes 20-24/15".toList).ok = false := by
  decide

set_option maxRecDepth 100000 in
/-- C15: the status line `http/1.1 200 OK` passes the case-insensitive test for
the `HTTP` token but is then refused by the case-sensitive `sscanf` format, with
the message for an invalid reply header and Result left at 0; the same line
written `HTTP/1.1 200 OK` is accepted with Major 1, Minor 1, Result 200 and
Code `OK`. -/
theorem lower_case_status_line_refused :
    (ServerState.fresh.HeaderLine (fun _ => none) "http/1.1 200 OK".toList).ok = false
    ∧ (ServerState.fresh.HeaderLine (fun _ => none) "http/1.1 200 OK".toList).error
        = some "The http server sent an invalid reply header"
    ∧ (ServerState.fresh.HeaderLine (fun _ => none) "http/1.1 200 OK".toList).Srv.Result = 0
    ∧ (ServerState.fresh.HeaderLine (fun _ => none) "HTTP/1.1 200 OK".toList).ok = true
    ∧ (ServerState.fresh.HeaderLine (fun _ => none) "HTTP/1.1 200 OK".toList).Srv.Major = 1
    ∧ (ServerState.fresh.HeaderLine (fun _ => none) "HTTP/1.1 200 OK".toList).Srv.Minor = 1
    ∧ (ServerState.fresh.HeaderLine (fun _ => none) "HTTP/1.1 200 OK".toList).Srv.Result = 200
    ∧ (ServerState.fresh.HeaderLine (fun _ => none) "HTTP/1.1 200 OK".toList).Srv.Code
        = "OK".toList := by
  decide

set_option maxRecDepth 100000 in
/-- C14 as stated fails: with StartPos = 9 already set and Encoding = Closes, the
line `Content-Length: 6` is not ignored: it sets HaveContent and moves Encoding
to Stream; only Size is left alone. -/
theorem content_length_after_range_not_ignored :
    ({ ServerState.fresh with StartPos := 9, Size := 15 }.HeaderLine (fun _ => none)
        "Content-Length: 6".toList).Srv.HaveContent = true
    ∧ ({ ServerState.fresh with StartPos := 9, Size := 15 }.HeaderLine (fun _ => none)
        "Content-Length: 6".toList).Srv.Encoding = TransferEncoding.Stream
    ∧ ({ ServerState.fresh with StartPos := 9, Size := 15 }.HeaderLine (fun _ => none)
        "Content-Length: 6".toList).Srv.Size = 15
    ∧ ServerState.fresh.HaveContent = false
    ∧ ServerState.fresh.Encoding = TransferEncoding.Closes := by
  decide

set_option maxRecDepth 100000 in
/-- C16 as stated fails: the line `X-Foo:bar`, which contains no space, is
refused with the message `Bad header line`.  And a name that only begins with
`HTTP` counts as a status line: `HTTP2-Settings: AAMAAABk` is accepted and
stores Major = 0, Minor = 9 and Result = 2. -/
theorem line_without_space_refused :
    (ServerState.fresh.HeaderLine (fun _ => none) "X-Foo:bar".toList).ok = false
    ∧ (ServerState.fresh.HeaderLine (fun _ => none) "X-Foo:bar".toList).error
        = some "Bad header line"
    ∧ (ServerState.fresh.HeaderLine (fun _ => none) "HTTP2-Settings: AAMAAABk".toList).ok
        = true
    ∧ (ServerState.fresh.HeaderLine (fun _ => none)
        "HTTP2-Settings: AAMAAABk".toList).Srv.Result = 2
    ∧ (ServerState.fresh.HeaderLine (fun _ => none)
        "HTTP2-Settings: AAMAAABk".toList).Srv.Minor = 9
    ∧ ServerState.fresh.Result = 0 ∧ ServerState.fresh.Minor = 0 := by
  decide

theorem take_length_takeWhile (p : Char → Bool) (l : List Char) :
    l.take (l.takeWhile p).length = l.takeWhile p := by
  induction l with
  | nil => rfl
  | cons x t ih =>
    by_cases hx : p x = true
    · simp [List.takeWhile_cons, hx, ih]
    · simp [List.takeWhile_cons, hx]

theorem takeWhile_ne_length_lt (c : Char) (l : List Char) (h : c ∈ l) :
    (l.takeWhile (fun x => x != c)).length < l.length := by
  induction l with
  | nil => simp at h
  | cons x t ih =>
    by_cases hx : x = c
    · simp [List.takeWhile_cons, hx]
    · have ht : c ∈ t := by
        rcases List.mem_cons.mp h with h1 | h1
        · exact absurd h1.symm hx
        · exact h1
      simp [List.takeWhile_cons, hx]
      exact ih ht

theorem findSpace_of_mem (Line : List Char) (h : ' ' ∈ Line) :
    findSpace Line = some (headerName Line).length := by
  unfold findSpace headerName
  simp only []
  rw [if_pos (takeWhile_ne_length_lt ' ' Line h)]

theorem isDigit_not_space (c : Char) (h : c.isDigit = true) : isspace c = false := by
  by_contra hs
  have hs1 : isspace c = true := by simpa using hs
  unfold isspace at hs1
  simp only [Bool.or_eq_true, decide_eq_true_eq] at hs1
  rcases hs1 with ((((h1 | h1) | h1) | h1) | h1) | h1 <;> subst h1 <;> revert h <;> decide

theorem isDigit_ne_NUL (c : Char) (h : c.isDigit = true) : c ≠ NUL := by
  intro h1; subst h1; revert h; decide

theorem foldl_decimal (ds : List Char) (a : Nat) :
    ds.foldl (fun acc c => acc * 10 + digitVal c) a
      = a * 10 ^ ds.length + decimalValue ds := by
  unfold decimalValue
  induction ds generalizing a with
  | nil => simp
  | cons c t ih =>
    rw [List.foldl_cons, ih, List.map_cons, List.reverse_cons, Nat.ofDigits_append]
    simp [Nat.ofDigits_singleton, pow_succ]
    ring

theorem scanUnsigned_digits (ds : List Char) (hne : ds ≠ [])
    (hd : ∀ c ∈ ds, c.isDigit = true) :
    scanUnsigned ds = some (min (decimalValue ds) ULONG_MAX, []) := by
  obtain ⟨d, t, rfl⟩ := List.exists_cons_of_ne_nil hne
  have hd0 : d.isDigit = true := hd d (List.mem_cons_self _ _)
  have hsp : (d :: t).dropWhile isspace = d :: t := by
    simp [List.dropWhile_cons, isDigit_not_space d hd0]
  have hm : d ≠ '-' := by intro h1; subst h1; revert hd0; decide
  have hp : d ≠ '+' := by intro h1; subst h1; revert hd0; decide
  have htw : (d :: t).takeWhile Char.isDigit = d :: t := by
    rw [List.takeWhile_eq_self_iff]
    exact hd
  unfold scanUnsigned
  simp only [hsp]
  have hsg : (match d :: t with
      | '-' :: t => (true, t)
      | '+' :: t => (false, t)
      | _ => (false, d :: t) : Bool × List Char) = (false, d :: t) := by
    split
    · rename_i h1; cases h1; exact absurd rfl hm
    · rename_i h1; cases h1; exact absurd rfl hp
    · rfl
  rw [hsg]
  simp only [htw]
  rw [if_neg (by simp)]
  simp only [foldl_decimal, Nat.zero_mul, Nat.zero_add, List.drop_length, Bool.false_eq_true,
    if_false]
  congr 1
  congr 1
  by_cases hv : decimalValue (d :: t) > ULONG_MAX
  · rw [if_pos hv]; omega
  · rw [if_neg hv]; omega

theorem headerName_append (a b : List Char) (ha : ∀ c ∈ a, c ≠ ' ') :
    headerName (a ++ ' ' :: b) = a := by
  unfold headerName
  induction a with
  | nil => simp [List.takeWhile_cons]
  | cons x t ih =>
    have hx : x ≠ ' ' := ha x (List.mem_cons_self _ _)
    have ht : ∀ c ∈ t, c ≠ ' ' := fun c hc => ha c (List.mem_cons_of_mem _ hc)
    simp [List.takeWhile_cons, hx]
    simpa using ih ht

theorem HeaderLine_content_length (StrToTime : List Char → Option Int) (s : ServerState)
    (ds : List Char) (hne : ds ≠ []) (hd : ∀ c ∈ ds, c.isDigit = true)
    (hlen : ("Content-Length: ".toList ++ ds).length < MAXLEN) :
    s.HeaderLine StrToTime ("Content-Length: ".toList ++ ds)
      = { ok := true,
          Srv := { s with
            HaveContent := true,
            Encoding := if s.Encoding = TransferEncoding.Closes
              then TransferEncoding.Stream else s.Encoding,
            Size := if s.StartPos = 0 then min (decimalValue ds) ULONG_MAX else s.Size },
          error := none } := by
  have hline : "Content-Length: ".toList ++ ds = "Content-Length:".toList ++ ' ' :: ds := rfl
  have hmem : ' ' ∈ "Content-Length: ".toList ++ ds :=
    List.mem_append_left _ (by decide)
  have hname : headerName ("Content-Length: ".toList ++ ds) = "Content-Length:".toList := by
    rw [hline]
    exact headerName_append _ _ (by decide)
  have hfind : findSpace ("Content-Length: ".toList ++ ds) = some 15 := by
    rw [findSpace_of_mem _ hmem, hname]
    rfl
  have htag : ("Content-Length: ".toList ++ ds).take 15 = "Content-Length:".toList := by
    rw [hline]
    exact List.take_left' rfl
  have hval : ("Content-Length: ".toList ++ ds).drop (15 + 1) = ds := by
    rw [hline]
    rfl
  have hcstr : cstr ds = ds := cstr_self_of_noNUL ds (fun c hc => isDigit_ne_NUL c (hd c hc))
  have hscan : sscanf ds fmtLength = [ScanValue.num (min (decimalValue ds) ULONG_MAX)] := by
    unfold fmtLength
    rw [sscanf, scanUnsigned_digits ds hne hd]
    simp [sscanf]
  have hl : ("Content-Length: ".toList ++ ds).length = 16 + ds.length := by
    rw [List.length_append]
    rfl
  unfold ServerState.HeaderLine
  rw [if_neg (by rw [hline]; simp), if_neg (by omega), hfind]
  simp only []
  rw [if_neg (by omega), htag, hval, hcstr, hscan]
  rw [if_neg (by decide), if_pos (by decide)]
  by_cases hE : s.Encoding = TransferEncoding.Closes
  · by_cases hS : s.StartPos = 0
    · simp [hE, hS, ServerState.storeSize]
    · simp [hE, hS]
  · by_cases hS : s.StartPos = 0
    · simp [hE, hS, ServerState.storeSize]
    · simp [hE, hS]

/-- C14 (amended): for a line `Content-Length: ` followed by a non-empty string
of decimal digits, shorter than MAXLEN, `HeaderLine` succeeds, sets HaveContent,
changes Encoding from Closes to Stream and leaves any other Encoding, and
changes nothing else but Size: when StartPos = 0 Size becomes the number
written (the largest unsigned long if the number exceeds it); when
StartPos ≠ 0 Size keeps its value. -/
theorem content_length_line_effect (StrToTime : List Char → Option Int) (s : ServerState)
    (ds : List Char) (hne : ds ≠ []) (hd : ∀ c ∈ ds, c.isDigit = true)
    (hlen : ("Content-Length: ".toList ++ ds).length < MAXLEN) :
    s.HeaderLine StrToTime ("Content-Length: ".toList ++ ds)
      = { ok := true,
          Srv := { s with
            HaveContent := true,
            Encoding := if s.Encoding = TransferEncoding.Closes
              then TransferEncoding.Stream else s.Encoding,
            Size := if s.StartPos = 0 then min (decimalValue ds) ULONG_MAX else s.Size },
          error := none } :=
  HeaderLine_content_length StrToTime s ds hne hd hlen

/-- Witness for C14 (amended): the line `Content-Length: 42` given to a fresh
server state. -/
theorem content_length_line_effect_witness :
    ("42".toList ≠ [] ∧ (∀ c ∈ "42".toList, c.isDigit = true)
      ∧ ("Content-Length: ".toList ++ "42".toList).length < MAXLEN)
    ∧ ServerState.fresh.HeaderLine (fun _ => none) ("Content-Length: ".toList ++ "42".toList)
      = { ok := true,
          Srv := { ServerState.fresh with
            HaveContent := true,
            Encoding := if ServerState.fresh.Encoding = TransferEncoding.Closes
              then TransferEncoding.Stream else ServerState.fresh.Encoding,
            Size := if ServerState.fresh.StartPos = 0
              then min (decimalValue "42".toList) ULONG_MAX else ServerState.fresh.Size },
          error := none } :=
  ⟨⟨by decide, by decide, by decide⟩,
    content_length_line_effect (fun _ => none) ServerState.fresh "42".toList
      (by decide) (by decide) (by decide)⟩

/-- C16 (amended): for every non-empty header line shorter than MAXLEN:
if the line contains no space, `HeaderLine` fails with `Bad header line`; if it
contains a space and its name token (the text before the first space) neither
begins with the four letters `HTTP` nor is one of `Content-Length:`,
`Content-Type:`, `Content-Range:`, `Transfer-Encoding:`, `Last-Modified:`, all
compared without regard to letter case, `HeaderLine` returns success and raises
no error.  In both cases the whole server state is left unchanged. -/
theorem unknown_header_line_changes_nothing (StrToTime : List Char → Option Int)
    (s : ServerState) (Line : List Char)
    (hne : Line ≠ []) (hlen : Line.length < MAXLEN)
    (hname : ' ' ∈ Line →
      (stringcasecmpEq ((headerName Line).take 4) "HTTP".toList = false
        ∧ stringcasecmpEq (headerName Line) "Content-Length:".toList = false
        ∧ stringcasecmpEq (headerName Line) "Content-Type:".toList = false
        ∧ stringcasecmpEq (headerName Line) "Content-Range:".toList = false
        ∧ stringcasecmpEq (headerName Line) "Transfer-Encoding:".toList = false
        ∧ stringcasecmpEq (headerName Line) "Last-Modified:".toList = false)) :
    s.HeaderLine StrToTime Line
      = if ' ' ∈ Line then { ok := true, Srv := s, error := none }
        else { ok := false, Srv := s, error := some "Bad header line" } := by
  have hemp : Line.isEmpty = false := by
    cases Line with
    | nil => exact absurd rfl hne
    | cons x t => rfl
  by_cases hsp : ' ' ∈ Line
  · obtain ⟨hhttp, h1, h2, h3, h4, h5⟩ := hname hsp
    have hpos : (headerName Line).length < Line.length := takeWhile_ne_length_lt ' ' Line hsp
    have htag : Line.take (headerName Line).length = headerName Line :=
      take_length_takeWhile _ Line
    rw [if_pos hsp]
    unfold ServerState.HeaderLine
    rw [if_neg (by simp [hemp]), if_neg (by omega), findSpace_of_mem Line hsp]
    simp only []
    rw [if_neg (by omega), htag]
    rw [if_neg (Bool.eq_false_iff.mp hhttp), if_neg (Bool.eq_false_iff.mp h1),
      if_neg (Bool.eq_false_iff.mp h2), if_neg (Bool.eq_false_iff.mp h3),
      if_neg (Bool.eq_false_iff.mp h4), if_neg (Bool.eq_false_iff.mp h5)]
  · have hall : Line.takeWhile (fun c => c != ' ') = Line := by
      rw [List.takeWhile_eq_self_iff]
      intro c hc
      have : c ≠ ' ' := fun h => hsp (h ▸ hc)
      simpa using this
    have hfind : findSpace Line = none := by
      unfold findSpace
      simp only [hall]
      rw [if_neg (by omega)]
    rw [if_neg hsp]
    unfold ServerState.HeaderLine
    rw [if_neg (by simp [hemp]), if_neg (by omega), hfind]

set_option maxRecDepth 100000 in
/-- Witness for C16 (amended): the line `X-Foo: bar` given to a fresh server
state. -/
theorem unknown_header_line_changes_nothing_witness :
    ("X-Foo: bar".toList ≠ [] ∧ "X-Foo: bar".toList.length < MAXLEN
      ∧ (' ' ∈ "X-Foo: bar".toList →
        (stringcasecmpEq ((headerName "X-Foo: bar".toList).take 4) "HTTP".toList = false
          ∧ stringcasecmpEq (headerName "X-Foo: bar".toList) "Content-Length:".toList = false
          ∧ stringcasecmpEq (headerName "X-Foo: bar".toList) "Content-Type:".toList = false
          ∧ stringcasecmpEq (headerName "X-Foo: bar".toList) "Content-Range:".toList = false
          ∧ stringcasecmpEq (headerName "X-Foo: bar".toList) "Transfer-Encoding:".toList
              = false
          ∧ stringcasecmpEq (headerName "X-Foo: bar".toList) "Last-Modified:".toList
              = false)))
    ∧ ServerState.fresh.HeaderLine (fun _ => none) "X-Foo: bar".toList
      = if ' ' ∈ "X-Foo: bar".toList
        then { ok := true, Srv := ServerState.fresh, error := none }
        else { ok := false, Srv := ServerState.fresh, error := some "Bad header line" } :=
  ⟨⟨by decide, by decide,
      fun _ => ⟨by decide, by decide, by decide, by decide, by decide, by decide⟩⟩,
    unknown_header_line_changes_nothing (fun _ => none) ServerState.fresh "X-Foo: bar".toList
      (by decide) (by decide)
      (fun _ => ⟨by decide, by decide, by decide, by decide, by decide, by decide⟩)⟩

end Http

/-! ## `DealWithHeaders` and the reported size -/

namespace Http

set_option maxRecDepth 100000 in
/-- C17 as stated fails: a `200` reply with StartPos = 9 whose destination file
cannot be opened gets outcome 3 with ResumePoint left at 0, while the same
Result and HaveContent with a file that opens get outcome 0 with
ResumePoint = 9. -/
theorem open_failure_on_2xx_is_unrecoverable :
    World.openRefused.Srv.Result = 200
    ∧ World.openRefused.Srv.StartPos = 9
    ∧ (World.openRefused.DealWithHeaders FetchResult.new).1 = 3
    ∧ (World.openRefused.DealWithHeaders FetchResult.new).2.1.ResumePoint = 0
    ∧ (World.openRefused.DealWithHeaders FetchResult.new).2.1.LastModified
        = World.openRefused.Srv.Date
    ∧ ({ World.openRefused with openFails := false }.DealWithHeaders FetchResult.new).1 = 0
    ∧ ({ World.openRefused with openFails := false }.DealWithHeaders
        FetchResult.new).2.1.ResumePoint = 9 := by
  decide

/-- C17 (amended): `DealWithHeaders` chooses its branch by Result and
HaveContent.  Result = 304 gives outcome 1 with IMSHit set and LastModified taken
from the item; any other Result below 200 or from 300 on gives 4 when
HaveContent is true and 3 otherwise, with `Res` untouched; a Result from 200 to
299 reaches the file-open path, which stores LastModified = Date and the
announced Size, ends with 3 when the file cannot be opened, an error is pending
or hashing the kept bytes fails, and with 0 otherwise; ResumePoint = StartPos is
stored once the file is open, for a StartPos that is not negative. -/
theorem DealWithHeaders_outcome (Res : FetchResult) (w : World) :
    (w.DealWithHeaders Res).1
      = (if w.Srv.Result = 304 then 1
         else if w.Srv.Result < 200 ∨ w.Srv.Result ≥ 300 then
           (if w.Srv.HaveContent = true then 4 else 3)
         else if w.openFails = true ∨ w.errors ≠ []
             ∨ (w.Srv.StartPos > 0 ∧ w.hashFails = true) then 3
         else 0)
    ∧ (w.DealWithHeaders Res).2.1
      = (if w.Srv.Result = 304 then
           { Res with IMSHit := true, LastModified := w.Queue.LastModified }
         else if w.Srv.Result < 200 ∨ w.Srv.Result ≥ 300 then Res
         else if w.openFails = true ∨ w.errors ≠ [] then
           { Res with LastModified := w.Srv.Date, Size := w.Srv.Size }
         else
           { Res with LastModified := w.Srv.Date, Size := w.Srv.Size,
                      ResumePoint := if w.Srv.StartPos ≥ 0 then w.Srv.StartPos
                        else Res.ResumePoint }) := by
  unfold World.DealWithHeaders
  by_cases h304 : w.Srv.Result = 304
  · simp [h304]
  · rw [if_neg h304, if_neg h304, if_neg h304]
    by_cases hrange : w.Srv.Result < 200 ∨ w.Srv.Result ≥ 300
    · rw [if_pos hrange, if_pos hrange, if_pos hrange]
      by_cases hc : w.Srv.HaveContent = true
      · simp [hc, World.pushError]
      · simp [hc, World.pushError]
    · rw [if_neg hrange, if_neg hrange, if_neg hrange]
      dsimp only
      by_cases hopen : w.openFails = true
      · simp [hopen]
      · simp only [hopen, Bool.false_eq_true, if_false, false_or]
        by_cases herr : w.errors = []
        · simp only [herr, ne_eq, not_true_eq_false, if_false, false_or]
          by_cases hge : w.Srv.StartPos ≥ 0
          · simp only [hge, if_true]
            by_cases hpos : w.Srv.StartPos > 0
            · simp only [hpos, if_true, true_and]
              by_cases hhash : w.hashFails = true
              · simp [hhash]
              · simp [hhash]
            · simp [hpos]
          · have hpos : ¬ w.Srv.StartPos > 0 := by omega
            simp [hge, hpos]
        · simp [herr]

set_option maxRecDepth 100000 in
/-- C18: a `200` reply in chunked encoding that carries `hello world` in two
chunks is fetched with success and leaves 11 bytes in the destination file,
but the `uri-done` message reports Size 0: the Size sent is the one the headers
announced, and a chunked reply announces none.  The same holds for a reply
delimited by the close of the connection; with `Content-Length: 5` the Size
reported is 5. -/
theorem chunked_fetch_reports_size_zero :
    (World.LoopReceive (fun _ => none) 7 id 50
      (World.connected
        [ReadEv.data ("HTTP/1.1 200 OK\r\nTransfer-Encoding: chunked\r\n\r\n".toList
          ++ chunkedEncode ["hello".toList, " world".toList])])).map
        (fun r => (r.1, r.2.dest, r.2.emitted.map Emit.doneSize))
      = some (Outcome.ret true, some "hello world".toList, [none, some 0])
    ∧ (World.LoopReceive (fun _ => none) 7 id 50
      (World.connected
        [ReadEv.data "HTTP/1.1 200 OK\r\n\r\nabc".toList, ReadEv.eof])).map
        (fun r => (r.1, r.2.dest, r.2.emitted.map Emit.doneSize))
      = some (Outcome.ret true, some "abc".toList, [none, some 0])
    ∧ (World.LoopReceive (fun _ => none) 7 id 50
      (World.connected
        [ReadEv.data "HTTP/1.1 200 OK\r\nContent-Length: 5\r\n\r\nhello".toList])).map
        (fun r => (r.1, r.2.dest, r.2.emitted.map Emit.doneSize))
      = some (Outcome.ret true, some "hello".toList, [none, some 5]) := by
  refine ⟨?_, ?_, ?_⟩
  · decide
  · decide
  · decide

end Http

/-! ## The request built by `SendReq` -/

namespace Http

theorem cons_prefix_ne (x y : Char) (a b : List Char) (h : x ≠ y) :
    ¬ (x :: a) <+: (y :: b) := by
  intro hp
  rw [List.cons_prefix_cons] at hp
  exact h hp.1

theorem conditionalText_eq (TimeRFC1123 : Int → List Char) (stat : Option StatBuf)
    (Itm : FetchItem) :
    conditionalText TimeRFC1123 stat Itm
      = (if hasPartialFile stat = true then
           "Range: bytes=".toList ++ decimal ((stat.getD ⟨0, 0⟩).st_size - 1).toNat
             ++ "-\r\nIf-Range: ".toList
             ++ cstr (TimeRFC1123 (stat.getD ⟨0, 0⟩).st_mtime) ++ "\r\n".toList
         else if Itm.LastModified ≠ 0 then
           "If-Modified-Since: ".toList ++ cstr (TimeRFC1123 Itm.LastModified)
             ++ "\r\n".toList
         else []) := by
  unfold conditionalText hasPartialFile
  cases stat with
  | none => simp
  | some SBuf =>
    by_cases hs : SBuf.st_size > 0
    · simp [hs]
    · simp [hs]

theorem conditionalText_starts (TimeRFC1123 : Int → List Char) (stat : Option StatBuf)
    (Itm : FetchItem) :
    ("Range: bytes=".toList <+: conditionalText TimeRFC1123 stat Itm
        ↔ hasPartialFile stat = true)
    ∧ ("If-Modified-Since: ".toList <+: conditionalText TimeRFC1123 stat Itm
        ↔ (hasPartialFile stat = false ∧ Itm.LastModified ≠ 0)) := by
  constructor
  · rw [conditionalText_eq]
    by_cases hp : hasPartialFile stat = true
    · rw [if_pos hp]
      refine ⟨fun _ => hp, fun _ => ?_⟩
      simp only [List.append_assoc]
      exact List.prefix_append _ _
    · rw [if_neg hp]
      refine ⟨fun h => ?_, fun h => absurd h hp⟩
      exfalso
      by_cases hl : Itm.LastModified ≠ 0
      · rw [if_pos hl] at h
        exact cons_prefix_ne 'R' 'I' _ _ (by decide) h
      · rw [if_neg hl] at h
        exact absurd (List.prefix_nil.mp h) (by decide)
  · rw [conditionalText_eq]
    by_cases hp : hasPartialFile stat = true
    · rw [if_pos hp]
      refine ⟨fun h => ?_, fun h => ?_⟩
      · exact absurd h (cons_prefix_ne 'I' 'R' _ _ (by decide))
      · rw [hp] at h
        exact absurd h.1 (by decide)
    · rw [if_neg hp]
      have hp1 : hasPartialFile stat = false := by simpa using hp
      by_cases hl : Itm.LastModified ≠ 0
      · rw [if_pos hl]
        refine ⟨fun _ => ⟨hp1, hl⟩, fun _ => ?_⟩
        simp only [List.append_assoc]
        exact List.prefix_append _ _
      · rw [if_neg hl]
        refine ⟨fun h => ?_, fun h => absurd h.2 hl⟩
        exact absurd (List.prefix_nil.mp h) (by decide)

theorem conditionalHeaders_fits (TimeRFC1123 : Int → List Char) (stat : Option StatBuf)
    (Itm : FetchItem) (hcond : (conditionalText TimeRFC1123 stat Itm).length < 300) :
    conditionalHeaders TimeRFC1123 stat Itm = some (conditionalText TimeRFC1123 stat Itm) := by
  unfold conditionalHeaders sprintfBuf
  rw [if_pos hcond]
  cases h : conditionalText TimeRFC1123 stat Itm <;> simp

theorem requestText_fits (TimeRFC1123 : Int → List Char) (proxyEmpty : Bool)
    (UriText : List Char) (Uri : URI) (stat : Option StatBuf) (Itm : FetchItem)
    (hhead : (requestHeadText proxyEmpty UriText Uri).length < 300)
    (hcond : (conditionalText TimeRFC1123 stat Itm).length < 300) :
    requestText TimeRFC1123 proxyEmpty UriText Uri stat Itm
      = some (requestHeadText proxyEmpty UriText Uri ++ conditionalText TimeRFC1123 stat Itm
          ++ "User-Agent: Debian APT-HTTP/1.2\r\n\r\n".toList) := by
  unfold requestText
  rw [conditionalHeaders_fits TimeRFC1123 stat Itm hcond]
  unfold requestHead sprintfBuf
  rw [if_pos hhead]

/-- What `SendReq` leaves in a ring that has just been reset: the next `Write`
on a descriptor that accepts bytes sends the request head, the conditional
headers and the `User-Agent` line, and nothing else. -/
theorem SendReq_delivers (TimeRFC1123 : Int → List Char) (proxyEmpty : Bool)
    (UriText : List Char) (Uri : URI) (stat : Option StatBuf) (Itm : FetchItem)
    (Out : CircleBuf) (fd : List WriteEv)
    (hsize : 0 < Out.Size) (hfd : acceptsBytes fd = true)
    (hhead : (requestHeadText proxyEmpty UriText Uri).length < 300)
    (hcond : (conditionalText TimeRFC1123 stat Itm).length < 300) :
    ∃ Out1, SendReq TimeRFC1123 proxyEmpty UriText Uri stat Itm Out.Reset = some Out1
      ∧ (Out1.Write fd).2.2.2
        = requestHeadText proxyEmpty UriText Uri ++ conditionalText TimeRFC1123 stat Itm
          ++ "User-Agent: Debian APT-HTTP/1.2\r\n\r\n".toList := by
  refine ⟨(Out.Reset.ReadString (requestHeadText proxyEmpty UriText Uri
      ++ conditionalText TimeRFC1123 stat Itm
      ++ "User-Agent: Debian APT-HTTP/1.2\r\n\r\n".toList)).2, ?_, ?_⟩
  · unfold SendReq
    rw [requestText_fits TimeRFC1123 proxyEmpty UriText Uri stat Itm hhead hcond]
    rfl
  · have hlen : (requestHeadText proxyEmpty UriText Uri ++ conditionalText TimeRFC1123 stat Itm
        ++ "User-Agent: Debian APT-HTTP/1.2\r\n\r\n".toList).length ≤ UINT_MAX := by
      rw [List.length_append, List.length_append]
      have : "User-Agent: Debian APT-HTTP/1.2\r\n\r\n".toList.length = 35 := by decide
      rw [this]
      unfold UINT_MAX
      omega
    have h := (enqueued_string_is_delivered Out _ fd 1 hsize hlen hfd (by decide)).2.1
    have h1 : ∀ (b : CircleBuf), (CircleBuf.WriteTimes 1 b fd).2.2.2 = (b.Write fd).2.2.2 := by
      intro b
      simp [CircleBuf.WriteTimes]
    rw [h1] at h
    exact h

/-- C19: when the request head and the conditional headers each fit the 300
bytes of `Buf`, `SendReq` places in a freshly reset outbound ring a request
that the next `Write` sends as: the request head, then the conditional headers,
then the `User-Agent` line.  The conditional headers are `Range: bytes=(S-1)-`
followed by `If-Range:` with the RFC 1123 date of the file's mtime when the
destination file exists with size S > 0; otherwise `If-Modified-Since:` with
the RFC 1123 date of the item's LastModified when that is not zero; otherwise
nothing.  So they start with `Range: bytes=` exactly when the file exists with
size above 0, with `If-Modified-Since: ` exactly when it does not and
LastModified is not zero, and never hold both forms. -/
theorem request_conditional_headers (TimeRFC1123 : Int → List Char) (proxyEmpty : Bool)
    (UriText : List Char) (Uri : URI) (stat : Option StatBuf) (Itm : FetchItem)
    (Out : CircleBuf) (fd : List WriteEv)
    (hsize : 0 < Out.Size) (hfd : acceptsBytes fd = true)
    (hhead : (requestHeadText proxyEmpty UriText Uri).length < 300)
    (hcond : (conditionalText TimeRFC1123 stat Itm).length < 300) :
    (∃ Out1, SendReq TimeRFC1123 proxyEmpty UriText Uri stat Itm Out.Reset = some Out1
      ∧ (Out1.Write fd).2.2.2
        = requestHeadText proxyEmpty UriText Uri ++ conditionalText TimeRFC1123 stat Itm
          ++ "User-Agent: Debian APT-HTTP/1.2\r\n\r\n".toList)
    ∧ conditionalText TimeRFC1123 stat Itm
      = (if hasPartialFile stat = true then
           "Range: bytes=".toList ++ decimal ((stat.getD ⟨0, 0⟩).st_size - 1).toNat
             ++ "-\r\nIf-Range: ".toList
             ++ cstr (TimeRFC1123 (stat.getD ⟨0, 0⟩).st_mtime) ++ "\r\n".toList
         else if Itm.LastModified ≠ 0 then
           "If-Modified-Since: ".toList ++ cstr (TimeRFC1123 Itm.LastModified)
             ++ "\r\n".toList
         else [])
    ∧ ("Range: bytes=".toList <+: conditionalText TimeRFC1123 stat Itm
        ↔ hasPartialFile stat = true)
    ∧ ("If-Modified-Since: ".toList <+: conditionalText TimeRFC1123 stat Itm
        ↔ (hasPartialFile stat = false ∧ Itm.LastModified ≠ 0)) :=
  ⟨SendReq_delivers TimeRFC1123 proxyEmpty UriText Uri stat Itm Out fd hsize hfd hhead hcond,
   conditionalText_eq TimeRFC1123 stat Itm,
   (conditionalText_starts TimeRFC1123 stat Itm).1,
   (conditionalText_starts TimeRFC1123 stat Itm).2⟩

set_option maxRecDepth 100000 in
/-- C19 for a destination file of 10 bytes with mtime 5, a date formatter that
prints `D`, and the outbound ring of 1024 bytes. -/
theorem request_conditional_headers_witness :
    (0 < (CircleBuf.new 1024 (fun _ => NUL)).Size ∧ acceptsBytes [] = true
      ∧ (requestHeadText true "http://h/f".toList
          { Host := "h".toList, Port := 0, Path := "/f".toList }).length < 300
      ∧ (conditionalText (fun _ => "D".toList) (some { st_size := 10, st_mtime := 5 })
          itemA).length < 300)
    ∧ ((∃ Out1, SendReq (fun _ => "D".toList) true "http://h/f".toList
          { Host := "h".toList, Port := 0, Path := "/f".toList }
          (some { st_size := 10, st_mtime := 5 }) itemA
          (CircleBuf.new 1024 (fun _ => NUL)).Reset = some Out1
        ∧ (Out1.Write []).2.2.2
          = requestHeadText true "http://h/f".toList
              { Host := "h".toList, Port := 0, Path := "/f".toList }
            ++ conditionalText (fun _ => "D".toList) (some { st_size := 10, st_mtime := 5 })
              itemA
            ++ "User-Agent: Debian APT-HTTP/1.2\r\n\r\n".toList)
      ∧ conditionalText (fun _ => "D".toList) (some { st_size := 10, st_mtime := 5 }) itemA
        = (if hasPartialFile (some { st_size := 10, st_mtime := 5 }) = true then
             "Range: bytes=".toList
               ++ decimal (((some { st_size := 10, st_mtime := 5 } : Option StatBuf).getD
                   ⟨0, 0⟩).st_size - 1).toNat
               ++ "-\r\nIf-Range: ".toList
               ++ cstr ((fun _ => "D".toList)
                   ((some { st_size := 10, st_mtime := 5 } : Option StatBuf).getD
                     ⟨0, 0⟩).st_mtime)
               ++ "\r\n".toList
           else if itemA.LastModified ≠ 0 then
             "If-Modified-Since: ".toList ++ cstr ((fun _ => "D".toList) itemA.LastModified)
               ++ "\r\n".toList
           else [])
      ∧ ("Range: bytes=".toList
            <+: conditionalText (fun _ => "D".toList) (some { st_size := 10, st_mtime := 5 })
              itemA
          ↔ hasPartialFile (some { st_size := 10, st_mtime := 5 }) = true)
      ∧ ("If-Modified-Since: ".toList
            <+: conditionalText (fun _ => "D".toList) (some { st_size := 10, st_mtime := 5 })
              itemA
          ↔ (hasPartialFile (some { st_size := 10, st_mtime := 5 }) = false
              ∧ itemA.LastModified ≠ 0))) :=
  ⟨⟨by decide, by decide, by decide, by decide⟩,
   request_conditional_headers (fun _ => "D".toList) true "http://h/f".toList
     { Host := "h".toList, Port := 0, Path := "/f".toList }
     (some { st_size := 10, st_mtime := 5 }) itemA (CircleBuf.new 1024 (fun _ => NUL)) []
     (by decide) (by decide) (by decide) (by decide)⟩

set_option maxRecDepth 100000 in
/-- C20 as stated fails: for a URI that names port 80, the default HTTP port,
the request `SendReq` places in the outbound ring, as the next `Write` sends
it, has the Host line `Host: example.org:80`. -/
theorem host_header_with_explicit_port_80 :
    requestHead true "http://example.org:80/f".toList
        { Host := "example.org".toList, Port := 80, Path := "/f".toList }
      = some "GET /f HTTP/1.1\r\nHost: example.org:80\r\nConnection: keep-alive\r\n".toList
    ∧ (SendReq (fun _ => []) true "http://example.org:80/f".toList
        { Host := "example.org".toList, Port := 80, Path := "/f".toList } none itemA
        (CircleBuf.new 1024 (fun _ => NUL))).map (fun Out1 => (Out1.Write []).2.2.2)
      = some ("GET /f HTTP/1.1\r\nHost: example.org:80\r\nConnection: keep-alive\r\n".toList
          ++ "User-Agent: Debian APT-HTTP/1.2\r\n\r\n".toList) := by
  refine ⟨?_, ?_⟩
  · decide
  · decide

/-- C20 (amended): when the request head and the conditional headers each fit
the 300 bytes of `Buf`, the request `SendReq` places in a freshly reset
outbound ring starts, as the next `Write` sends it, with the request line and
the Host line, and the Host line carries the host followed by `:<port>` exactly
when the URI names a port (its Port field is not 0), the port 80 included; for
a URI that names no port the line is `Host: <host>`.  The host and the path
are printed as C strings. -/
theorem host_header_port_suffix (TimeRFC1123 : Int → List Char) (proxyEmpty : Bool)
    (UriText : List Char) (Uri : URI) (stat : Option StatBuf) (Itm : FetchItem)
    (Out : CircleBuf) (fd : List WriteEv)
    (hsize : 0 < Out.Size) (hfd : acceptsBytes fd = true)
    (hhead : (requestHeadText proxyEmpty UriText Uri).length < 300)
    (hcond : (conditionalText TimeRFC1123 stat Itm).length < 300) :
    requestHeadText proxyEmpty UriText Uri
      = "GET ".toList ++ cstr (if proxyEmpty = true then Uri.Path else UriText)
          ++ " HTTP/1.1\r\nHost: ".toList
          ++ cstr (Uri.Host ++ (if Uri.Port = 0 then [] else ':' :: decimal Uri.Port))
          ++ "\r\n".toList
          ++ (if proxyEmpty = true then "Connection: keep-alive\r\n".toList else [])
    ∧ requestHead proxyEmpty UriText Uri = some (requestHeadText proxyEmpty UriText Uri)
    ∧ ∃ Out1, SendReq TimeRFC1123 proxyEmpty UriText Uri stat Itm Out.Reset = some Out1
        ∧ requestHeadText proxyEmpty UriText Uri <+: (Out1.Write fd).2.2.2 := by
  refine ⟨?_, ?_, ?_⟩
  · unfold requestHeadText ProperHost
    by_cases hp : proxyEmpty = true
    · by_cases h0 : Uri.Port = 0
      · simp [hp, h0]
      · simp [hp, h0]
    · by_cases h0 : Uri.Port = 0
      · simp [hp, h0]
      · simp [hp, h0]
  · unfold requestHead sprintfBuf
    rw [if_pos hhead]
  · obtain ⟨Out1, h1, h2⟩ := SendReq_delivers TimeRFC1123 proxyEmpty UriText Uri stat Itm Out fd
      hsize hfd hhead hcond
    refine ⟨Out1, h1, ?_⟩
    rw [h2, List.append_assoc]
    exact List.prefix_append _ _

set_option maxRecDepth 100000 in
/-- C20 (amended) for the URI `http://example.org:8080/f`, no destination file
and the outbound ring of 1024 bytes. -/
theorem host_header_port_suffix_witness :
    (0 < (CircleBuf.new 1024 (fun _ => NUL)).Size ∧ acceptsBytes [] = true
      ∧ (requestHeadText true "http://example.org:8080/f".toList uriWithPort).length < 300
      ∧ (conditionalText (fun _ => "D".toList) none itemA).length < 300)
    ∧ (requestHeadText true "http://example.org:8080/f".toList uriWithPort
        = "GET ".toList
            ++ cstr (if true = true then uriWithPort.Path
                else "http://example.org:8080/f".toList)
            ++ " HTTP/1.1\r\nHost: ".toList
            ++ cstr (uriWithPort.Host
                ++ (if uriWithPort.Port = 0 then [] else ':' :: decimal uriWithPort.Port))
            ++ "\r\n".toList
            ++ (if true = true then "Connection: keep-alive\r\n".toList else [])
      ∧ requestHead true "http://example.org:8080/f".toList uriWithPort
        = some (requestHeadText true "http://example.org:8080/f".toList uriWithPort)
      ∧ ∃ Out1, SendReq (fun _ => "D".toList) true "http://example.org:8080/f".toList
          uriWithPort none itemA (CircleBuf.new 1024 (fun _ => NUL)).Reset = some Out1
        ∧ requestHeadText true "http://example.org:8080/f".toList uriWithPort
          <+: (Out1.Write []).2.2.2) :=
  ⟨⟨by decide, by decide, by decide, by decide⟩,
   host_header_port_suffix (fun _ => "D".toList) true "http://example.org:8080/f".toList
     uriWithPort none itemA (CircleBuf.new 1024 (fun _ => NUL)) []
     (by decide) (by decide) (by decide) (by decide)⟩

end Http

/-! ## The signature verifier: status string, signer lines, error text -/

namespace GPGV

theorem afterPrefix_keyword (kw t : List Char) (hkw : ∀ x ∈ kw, x ≠ NUL) :
    afterPrefix ("[GNUPG:] ".toList ++ kw ++ t) = kw ++ cstr t := by
  unfold afterPrefix
  have h9 : sizeofLit GNUPGPREFIX = "[GNUPG:] ".toList.length := by decide
  rw [h9, List.append_assoc, List.drop_left' rfl, cstr_append_of_noNUL kw t hkw]

theorem afterPrefix_head (lit kw buffer : List Char) (c : Char)
    (hlit : lit = "[GNUPG:] ".toList ++ kw) (hkw : ∀ x ∈ kw, x ≠ NUL)
    (hc : kw.head? = some c) (hp : lit <+: buffer) :
    (afterPrefix buffer).head? = some c := by
  obtain ⟨t, rfl⟩ := hp
  rw [hlit, afterPrefix_keyword kw t hkw]
  cases kw with
  | nil => simp at hc
  | cons x xs => simpa using hc

theorem goodSigEntry_head (buffer : List Char) (hp : GNUPGGOODSIG <+: buffer) :
    (goodSigEntry buffer).head? = some 'G' := by
  obtain ⟨t, rfl⟩ := hp
  unfold goodSigEntry
  have hb : (GNUPGGOODSIG ++ t) ++ [NUL] = "[GNUPG:] ".toList ++ ("GOODSIG".toList ++ (t ++ [NUL])) := by
    have : GNUPGGOODSIG = "[GNUPG:] ".toList ++ "GOODSIG".toList := by decide
    rw [this]; simp
  have h9 : sizeofLit GNUPGPREFIX = "[GNUPG:] ".toList.length := by decide
  simp only [hb]
  rw [h9, List.drop_left' rfl]
  have h8 : sizeofLit "GOODSIG".toList = "GOODSIG".toList.length + 1 := by decide
  rw [h8, List.take_append_eq_append_take]
  simp only [List.take_of_length_le (Nat.le_succ _), List.append_assoc]
  rw [cstr_append_of_noNUL _ _ (by decide)]
  rfl

/-- Every entry starts with the first letter of a keyword of its list: `G` in
Good, `B` or `N` in Bad, `N` in NoPubKey, `K` or `R` in Worthless.  The loop
over the helper output keeps this. -/
theorem lines_keep_keywords (lines : List (List Char)) (s : Signers)
    (hG : ∀ e ∈ s.GoodSigners, e.head? = some 'G')
    (hB : ∀ e ∈ s.BadSigners, e.head? = some 'B' ∨ e.head? = some 'N')
    (hN : ∀ e ∈ s.NoPubKeySigners, e.head? = some 'N')
    (hW : ∀ e ∈ s.WorthlessSigners, e.head? = some 'K' ∨ e.head? = some 'R') :
    (∀ e ∈ (lines.foldl (fun acc buffer => classifyLine buffer acc) s).GoodSigners,
        e.head? = some 'G') ∧
    (∀ e ∈ (lines.foldl (fun acc buffer => classifyLine buffer acc) s).BadSigners,
        e.head? = some 'B' ∨ e.head? = some 'N') ∧
    (∀ e ∈ (lines.foldl (fun acc buffer => classifyLine buffer acc) s).NoPubKeySigners,
        e.head? = some 'N') ∧
    (∀ e ∈ (lines.foldl (fun acc buffer => classifyLine buffer acc) s).WorthlessSigners,
        e.head? = some 'K' ∨ e.head? = some 'R') := by
  induction lines generalizing s with
  | nil => exact ⟨hG, hB, hN, hW⟩
  | cons buffer rest ih =>
    rw [List.foldl_cons]
    rw [classifyLine_eq_route]
    by_cases h1 : GNUPGBADSIG <+: buffer ∨ GNUPGNODATA <+: buffer
    · rw [if_pos h1]
      refine ih _ (by exact hG) ?_ (by exact hN) (by exact hW)
      intro e he
      rcases List.mem_append.1 he with h | h
      · exact hB e h
      · rw [List.mem_singleton.1 h]
        rcases h1 with h1 | h1
        · exact Or.inl (afterPrefix_head GNUPGBADSIG "BADSIG".toList buffer 'B'
            (by decide) (by decide) rfl h1)
        · exact Or.inr (afterPrefix_head GNUPGNODATA "NODATA".toList buffer 'N'
            (by decide) (by decide) rfl h1)
    rw [if_neg h1]
    by_cases h2 : GNUPGNOPUBKEY <+: buffer
    · rw [if_pos h2]
      refine ih _ (by exact hG) (by exact hB) ?_ (by exact hW)
      intro e he
      rcases List.mem_append.1 he with h | h
      · exact hN e h
      · rw [List.mem_singleton.1 h]
        exact afterPrefix_head GNUPGNOPUBKEY "NO_PUBKEY".toList buffer 'N'
          (by decide) (by decide) rfl h2
    rw [if_neg h2]
    by_cases h3 : GNUPGKEYEXPIRED <+: buffer ∨ GNUPGREVKEYSIG <+: buffer
    · rw [if_pos h3]
      refine ih _ (by exact hG) (by exact hB) (by exact hN) ?_
      intro e he
      rcases List.mem_append.1 he with h | h
      · exact hW e h
      · rw [List.mem_singleton.1 h]
        rcases h3 with h3 | h3
        · exact Or.inl (afterPrefix_head GNUPGKEYEXPIRED "KEYEXPIRED".toList buffer 'K'
            (by decide) (by decide) rfl h3)
        · exact Or.inr (afterPrefix_head GNUPGREVKEYSIG "REVKEYSIG".toList buffer 'R'
            (by decide) (by decide) rfl h3)
    rw [if_neg h3]
    by_cases h4 : GNUPGGOODSIG <+: buffer
    · rw [if_pos h4]
      refine ih _ ?_ (by exact hB) (by exact hN) (by exact hW)
      intro e he
      rcases List.mem_append.1 he with h | h
      · exact hG e h
      · rw [List.mem_singleton.1 h]
        exact goodSigEntry_head buffer h4
    rw [if_neg h4]
    exact ih s hG hB hN hW

end GPGV

namespace GPGV

theorem fold_good_empty (lines : List (List Char)) (s : Signers) :
    (lines.foldl (fun acc buffer => classifyLine buffer acc) s).GoodSigners = [] ↔
      (s.GoodSigners = [] ∧ ∀ l ∈ lines, ¬ GNUPGGOODSIG <+: l) := by
  induction lines generalizing s with
  | nil => simp
  | cons buffer rest ih =>
    rw [List.foldl_cons, ih, classifyLine_eq_route]
    by_cases hg : GNUPGGOODSIG <+: buffer
    · have h1 := prefixes_exclusive (b := GNUPGBADSIG) (by decide) (by decide) hg
      have h2 := prefixes_exclusive (b := GNUPGNOPUBKEY) (by decide) (by decide) hg
      have h3 := prefixes_exclusive (b := GNUPGNODATA) (by decide) (by decide) hg
      have h4 := prefixes_exclusive (b := GNUPGKEYEXPIRED) (by decide) (by decide) hg
      have h5 := prefixes_exclusive (b := GNUPGREVKEYSIG) (by decide) (by decide) hg
      simp [h1, h2, h3, h4, h5, hg]
    · split_ifs <;> simp [hg]

theorem fold_bad_empty (lines : List (List Char)) (s : Signers) :
    (lines.foldl (fun acc buffer => classifyLine buffer acc) s).BadSigners = [] ↔
      (s.BadSigners = [] ∧ ∀ l ∈ lines, ¬ (GNUPGBADSIG <+: l ∨ GNUPGNODATA <+: l)) := by
  induction lines generalizing s with
  | nil => simp
  | cons buffer rest ih =>
    rw [List.foldl_cons, ih, classifyLine_eq_route]
    by_cases hb : GNUPGBADSIG <+: buffer ∨ GNUPGNODATA <+: buffer
    · rw [if_pos hb]
      constructor
      · rintro ⟨h, _⟩
        simp at h
      · rintro ⟨_, h⟩
        exact absurd hb (h buffer (List.mem_cons_self _ _))
    · rw [if_neg hb]
      have key : (s.BadSigners = [] ∧
            ∀ l ∈ rest, ¬ (GNUPGBADSIG <+: l ∨ GNUPGNODATA <+: l)) ↔
          (s.BadSigners = [] ∧
            ∀ l ∈ buffer :: rest, ¬ (GNUPGBADSIG <+: l ∨ GNUPGNODATA <+: l)) := by
        constructor
        · rintro ⟨h1, h2⟩
          refine ⟨h1, fun l hl => ?_⟩
          rcases List.mem_cons.1 hl with h | h
          · rw [h]; exact hb
          · exact h2 l h
        · rintro ⟨h1, h2⟩
          exact ⟨h1, fun l hl => h2 l (List.mem_cons_of_mem _ hl)⟩
      split_ifs <;> exact key

theorem acquireDecision_ret (msg : List Char) (s : Signers) :
    (acquireDecision msg s).ret = true ↔ (s.GoodSigners ≠ [] ∧ s.BadSigners = []) := by
  unfold acquireDecision
  cases hG : s.GoodSigners <;> cases hB : s.BadSigners <;> cases hN : s.NoPubKeySigners <;>
    simp

theorem acquireDecision_done (msg : List Char) (s : Signers) :
    (acquireDecision msg s).done
      = if s.GoodSigners ≠ [] ∧ s.BadSigners = []
        then some (s.GoodSigners ++ s.BadSigners ++ s.NoPubKeySigners) else none := by
  unfold acquireDecision
  cases hG : s.GoodSigners <;> cases hB : s.BadSigners <;> cases hN : s.NoPubKeySigners <;>
    simp

/-- C23: when the helper was started, the status string `VerifyGetSigners`
returns is chosen by the exit status and by whether Good is empty: exit status
0 gives the empty string when Good is not empty and the `Internal error`
message when it is, 1 the invalid-signature message, 111 the could-not-execute
message, 112 the NODATA message, every other status the `Unknown error`
message; the string is empty exactly when the exit status is 0 and Good is not
empty. -/
theorem status_string_by_exit_status (h : HelperRun) (s : Signers)
    (hp : h.pipeFails = false) (hf : h.forkFails = false) :
    (VerifyGetSigners h s).1
      = (if h.exitStatus = 0 then
           (if (VerifyGetSigners h s).2.GoodSigners = [] then
              "Internal error: Good signature, but could not determine key fingerprint?!".toList
            else [])
         else if h.exitStatus = 1 then
           "At least one invalid signature was encountered.".toList
         else if h.exitStatus = 111 then
           "Could not execute 'apt-key' to verify signature (is gnupg installed?)".toList
         else if h.exitStatus = 112 then
           "Clearsigned file isn't valid, got 'NODATA' (does the network require authentication?)".toList
         else "Unknown error executing apt-key".toList)
    ∧ ((VerifyGetSigners h s).1 = [] ↔
        (h.exitStatus = 0 ∧ (VerifyGetSigners h s).2.GoodSigners ≠ [])) := by
  unfold VerifyGetSigners
  simp only [hp, hf, Bool.false_eq_true, if_false]
  unfold exitMessage
  generalize (h.lines.foldl (fun acc buffer => classifyLine buffer acc) s) = t
  constructor
  · cases hG : t.GoodSigners <;> simp
  · by_cases h0 : h.exitStatus = 0
    · cases hG : t.GoodSigners
      · simp only [h0, if_true, List.isEmpty_nil, ne_eq, not_true_eq_false, and_false, iff_false]
        decide
      · simp [h0]
    · simp only [h0, if_false, false_and, iff_false]
      split_ifs <;> decide

/-- C23 for a run of the helper that prints one GOODSIG line and exits 0. -/
theorem status_string_by_exit_status_witness :
    ((HelperRun.mk false false [] ["[GNUPG:] GOODSIG AAAA x\n".toList] 0).pipeFails = false ∧
      (HelperRun.mk false false [] ["[GNUPG:] GOODSIG AAAA x\n".toList] 0).forkFails = false) ∧
    ((VerifyGetSigners (HelperRun.mk false false [] ["[GNUPG:] GOODSIG AAAA x\n".toList] 0)
        Signers.empty).1
      = (if (HelperRun.mk false false [] ["[GNUPG:] GOODSIG AAAA x\n".toList] 0).exitStatus = 0
         then
           (if (VerifyGetSigners
                (HelperRun.mk false false [] ["[GNUPG:] GOODSIG AAAA x\n".toList] 0)
                Signers.empty).2.GoodSigners = [] then
              "Internal error: Good signature, but could not determine key fingerprint?!".toList
            else [])
         else if (HelperRun.mk false false [] ["[GNUPG:] GOODSIG AAAA x\n".toList] 0).exitStatus
             = 1 then
           "At least one invalid signature was encountered.".toList
         else if (HelperRun.mk false false [] ["[GNUPG:] GOODSIG AAAA x\n".toList] 0).exitStatus
             = 111 then
           "Could not execute 'apt-key' to verify signature (is gnupg installed?)".toList
         else if (HelperRun.mk false false [] ["[GNUPG:] GOODSIG AAAA x\n".toList] 0).exitStatus
             = 112 then
           "Clearsigned file isn't valid, got 'NODATA' (does the network require authentication?)".toList
         else "Unknown error executing apt-key".toList)
    ∧ ((VerifyGetSigners (HelperRun.mk false false [] ["[GNUPG:] GOODSIG AAAA x\n".toList] 0)
          Signers.empty).1 = [] ↔
        ((HelperRun.mk false false [] ["[GNUPG:] GOODSIG AAAA x\n".toList] 0).exitStatus = 0 ∧
          (VerifyGetSigners (HelperRun.mk false false [] ["[GNUPG:] GOODSIG AAAA x\n".toList] 0)
            Signers.empty).2.GoodSigners ≠ []))) :=
  ⟨⟨rfl, rfl⟩,
   status_string_by_exit_status
     (HelperRun.mk false false [] ["[GNUPG:] GOODSIG AAAA x\n".toList] 0) Signers.empty rfl rfl⟩

end GPGV

namespace GPGV

theorem appendLines_eq (errmsg : List Char) (v : List (List Char)) :
    appendLines errmsg v = errmsg ++ (v.map (fun I => I ++ "\n".toList)).flatten := by
  unfold appendLines
  induction v generalizing errmsg with
  | nil => simp
  | cons x xs ih => rw [List.foldl_cons, ih]; simp

/-- The error text when one of Bad, Worthless, NoPubKey is not empty: one
section per non-empty list, a heading followed by the entries, one per line. -/
theorem buildErrmsg_sections (msg : List Char) (s : Signers)
    (h : ¬ (s.BadSigners = [] ∧ s.WorthlessSigners = [] ∧ s.NoPubKeySigners = [])) :
    buildErrmsg msg s
      = (if s.BadSigners = [] then [] else
          "The following signatures were invalid:\n".toList
            ++ (s.BadSigners.map (fun I => I ++ "\n".toList)).flatten)
        ++ ((if s.WorthlessSigners = [] then [] else
          "The following signatures were invalid:\n".toList
            ++ (s.WorthlessSigners.map (fun I => I ++ "\n".toList)).flatten)
        ++ (if s.NoPubKeySigners = [] then [] else
          "The following signatures couldn't be verified because the public key is not available:\n".toList
            ++ (s.NoPubKeySigners.map (fun I => I ++ "\n".toList)).flatten)) := by
  unfold buildErrmsg
  simp only [appendLines_eq]
  generalize "The following signatures were invalid:\n".toList = H1
  generalize "The following signatures couldn't be verified because the public key is not available:\n".toList = H2
  generalize "\n".toList = nl
  cases hB : s.BadSigners <;> cases hW : s.WorthlessSigners <;> cases hN : s.NoPubKeySigners
  · exact absurd ⟨hB, hW, hN⟩ h
  all_goals simp

theorem VerifyGetSigners_keywords (h : HelperRun) :
    (∀ e ∈ (VerifyGetSigners h Signers.empty).2.GoodSigners, e.head? = some 'G') ∧
    (∀ e ∈ (VerifyGetSigners h Signers.empty).2.BadSigners,
        e.head? = some 'B' ∨ e.head? = some 'N') ∧
    (∀ e ∈ (VerifyGetSigners h Signers.empty).2.NoPubKeySigners, e.head? = some 'N') ∧
    (∀ e ∈ (VerifyGetSigners h Signers.empty).2.WorthlessSigners,
        e.head? = some 'K' ∨ e.head? = some 'R') := by
  unfold VerifyGetSigners
  by_cases hp : h.pipeFails = true
  · simp [hp, Signers.empty]
  · by_cases hf : h.forkFails = true
    · simp [hp, hf, Signers.empty]
    · simp only [hp, hf, Bool.false_eq_true, if_false]
      exact lines_keep_keywords h.lines Signers.empty (by simp [Signers.empty])
        (by simp [Signers.empty]) (by simp [Signers.empty]) (by simp [Signers.empty])

/-- C24: whenever `URIAcquire` succeeds, the `GPGVOutput` handed to `URIDone` is
Good, then Bad, then NoPubKey, each in its own order, and no entry of Worthless
occurs in it. -/
theorem signer_lines_on_success (h : HelperRun) (hret : (URIAcquire h).ret = true) :
    (URIAcquire h).done
      = some ((VerifyGetSigners h Signers.empty).2.GoodSigners
          ++ (VerifyGetSigners h Signers.empty).2.BadSigners
          ++ (VerifyGetSigners h Signers.empty).2.NoPubKeySigners)
    ∧ ∀ e ∈ (VerifyGetSigners h Signers.empty).2.WorthlessSigners,
        e ∉ (VerifyGetSigners h Signers.empty).2.GoodSigners
          ++ (VerifyGetSigners h Signers.empty).2.BadSigners
          ++ (VerifyGetSigners h Signers.empty).2.NoPubKeySigners := by
  have hr : (acquireDecision (VerifyGetSigners h Signers.empty).1
      (VerifyGetSigners h Signers.empty).2).ret = true := hret
  rw [acquireDecision_ret] at hr
  constructor
  · show (acquireDecision _ _).done = _
    rw [acquireDecision_done, if_pos hr]
  · obtain ⟨kG, kB, kN, kW⟩ := VerifyGetSigners_keywords h
    intro e he hmem
    have hW := kW e he
    rcases List.mem_append.1 hmem with h1 | h1
    · rcases List.mem_append.1 h1 with h2 | h2
      · have := kG e h2
        rcases hW with hW | hW <;> rw [hW] at this <;> revert this <;> decide
      · have := kB e h2
        rcases hW with hW | hW <;> rcases this with this | this <;> rw [hW] at this <;>
          revert this <;> decide
    · have := kN e h1
      rcases hW with hW | hW <;> rw [hW] at this <;> revert this <;> decide

set_option maxRecDepth 100000 in
/-- C24 for a run that prints a GOODSIG, a KEYEXPIRED and a NO_PUBKEY line. -/
theorem signer_lines_on_success_witness :
    (URIAcquire (HelperRun.mk false false []
        ["[GNUPG:] GOODSIG AAAA x\n".toList, "[GNUPG:] KEYEXPIRED 12\n".toList,
         "[GNUPG:] NO_PUBKEY BBBB\n".toList] 0)).ret = true
    ∧ ((URIAcquire (HelperRun.mk false false []
        ["[GNUPG:] GOODSIG AAAA x\n".toList, "[GNUPG:] KEYEXPIRED 12\n".toList,
         "[GNUPG:] NO_PUBKEY BBBB\n".toList] 0)).done
      = some ((VerifyGetSigners (HelperRun.mk false false []
            ["[GNUPG:] GOODSIG AAAA x\n".toList, "[GNUPG:] KEYEXPIRED 12\n".toList,
             "[GNUPG:] NO_PUBKEY BBBB\n".toList] 0) Signers.empty).2.GoodSigners
          ++ (VerifyGetSigners (HelperRun.mk false false []
            ["[GNUPG:] GOODSIG AAAA x\n".toList, "[GNUPG:] KEYEXPIRED 12\n".toList,
             "[GNUPG:] NO_PUBKEY BBBB\n".toList] 0) Signers.empty).2.BadSigners
          ++ (VerifyGetSigners (HelperRun.mk false false []
            ["[GNUPG:] GOODSIG AAAA x\n".toList, "[GNUPG:] KEYEXPIRED 12\n".toList,
             "[GNUPG:] NO_PUBKEY BBBB\n".toList] 0) Signers.empty).2.NoPubKeySigners)
    ∧ ∀ e ∈ (VerifyGetSigners (HelperRun.mk false false []
            ["[GNUPG:] GOODSIG AAAA x\n".toList, "[GNUPG:] KEYEXPIRED 12\n".toList,
             "[GNUPG:] NO_PUBKEY BBBB\n".toList] 0) Signers.empty).2.WorthlessSigners,
        e ∉ (VerifyGetSigners (HelperRun.mk false false []
            ["[GNUPG:] GOODSIG AAAA x\n".toList, "[GNUPG:] KEYEXPIRED 12\n".toList,
             "[GNUPG:] NO_PUBKEY BBBB\n".toList] 0) Signers.empty).2.GoodSigners
          ++ (VerifyGetSigners (HelperRun.mk false false []
            ["[GNUPG:] GOODSIG AAAA x\n".toList, "[GNUPG:] KEYEXPIRED 12\n".toList,
             "[GNUPG:] NO_PUBKEY BBBB\n".toList] 0) Signers.empty).2.BadSigners
          ++ (VerifyGetSigners (HelperRun.mk false false []
            ["[GNUPG:] GOODSIG AAAA x\n".toList, "[GNUPG:] KEYEXPIRED 12\n".toList,
             "[GNUPG:] NO_PUBKEY BBBB\n".toList] 0) Signers.empty).2.NoPubKeySigners) :=
  ⟨by decide,
   signer_lines_on_success (HelperRun.mk false false []
        ["[GNUPG:] GOODSIG AAAA x\n".toList, "[GNUPG:] KEYEXPIRED 12\n".toList,
         "[GNUPG:] NO_PUBKEY BBBB\n".toList] 0) (by decide)⟩

theorem VerifyGetSigners_signers (h : HelperRun) :
    (VerifyGetSigners h Signers.empty).2
      = if h.pipeFails = true ∨ h.forkFails = true then Signers.empty
        else h.lines.foldl (fun acc buffer => classifyLine buffer acc) Signers.empty := by
  unfold VerifyGetSigners
  by_cases hp : h.pipeFails = true
  · simp [hp]
  · by_cases hf : h.forkFails = true
    · simp [hp, hf]
    · simp [hp, hf]

theorem fold_bad_entries (lines : List (List Char)) (s : Signers) :
    (lines.foldl (fun acc buffer => classifyLine buffer acc) s).BadSigners
      = s.BadSigners
        ++ (lines.filter (fun l => decide (GNUPGBADSIG <+: l ∨ GNUPGNODATA <+: l))).map
            afterPrefix := by
  induction lines generalizing s with
  | nil => simp
  | cons buffer rest ih =>
    rw [List.foldl_cons, ih, classifyLine_eq_route]
    by_cases hb : GNUPGBADSIG <+: buffer ∨ GNUPGNODATA <+: buffer
    · rw [if_pos hb, List.filter_cons_of_pos (by simpa using hb)]
      simp
    · rw [if_neg hb, List.filter_cons_of_neg (by simpa using hb)]
      split_ifs <;> rfl

/-- C25: whenever the Bad list is not empty, `URIAcquire` fails, and the text
given to `_error->Error` is the heading `The following signatures were invalid:`
followed by every entry of Bad, in order, one per line, and then by the
sections for Worthless and NoPubKey if these are not empty.  The entries of Bad
are, in the order of the helper output, the lines that start with
`[GNUPG:] BADSIG` or `[GNUPG:] NODATA`, each without its `[GNUPG:] ` prefix and
cut at the first NUL: the entry for `[GNUPG:] BADSIG<rest>` is `BADSIG<rest>`,
so the entry for `[GNUPG:] BADSIG CCCC` is `BADSIG CCCC`. -/
theorem bad_signers_fail_with_heading (h : HelperRun)
    (hbad : (VerifyGetSigners h Signers.empty).2.BadSigners ≠ []) :
    (URIAcquire h).ret = false
    ∧ (URIAcquire h).error
        = some ("The following signatures were invalid:\n".toList
            ++ ((VerifyGetSigners h Signers.empty).2.BadSigners.map
                (fun I => I ++ "\n".toList)).flatten
            ++ ((if (VerifyGetSigners h Signers.empty).2.WorthlessSigners = [] then []
                else "The following signatures were invalid:\n".toList
                  ++ ((VerifyGetSigners h Signers.empty).2.WorthlessSigners.map
                      (fun I => I ++ "\n".toList)).flatten)
              ++ (if (VerifyGetSigners h Signers.empty).2.NoPubKeySigners = [] then []
                else
                  "The following signatures couldn't be verified because the public key is not available:\n".toList
                  ++ ((VerifyGetSigners h Signers.empty).2.NoPubKeySigners.map
                      (fun I => I ++ "\n".toList)).flatten)))
    ∧ (VerifyGetSigners h Signers.empty).2.BadSigners
        = (h.lines.filter (fun l => decide (GNUPGBADSIG <+: l ∨ GNUPGNODATA <+: l))).map
            afterPrefix
    ∧ (∀ rest : List Char,
        afterPrefix ("[GNUPG:] BADSIG".toList ++ rest) = "BADSIG".toList ++ cstr rest)
    ∧ (∀ rest : List Char,
        afterPrefix ("[GNUPG:] NODATA".toList ++ rest) = "NODATA".toList ++ cstr rest) := by
  have hne : ¬ ((VerifyGetSigners h Signers.empty).2.BadSigners = [] ∧
      (VerifyGetSigners h Signers.empty).2.WorthlessSigners = [] ∧
      (VerifyGetSigners h Signers.empty).2.NoPubKeySigners = []) := fun h3 => hbad h3.1
  have hsec := buildErrmsg_sections (VerifyGetSigners h Signers.empty).1 _ hne
  rw [if_neg hbad] at hsec
  have hG : ((VerifyGetSigners h Signers.empty).2.GoodSigners.isEmpty
      || !(VerifyGetSigners h Signers.empty).2.BadSigners.isEmpty) = true := by
    cases hB : (VerifyGetSigners h Signers.empty).2.BadSigners
    · exact absurd hB hbad
    · simp
  have hG3 : ((VerifyGetSigners h Signers.empty).2.GoodSigners.isEmpty
      || !(VerifyGetSigners h Signers.empty).2.BadSigners.isEmpty
      || !(VerifyGetSigners h Signers.empty).2.NoPubKeySigners.isEmpty) = true := by
    rw [hG]; rfl
  have hdec : acquireDecision (VerifyGetSigners h Signers.empty).1
        (VerifyGetSigners h Signers.empty).2
      = { ret := false,
          error := some (buildErrmsg (VerifyGetSigners h Signers.empty).1
            (VerifyGetSigners h Signers.empty).2),
          done := none } := by
    unfold acquireDecision
    rw [if_pos hG3]
    simp only []
    rw [if_pos hG]
  refine ⟨?_, ?_, ?_, ?_, ?_⟩
  · show (acquireDecision _ _).ret = false
    rw [hdec]
  · have herr : (URIAcquire h).error
        = some (buildErrmsg (VerifyGetSigners h Signers.empty).1
            (VerifyGetSigners h Signers.empty).2) := by
      show (acquireDecision _ _).error = _
      rw [hdec]
    rw [hsec] at herr
    exact herr
  · have hs := VerifyGetSigners_signers h
    by_cases hpf : h.pipeFails = true ∨ h.forkFails = true
    · rw [if_pos hpf] at hs
      rw [hs] at hbad
      exact absurd rfl hbad
    · rw [if_neg hpf] at hs
      rw [hs, fold_bad_entries]
      rfl
  · intro rest
    have : "[GNUPG:] BADSIG".toList = "[GNUPG:] ".toList ++ "BADSIG".toList := by decide
    rw [this]
    exact afterPrefix_keyword "BADSIG".toList rest (by decide)
  · intro rest
    have : "[GNUPG:] NODATA".toList = "[GNUPG:] ".toList ++ "NODATA".toList := by decide
    rw [this]
    exact afterPrefix_keyword "NODATA".toList rest (by decide)

set_option maxRecDepth 100000 in
/-- The error text for a run that prints the one line `[GNUPG:] BADSIG CCCC`
and exits 1: the Bad list is `BADSIG CCCC`, and the text is the heading and
that entry. -/
theorem bad_signature_error_text :
    (VerifyGetSigners (HelperRun.mk false false [] ["[GNUPG:] BADSIG CCCC".toList] 1)
        Signers.empty).2.BadSigners = ["BADSIG CCCC".toList]
    ∧ (URIAcquire (HelperRun.mk false false [] ["[GNUPG:] BADSIG CCCC".toList] 1)).error
      = some "The following signatures were invalid:\nBADSIG CCCC\n".toList := by
  decide

set_option maxRecDepth 100000 in
/-- C25 for a run that prints `[GNUPG:] BADSIG CCCC` and exits 1. -/
theorem bad_signers_fail_with_heading_witness :
    (VerifyGetSigners (HelperRun.mk false false [] ["[GNUPG:] BADSIG CCCC".toList] 1)
        Signers.empty).2.BadSigners ≠ []
    ∧ ((URIAcquire (HelperRun.mk false false [] ["[GNUPG:] BADSIG CCCC".toList] 1)).ret = false
      ∧ (URIAcquire (HelperRun.mk false false [] ["[GNUPG:] BADSIG CCCC".toList] 1)).error
          = some ("The following signatures were invalid:\n".toList
              ++ ((VerifyGetSigners
                    (HelperRun.mk false false [] ["[GNUPG:] BADSIG CCCC".toList] 1)
                    Signers.empty).2.BadSigners.map (fun I => I ++ "\n".toList)).flatten
              ++ ((if (VerifyGetSigners
                    (HelperRun.mk false false [] ["[GNUPG:] BADSIG CCCC".toList] 1)
                    Signers.empty).2.WorthlessSigners = [] then []
                  else "The following signatures were invalid:\n".toList
                    ++ ((VerifyGetSigners
                          (HelperRun.mk false false [] ["[GNUPG:] BADSIG CCCC".toList] 1)
                          Signers.empty).2.WorthlessSigners.map
                        (fun I => I ++ "\n".toList)).flatten)
                ++ (if (VerifyGetSigners
                    (HelperRun.mk false false [] ["[GNUPG:] BADSIG CCCC".toList] 1)
                    Signers.empty).2.NoPubKeySigners = [] then []
                  else
                    "The following signatures couldn't be verified because the public key is not available:\n".toList
                    ++ ((VerifyGetSigners
                          (HelperRun.mk false false [] ["[GNUPG:] BADSIG CCCC".toList] 1)
                          Signers.empty).2.NoPubKeySigners.map
                        (fun I => I ++ "\n".toList)).flatten)))
      ∧ (VerifyGetSigners (HelperRun.mk false false [] ["[GNUPG:] BADSIG CCCC".toList] 1)
            Signers.empty).2.BadSigners
          = ((HelperRun.mk false false [] ["[GNUPG:] BADSIG CCCC".toList] 1).lines.filter
              (fun l => decide (GNUPGBADSIG <+: l ∨ GNUPGNODATA <+: l))).map afterPrefix
      ∧ (∀ rest : List Char,
          afterPrefix ("[GNUPG:] BADSIG".toList ++ rest) = "BADSIG".toList ++ cstr rest)
      ∧ (∀ rest : List Char,
          afterPrefix ("[GNUPG:] NODATA".toList ++ rest) = "NODATA".toList ++ cstr rest)) :=
  ⟨by decide,
   bad_signers_fail_with_heading (HelperRun.mk false false [] ["[GNUPG:] BADSIG CCCC".toList] 1)
     (by decide)⟩

end GPGV

namespace GPGV

/-- C26: two runs of the verifier whose helper output lines are the same, and
in which `pipe` and `fork` fared the same, get the same decision and the same
signer lines from `URIAcquire`, whatever the two exit statuses are.  The
decision is success exactly when the helper was started, some line read
starts with `[GNUPG:] GOODSIG` and no line read starts with `[GNUPG:] BADSIG`
or `[GNUPG:] NODATA`: the exit status does not enter. -/
theorem exit_status_changes_only_the_message (h1 h2 : HelperRun)
    (hl : h1.lines = h2.lines) (hp : h1.pipeFails = h2.pipeFails)
    (hf : h1.forkFails = h2.forkFails) :
    (URIAcquire h1).ret = (URIAcquire h2).ret
    ∧ (URIAcquire h1).done = (URIAcquire h2).done
    ∧ ((URIAcquire h1).ret = true ↔
        (h1.pipeFails = false ∧ h1.forkFails = false
          ∧ (∃ l ∈ h1.lines, GNUPGGOODSIG <+: l)
          ∧ ∀ l ∈ h1.lines, ¬ (GNUPGBADSIG <+: l ∨ GNUPGNODATA <+: l))) := by
  have hs : (VerifyGetSigners h1 Signers.empty).2 = (VerifyGetSigners h2 Signers.empty).2 := by
    rw [VerifyGetSigners_signers, VerifyGetSigners_signers, hl, hp, hf]
  have hret : ∀ h : HelperRun, (URIAcquire h).ret = true ↔
      ((VerifyGetSigners h Signers.empty).2.GoodSigners ≠ [] ∧
        (VerifyGetSigners h Signers.empty).2.BadSigners = []) :=
    fun h => acquireDecision_ret _ _
  have hdone : ∀ h : HelperRun, (URIAcquire h).done
      = if (VerifyGetSigners h Signers.empty).2.GoodSigners ≠ [] ∧
          (VerifyGetSigners h Signers.empty).2.BadSigners = []
        then some ((VerifyGetSigners h Signers.empty).2.GoodSigners
          ++ (VerifyGetSigners h Signers.empty).2.BadSigners
          ++ (VerifyGetSigners h Signers.empty).2.NoPubKeySigners) else none :=
    fun h => acquireDecision_done _ _
  refine ⟨?_, ?_, ?_⟩
  · rw [Bool.eq_iff_iff, hret h1, hret h2, hs]
  · rw [hdone h1, hdone h2, hs]
  · rw [hret h1, VerifyGetSigners_signers]
    by_cases hpf : h1.pipeFails = true ∨ h1.forkFails = true
    · rw [if_pos hpf]
      constructor
      · intro h
        exact absurd rfl h.1
      · rintro ⟨a, b, _⟩
        rcases hpf with h | h
        · rw [a] at h; exact absurd h (by decide)
        · rw [b] at h; exact absurd h (by decide)
    · rw [if_neg hpf]
      have a : h1.pipeFails = false := by
        cases hx : h1.pipeFails
        · rfl
        · exact absurd (Or.inl hx) hpf
      have b : h1.forkFails = false := by
        cases hx : h1.forkFails
        · rfl
        · exact absurd (Or.inr hx) hpf
      have hg := fold_good_empty h1.lines Signers.empty
      have hb := fold_bad_empty h1.lines Signers.empty
      constructor
      · rintro ⟨g, bd⟩
        refine ⟨a, b, ?_, (hb.1 bd).2⟩
        by_contra hno
        apply g
        rw [hg]
        refine ⟨rfl, fun l hl hpre => hno ⟨l, hl, hpre⟩⟩
      · rintro ⟨_, _, ⟨l, hl, hpre⟩, hnb⟩
        refine ⟨fun g => (hg.1 g).2 l hl hpre, hb.2 ⟨rfl, hnb⟩⟩

set_option maxRecDepth 100000 in
/-- C26 for two runs that print the same GOODSIG line, one exiting 0, the other
exiting 1. -/
theorem exit_status_changes_only_the_message_witness :
    ((HelperRun.mk false false [] ["[GNUPG:] GOODSIG AAAA x\n".toList] 1).lines
        = (HelperRun.mk false false [] ["[GNUPG:] GOODSIG AAAA x\n".toList] 0).lines
      ∧ (HelperRun.mk false false [] ["[GNUPG:] GOODSIG AAAA x\n".toList] 1).pipeFails
        = (HelperRun.mk false false [] ["[GNUPG:] GOODSIG AAAA x\n".toList] 0).pipeFails
      ∧ (HelperRun.mk false false [] ["[GNUPG:] GOODSIG AAAA x\n".toList] 1).forkFails
        = (HelperRun.mk false false [] ["[GNUPG:] GOODSIG AAAA x\n".toList] 0).forkFails)
    ∧ ((URIAcquire (HelperRun.mk false false [] ["[GNUPG:] GOODSIG AAAA x\n".toList] 1)).ret
        = (URIAcquire (HelperRun.mk false false [] ["[GNUPG:] GOODSIG AAAA x\n".toList] 0)).ret
      ∧ (URIAcquire (HelperRun.mk false false [] ["[GNUPG:] GOODSIG AAAA x\n".toList] 1)).done
        = (URIAcquire (HelperRun.mk false false [] ["[GNUPG:] GOODSIG AAAA x\n".toList] 0)).done
      ∧ ((URIAcquire (HelperRun.mk false false [] ["[GNUPG:] GOODSIG AAAA x\n".toList] 1)).ret
          = true ↔
        ((HelperRun.mk false false [] ["[GNUPG:] GOODSIG AAAA x\n".toList] 1).pipeFails = false
          ∧ (HelperRun.mk false false [] ["[GNUPG:] GOODSIG AAAA x\n".toList] 1).forkFails
            = false
          ∧ (∃ l ∈ (HelperRun.mk false false [] ["[GNUPG:] GOODSIG AAAA x\n".toList] 1).lines,
              GNUPGGOODSIG <+: l)
          ∧ ∀ l ∈ (HelperRun.mk false false [] ["[GNUPG:] GOODSIG AAAA x\n".toList] 1).lines,
              ¬ (GNUPGBADSIG <+: l ∨ GNUPGNODATA <+: l)))) :=
  ⟨⟨rfl, rfl, rfl⟩,
   exit_status_changes_only_the_message
     (HelperRun.mk false false [] ["[GNUPG:] GOODSIG AAAA x\n".toList] 1)
     (HelperRun.mk false false [] ["[GNUPG:] GOODSIG AAAA x\n".toList] 0) rfl rfl rfl⟩

theorem exitMessage_first (exitStatus : Nat) (s : Signers) (hG : s.GoodSigners = []) :
    ∃ c t, exitMessage exitStatus s = c :: t ∧ c ≠ NUL := by
  unfold exitMessage
  rw [hG]
  split_ifs
  · exact ⟨'I', _, rfl, by decide⟩
  · exact absurd rfl ‹¬ ([] : List (List Char)).isEmpty = true›
  · exact ⟨'A', _, rfl, by decide⟩
  · exact ⟨'C', _, rfl, by decide⟩
  · exact ⟨'C', _, rfl, by decide⟩
  · exact ⟨'U', _, rfl, by decide⟩

theorem VerifyGetSigners_first (h : HelperRun)
    (hG : (VerifyGetSigners h Signers.empty).2.GoodSigners = []) :
    ∃ c t, (VerifyGetSigners h Signers.empty).1 = c :: t ∧ c ≠ NUL := by
  unfold VerifyGetSigners at hG ⊢
  by_cases hp : h.pipeFails = true
  · rw [if_pos hp]
    exact ⟨'C', _, rfl, by decide⟩
  · rw [if_neg hp] at hG ⊢
    by_cases hf : h.forkFails = true
    · rw [if_pos hf]
      exact ⟨'C', _, rfl, by decide⟩
    · rw [if_neg hf] at hG ⊢
      exact exitMessage_first _ _ hG

theorem buildErrmsg_first (msg : List Char) (s : Signers)
    (h : ¬ (s.BadSigners = [] ∧ s.WorthlessSigners = [] ∧ s.NoPubKeySigners = [])) :
    ∃ t, buildErrmsg msg s = 'T' :: t := by
  rw [buildErrmsg_sections msg s h]
  by_cases hB : s.BadSigners = []
  · by_cases hW : s.WorthlessSigners = []
    · have hN : s.NoPubKeySigners ≠ [] := fun hN => h ⟨hB, hW, hN⟩
      rw [if_pos hB, if_pos hW, if_neg hN]
      exact ⟨_, rfl⟩
    · rw [if_pos hB, if_neg hW]
      exact ⟨_, rfl⟩
  · rw [if_neg hB]
    exact ⟨_, rfl⟩

/-- C28: whenever `URIAcquire` fails it reports an error message, and that
message is not empty, also when read as a C string: it is either the status
string of `VerifyGetSigners`, which is empty only when Good is not empty, or a
text that starts with a heading. -/
theorem failure_message_nonempty (h : HelperRun) (hret : (URIAcquire h).ret = false) :
    ∃ m, (URIAcquire h).error = some m ∧ m ≠ [] ∧ cstr m ≠ [] := by
  have hfail : (VerifyGetSigners h Signers.empty).2.GoodSigners = [] ∨
      (VerifyGetSigners h Signers.empty).2.BadSigners ≠ [] := by
    by_contra hcon
    rw [not_or, not_not] at hcon
    have hok : (URIAcquire h).ret = true :=
      (acquireDecision_ret (VerifyGetSigners h Signers.empty).1 _).2 hcon
    rw [hret] at hok
    exact absurd hok (by decide)
  have hG : ((VerifyGetSigners h Signers.empty).2.GoodSigners.isEmpty
      || !(VerifyGetSigners h Signers.empty).2.BadSigners.isEmpty) = true := by
    rcases hfail with h1 | h1
    · rw [h1]; rfl
    · cases hB : (VerifyGetSigners h Signers.empty).2.BadSigners
      · exact absurd hB h1
      · simp
  have hG3 : ((VerifyGetSigners h Signers.empty).2.GoodSigners.isEmpty
      || !(VerifyGetSigners h Signers.empty).2.BadSigners.isEmpty
      || !(VerifyGetSigners h Signers.empty).2.NoPubKeySigners.isEmpty) = true := by
    rw [hG]; rfl
  have herr : (URIAcquire h).error
      = some (buildErrmsg (VerifyGetSigners h Signers.empty).1
          (VerifyGetSigners h Signers.empty).2) := by
    show (acquireDecision _ _).error = _
    unfold acquireDecision
    rw [if_pos hG3]
    simp only []
    rw [if_pos hG]
  have hfirst : ∃ c t, buildErrmsg (VerifyGetSigners h Signers.empty).1
      (VerifyGetSigners h Signers.empty).2 = c :: t ∧ c ≠ NUL := by
    by_cases hall : (VerifyGetSigners h Signers.empty).2.BadSigners = [] ∧
        (VerifyGetSigners h Signers.empty).2.WorthlessSigners = [] ∧
        (VerifyGetSigners h Signers.empty).2.NoPubKeySigners = []
    · have hGe : (VerifyGetSigners h Signers.empty).2.GoodSigners = [] := by
        rcases hfail with h1 | h1
        · exact h1
        · exact absurd hall.1 h1
      have hmsg : buildErrmsg (VerifyGetSigners h Signers.empty).1
          (VerifyGetSigners h Signers.empty).2 = (VerifyGetSigners h Signers.empty).1 := by
        unfold buildErrmsg
        rw [hall.1, hall.2.1, hall.2.2]
        rfl
      rw [hmsg]
      exact VerifyGetSigners_first h hGe
    · obtain ⟨t, ht⟩ := buildErrmsg_first (VerifyGetSigners h Signers.empty).1 _ hall
      exact ⟨'T', t, ht, by decide⟩
  obtain ⟨c, t, hct, hc⟩ := hfirst
  refine ⟨_, herr, ?_, ?_⟩
  · rw [hct]; exact List.cons_ne_nil _ _
  · rw [hct]
    unfold cstr
    rw [List.takeWhile_cons]
    have : (c != NUL) = true := by simpa using hc
    rw [this]
    exact List.cons_ne_nil _ _

set_option maxRecDepth 100000 in
/-- C28 for a run in which the helper prints nothing and exits 0. -/
theorem failure_message_nonempty_witness :
    (URIAcquire (HelperRun.mk false false [] [] 0)).ret = false
    ∧ ∃ m, (URIAcquire (HelperRun.mk false false [] [] 0)).error = some m ∧ m ≠ []
        ∧ cstr m ≠ [] :=
  ⟨by decide, failure_message_nonempty (HelperRun.mk false false [] [] 0) (by decide)⟩

end GPGV

/-! ## `Transfer-Encoding: chunked` together with `Content-Length` -/

namespace Http

theorem HeaderLine_chunked (StrToTime : List Char → Option Int) (s : ServerState) :
    s.HeaderLine StrToTime "Transfer-Encoding: chunked".toList
      = { ok := true,
          Srv := { s with HaveContent := true, Encoding := TransferEncoding.Chunked },
          error := none } := by
  have hfind : findSpace "Transfer-Encoding: chunked".toList = some 18 := by decide
  unfold ServerState.HeaderLine
  rw [if_neg (by decide), if_neg (by decide), hfind]
  simp only []
  rw [if_neg (by decide), if_neg (by decide), if_neg (by decide), if_neg (by decide),
    if_neg (by decide), if_pos (by decide), if_pos (by decide)]

/-- C27: from a server state with StartPos = 0, as `RunHeaders` sets it
(together with Encoding = Closes, which is not needed), the lines
`Transfer-Encoding: chunked` and `Content-Length: n` give the same result in
either order: both lines are accepted and the state ends with
Encoding = Chunked, HaveContent = true and Size = n (the largest unsigned long
if n exceeds it), everything else as before. -/
theorem chunked_and_content_length_in_either_order (StrToTime : List Char → Option Int)
    (s : ServerState) (ds : List Char)
    (hS : s.StartPos = 0) (hne : ds ≠ []) (hd : ∀ c ∈ ds, c.isDigit = true)
    (hlen : ("Content-Length: ".toList ++ ds).length < MAXLEN) :
    (s.HeaderLine StrToTime "Transfer-Encoding: chunked".toList).ok = true
    ∧ (s.HeaderLine StrToTime ("Content-Length: ".toList ++ ds)).ok = true
    ∧ (s.HeaderLine StrToTime "Transfer-Encoding: chunked".toList).Srv.HeaderLine StrToTime
        ("Content-Length: ".toList ++ ds)
      = { ok := true,
          Srv := { s with
            HaveContent := true,
            Encoding := TransferEncoding.Chunked,
            Size := min (decimalValue ds) ULONG_MAX },
          error := none }
    ∧ (s.HeaderLine StrToTime ("Content-Length: ".toList ++ ds)).Srv.HeaderLine StrToTime
        "Transfer-Encoding: chunked".toList
      = { ok := true,
          Srv := { s with
            HaveContent := true,
            Encoding := TransferEncoding.Chunked,
            Size := min (decimalValue ds) ULONG_MAX },
          error := none } := by
  refine ⟨?_, ?_, ?_, ?_⟩
  · rw [HeaderLine_chunked]
  · rw [HeaderLine_content_length StrToTime s ds hne hd hlen]
  · rw [HeaderLine_chunked, HeaderLine_content_length StrToTime _ ds hne hd hlen]
    simp [hS]
  · rw [HeaderLine_content_length StrToTime s ds hne hd hlen, HeaderLine_chunked]
    simp [hS]

/-- C27 for the state `RunHeaders` starts from and the line
`Content-Length: 42`. -/
theorem chunked_and_content_length_in_either_order_witness :
    (ServerState.fresh.StartPos = 0
      ∧ "42".toList ≠ [] ∧ (∀ c ∈ "42".toList, c.isDigit = true)
      ∧ ("Content-Length: ".toList ++ "42".toList).length < MAXLEN)
    ∧ ((ServerState.fresh.HeaderLine (fun _ => none) "Transfer-Encoding: chunked".toList).ok
        = true
      ∧ (ServerState.fresh.HeaderLine (fun _ => none)
          ("Content-Length: ".toList ++ "42".toList)).ok = true
      ∧ (ServerState.fresh.HeaderLine (fun _ => none)
          "Transfer-Encoding: chunked".toList).Srv.HeaderLine (fun _ => none)
          ("Content-Length: ".toList ++ "42".toList)
        = { ok := true,
            Srv := { ServerState.fresh with
              HaveContent := true,
              Encoding := TransferEncoding.Chunked,
              Size := min (decimalValue "42".toList) ULONG_MAX },
            error := none }
      ∧ (ServerState.fresh.HeaderLine (fun _ => none)
          ("Content-Length: ".toList ++ "42".toList)).Srv.HeaderLine (fun _ => none)
          "Transfer-Encoding: chunked".toList
        = { ok := true,
            Srv := { ServerState.fresh with
              HaveContent := true,
              Encoding := TransferEncoding.Chunked,
              Size := min (decimalValue "42".toList) ULONG_MAX },
            error := none }) :=
  ⟨⟨by decide, by decide, by decide, by decide⟩,
   chunked_and_content_length_in_either_order (fun _ => none) ServerState.fresh "42".toList
     (by decide) (by decide) (by decide) (by decide)⟩

end Http

/-! ## The failure counter of `HttpMethod::Loop` -/

namespace Http

set_option maxRecDepth 100000 in
/-- C21: two items A and B are queued.  The server closes the connection before
sending a header (one I/O failure of A, FailCounter = 1); on the retry `connect`
fails, so A ends with `Fail` and leaves the queue, but the `continue` skips
`FailCounter = 0`: B starts with FailCounter = 1.  B names another server,
which also closes the connection before sending a header: after this single
I/O failure of B the counter is 2, and the next pass sends
`Massive Server Brain Damage` for B.  The same happens with a header parse
error in place of the failed `connect`: when the retry of A gets the header
block `X`, which `RunHeaders` refuses, A ends with `Fail` and B starts with
FailCounter = 1. -/
theorem failure_counter_survives_connect_failure :
    (LoopState.run (fun _ => none) (fun _ => []) id 50
        [{ PassEv.quiet (ConnectEv.connected [ReadEv.eof] []) with
            arrivals := [itemA, itemB] },
         PassEv.quiet ConnectEv.connectFails]
        LoopState.start).map
        (fun r => (r.1, r.2.Queue, r.2.w.FailCounter, r.2.w.emitted))
      = some (PassEnd.next, [itemB], 1, [Emit.Fail (some "Could not create a socket")])
    ∧ (LoopState.run (fun _ => none) (fun _ => []) id 50
        [{ PassEv.quiet (ConnectEv.connected [ReadEv.eof] []) with
            arrivals := [itemA, itemB] },
         PassEv.quiet ConnectEv.connectFails,
         { PassEv.quiet (ConnectEv.connected [ReadEv.eof] []) with comp := false }]
        LoopState.start).map
        (fun r => (r.1, r.2.Queue, r.2.w.FailCounter, r.2.w.emitted))
      = some (PassEnd.next, [itemB], 2, [Emit.Fail (some "Could not create a socket")])
    ∧ (LoopState.run (fun _ => none) (fun _ => []) id 50
        [{ PassEv.quiet (ConnectEv.connected [ReadEv.eof] []) with
            arrivals := [itemA, itemB] },
         PassEv.quiet ConnectEv.connectFails,
         { PassEv.quiet (ConnectEv.connected [ReadEv.eof] []) with comp := false },
         PassEv.quiet (ConnectEv.connected [] [])]
        LoopState.start).map
        (fun r => (r.1, r.2.Queue, r.2.w.FailCounter, r.2.w.emitted))
      = some (PassEnd.next, [], 0,
          [Emit.Fail (some "Could not create a socket"),
           Emit.Fail (some "Massive Server Brain Damage")])
    ∧ (LoopState.run (fun _ => none) (fun _ => []) id 50
        [{ PassEv.quiet (ConnectEv.connected [ReadEv.eof] []) with
            arrivals := [itemA, itemB] },
         PassEv.quiet (ConnectEv.connected [ReadEv.data "X\r\n\r\n".toList] [])]
        LoopState.start).map
        (fun r => (r.1, r.2.Queue, r.2.w.FailCounter, r.2.w.emitted))
      = some (PassEnd.next, [itemB], 1, [Emit.Fail (some "Bad header line")]) := by
  refine ⟨?_, ?_, ?_, ?_⟩
  · decide
  · decide
  · decide
  · decide

end Http

/-! ## `ServerDie` -/

namespace Http

end Http

end Apt
